import Mathlib

/-!
# Dattorro plate reverb (`src/lib/dattorro/dattorro.c`, `dattorro.h`)

A shallow embedding of the reverberation engine and of the node that hosts it
(`src/dsp/nodes/dtreverb.c`).  Modelling conventions:

* `float` values are rationals (`ℚ`): all arithmetic is exact, the decimal
  literals of the source stand for the rationals they spell, and a division
  by zero gives 0.
* `int` values are mathematical integers (`ℤ`); the C operators `&` and `%`
  are `Int.land` (twos-complement) and `Int.tmod` (truncating remainder,
  with `Int.tmod x 0 = x`).  A conversion from `float` to `int` or `int16_t`
  gives the exact integer, also where the value would not fit the C type.
* a C array is a total function from its index type; whether an index is
  inside the declared extent of the array is stated and proved separately.
* `cosf` and `sinf` come from the C library and are parameters (`Libm`).
* the engine pointer is taken to be non-null.
-/

namespace Dattorro

/-! ## Numeric helpers of the C library -/

/-- The integer `floorf x` denotes. -/
def floorf (x : ℚ) : ℤ := ⌊x⌋

/-- The integer `roundf x` denotes: nearest integer, halves away from zero. -/
def roundf (x : ℚ) : ℤ := if 0 ≤ x then ⌊x + 1 / 2⌋ else -⌊-x + 1 / 2⌋

/-- The C conversion `(int)x` of a float: truncation toward zero. -/
def to_int (x : ℚ) : ℤ := if 0 ≤ x then ⌊x⌋ else ⌈x⌉

/-- The two library functions `dattorro_reverb_process` calls (`math.h`). -/
structure Libm where
  cosf : ℚ → ℚ
  sinf : ℚ → ℚ

/-- The constant `M_PI` (dattorro.c line 6). -/
def M_PI : ℚ := 3.14159265358979323846

/-- A counted loop `for (int i = 0; i < n; ++i) body`: the body is run for
`i = 0, 1, ..., n - 1` in this order. -/
def for_loop {σ : Type} (n : ℕ) (body : ℕ → σ → σ) (s : σ) : σ :=
  (List.range n).foldl (fun acc i => body i acc) s

/-! ## dattorro.h -/

/-- The macro `#define DATTORRO_MAX_SR 44100`. -/
def DATTORRO_MAX_SR : ℚ := 44100

/-! The identifiers of `enum DattorroReverbParameter` (dattorro.h lines 20-34), as the
integers the enumeration gives them. -/

def PRE_DELAY : ℤ := 0
def BANDWIDTH : ℤ := 1
def INPUT_DIFFUSION_1 : ℤ := 2
def INPUT_DIFFUSION_2 : ℤ := 3
def DECAY : ℤ := 4
def DECAY_DIFFUSION_1 : ℤ := 5
def DECAY_DIFFUSION_2 : ℤ := 6
def DAMPING : ℤ := 7
def EXCURSION_RATE : ℤ := 8
def EXCURSION_DEPTH : ℤ := 9
def WET : ℤ := 10
def DRY : ℤ := 11
def NUM_DATTORRO_PARAMS : ℤ := 12

/-- Count of leading zero bits of a 32-bit word, the value of the compiler
builtin `__builtin_clz` used by `NEXT_POW2`. -/
def clz32 (x : ℕ) : ℕ := ((List.range 32).filter (fun i => x < 2 ^ i)).length

/-- The macro `#define NEXT_POW2(n) (1 << (32 - __builtin_clz(n - 1)))`. -/
def NEXT_POW2 (n : ℤ) : ℤ := 2 ^ (32 - clz32 (n - 1).toNat)

/-- The macro `#define DELAY_BUF_SIZE_5 NEXT_POW2((int)(0.149625349f * DATTORRO_MAX_SR))`,
the number of entries of `DelayLine.buffer`. -/
def DELAY_BUF_SIZE_5 : ℤ := NEXT_POW2 (to_int (0.149625349 * DATTORRO_MAX_SR))

/-- The type `typedef struct { float buffer[DELAY_BUF_SIZE_5]; int size; int write_pos;
int mask; } DelayLine;` -/
structure DelayLine where
  buffer : ℤ → ℚ
  size : ℤ
  write_pos : ℤ
  mask : ℤ

/-- The type `struct DattorroReverb`.  `delay_buf k` stands for the member
`delay_buf_k`. -/
structure DattorroReverb where
  sample_rate : ℚ
  params : ℤ → ℚ
  delay_buf : ℕ → ℤ → ℚ
  delays : ℕ → DelayLine
  taps : ℕ → ℤ
  pre_delay_buffer : ℤ → ℚ
  pre_delay_length : ℤ
  pre_delay_write_pos : ℤ
  lp1 : ℚ
  lp2 : ℚ
  lp3 : ℚ
  exc_phase : ℚ

/-! ## dattorro.c -/

/-- The loop of `next_power_of_two`: `while (power < n) power <<= 1;`, run for
at most `fuel` iterations. -/
def next_power_of_two_loop (n : ℤ) : ℕ → ℤ → ℤ
  | 0, power => power
  | fuel + 1, power =>
    if power < n then next_power_of_two_loop n fuel (power * 2) else power

/-- The function `static int next_power_of_two(int n)` (lines 10-17).  The loop gets
`n` iterations of fuel, which `next_power_of_two_ge` shows to be enough. -/
def next_power_of_two (n : ℤ) : ℤ :=
  if n = 0 then 1 else next_power_of_two_loop n n.toNat 1

/-- The function `static void make_delay(...)` (lines 20-31).  The result is the delay line
and the cleared static buffer; `delay_line->buffer` is not assigned (line 24
is commented out). -/
def make_delay (delay_line : DelayLine) (buffer : ℤ → ℚ)
    (length_in_seconds sample_rate : ℚ) : DelayLine × (ℤ → ℚ) :=
  let len := roundf (length_in_seconds * sample_rate)
  let pow2_size := next_power_of_two len
  ({ delay_line with size := len - 1, write_pos := 0, mask := pow2_size - 1 },
   fun k => if 0 ≤ k ∧ k < pow2_size then 0 else buffer k)

/-- Index of the `k`-th sample (`k = 0, 1, 2, 3`) read by `read_delay_cat`:
`(read_pos_base + k) & mask` with
`read_pos_base = write_pos - size + int_i - 1` (lines 38-43). -/
def cat_index (delay : DelayLine) (int_i : ℤ) (k : ℤ) : ℤ :=
  Int.land (delay.write_pos - delay.size + int_i - 1 + k) delay.mask

/-- The function `static float read_delay_cat(const DelayLine* delay, float i)`
(lines 34-50). -/
def read_delay_cat (delay : DelayLine) (i : ℚ) : ℚ :=
  let int_i := floorf i
  let frac := i - int_i
  let x0 := delay.buffer (cat_index delay int_i 0)
  let x1 := delay.buffer (cat_index delay int_i 1)
  let x2 := delay.buffer (cat_index delay int_i 2)
  let x3 := delay.buffer (cat_index delay int_i 3)
  let a := (3 * (x1 - x2) - x0 + x3) * (1 / 2)
  let b := 2 * x2 + x0 - (5 * x1 + x3) * (1 / 2)
  let c := (x2 - x0) * (1 / 2)
  (((a * frac) + b) * frac + c) * frac + x1

/-- The function `void dattorro_reverb_set_parameter(...)` (lines 240-244). -/
def dattorro_reverb_set_parameter (reverb : DattorroReverb) (param : ℤ) (value : ℚ) :
    DattorroReverb :=
  if 0 ≤ param ∧ param < NUM_DATTORRO_PARAMS then
    { reverb with params := Function.update reverb.params param value }
  else reverb

/-- The function `float dattorro_reverb_get_parameter(...)` (lines 246-251). -/
def dattorro_reverb_get_parameter (reverb : DattorroReverb) (param : ℤ) : ℚ :=
  if 0 ≤ param ∧ param < NUM_DATTORRO_PARAMS then reverb.params param else 0

/-- The engine after `memset(reverb, 0, sizeof(DattorroReverb))` (line 58). -/
def zeroed : DattorroReverb where
  sample_rate := 0
  params := fun _ => 0
  delay_buf := fun _ _ => 0
  delays := fun _ => { buffer := fun _ => 0, size := 0, write_pos := 0, mask := 0 }
  taps := fun _ => 0
  pre_delay_buffer := fun _ => 0
  pre_delay_length := 0
  pre_delay_write_pos := 0
  lp1 := 0
  lp2 := 0
  lp3 := 0
  exc_phase := 0

/-- The table `const float delay_lengths[]` (lines 79-83). -/
def delay_lengths : ℕ → ℚ
  | 0 => 0.004771345
  | 1 => 0.003595309
  | 2 => 0.012734787
  | 3 => 0.009307483
  | 4 => 0.022579886
  | 5 => 0.149625349
  | 6 => 0.060481839
  | 7 => 0.1249958
  | 8 => 0.030509727
  | 9 => 0.141695508
  | 10 => 0.089244313
  | 11 => 0.106280031
  | _ => 0

/-- The table `const float tap_lengths[]` (lines 97-100). -/
def tap_lengths : ℕ → ℚ
  | 0 => 0.008937872
  | 1 => 0.099929438
  | 2 => 0.064278754
  | 3 => 0.067067639
  | 4 => 0.066866033
  | 5 => 0.006283391
  | 6 => 0.035818689
  | 7 => 0.011861161
  | 8 => 0.121870905
  | 9 => 0.041262054
  | 10 => 0.08981553
  | 11 => 0.070931756
  | 12 => 0.011256342
  | 13 => 0.004065724
  | _ => 0

/-- Body of the loop at lines 92-94:
`make_delay(&reverb->delays[i], buffers[i], delay_lengths[i], sample_rate)`. -/
def init_delay_body (sample_rate : ℚ) (i : ℕ) (reverb : DattorroReverb) : DattorroReverb :=
  let res := make_delay (reverb.delays i) (reverb.delay_buf i) (delay_lengths i) sample_rate
  { reverb with
    delays := Function.update reverb.delays i res.1
    delay_buf := Function.update reverb.delay_buf i res.2 }

/-- Body of the loop at lines 102-104:
`reverb->taps[i] = (int16_t)roundf(tap_lengths[i] * sample_rate)`. -/
def init_tap_body (sample_rate : ℚ) (i : ℕ) (reverb : DattorroReverb) : DattorroReverb :=
  { reverb with taps := Function.update reverb.taps i (roundf (tap_lengths i * sample_rate)) }

/-- The function `bool dattorro_reverb_init(DattorroReverb* reverb, float sample_rate)`
(lines 52-107): the returned flag and the engine object afterwards. -/
def dattorro_reverb_init (reverb : DattorroReverb) (sample_rate : ℚ) : Bool × DattorroReverb :=
  if sample_rate > DATTORRO_MAX_SR then (false, reverb)
  else
    let r := zeroed
    let r := { r with sample_rate := sample_rate }
    let r := dattorro_reverb_set_parameter r PRE_DELAY 0.0
    let r := dattorro_reverb_set_parameter r BANDWIDTH 0.9999
    let r := dattorro_reverb_set_parameter r INPUT_DIFFUSION_1 0.75
    let r := dattorro_reverb_set_parameter r INPUT_DIFFUSION_2 0.625
    let r := dattorro_reverb_set_parameter r DECAY 0.5
    let r := dattorro_reverb_set_parameter r DECAY_DIFFUSION_1 0.7
    let r := dattorro_reverb_set_parameter r DECAY_DIFFUSION_2 0.5
    let r := dattorro_reverb_set_parameter r DAMPING 0.005
    let r := dattorro_reverb_set_parameter r EXCURSION_RATE 0.5
    let r := dattorro_reverb_set_parameter r EXCURSION_DEPTH 0.7
    let r := dattorro_reverb_set_parameter r WET 0.3
    let r := dattorro_reverb_set_parameter r DRY 0.6
    let r := { r with pre_delay_length := to_int sample_rate }
    let r := for_loop 12 (init_delay_body sample_rate) r
    let r := for_loop 14 (init_tap_body sample_rate) r
    (true, r)

/-! ### `dattorro_reverb_process` (lines 110-237) -/

/-- The locals computed once per call from the parameters (lines 112-123). -/
structure FrameConsts where
  pd : ℤ
  bw : ℚ
  fi : ℚ
  si : ℚ
  dc : ℚ
  ft : ℚ
  st : ℚ
  dp : ℚ
  ex : ℚ
  ed : ℚ
  we : ℚ
  dr : ℚ

/-- Lines 112-123: the parameter values read at the start of a call. -/
def frame_consts (reverb : DattorroReverb) : FrameConsts where
  pd := to_int (reverb.params PRE_DELAY)
  bw := reverb.params BANDWIDTH
  fi := reverb.params INPUT_DIFFUSION_1
  si := reverb.params INPUT_DIFFUSION_2
  dc := reverb.params DECAY
  ft := reverb.params DECAY_DIFFUSION_1
  st := reverb.params DECAY_DIFFUSION_2
  dp := 1 - reverb.params DAMPING
  ex := reverb.params EXCURSION_RATE / reverb.sample_rate
  ed := reverb.params EXCURSION_DEPTH * reverb.sample_rate / 1000
  we := reverb.params WET * 0.6
  dr := reverb.params DRY

/-- Index of the fixed feedback read of a line: `(write_pos - size) & mask`. -/
def fixed_index (delay : DelayLine) : ℤ :=
  Int.land (delay.write_pos - delay.size) delay.mask

/-- Index of a tap read of a line: `(write_pos - tap) & mask`. -/
def tap_index (delay : DelayLine) (tap : ℤ) : ℤ :=
  Int.land (delay.write_pos - tap) delay.mask

/-- The fixed feedback read `reverb->delays[j].buffer[(write_pos - size) & mask]`. -/
def fixed_read (reverb : DattorroReverb) (j : ℕ) : ℚ :=
  (reverb.delays j).buffer (fixed_index (reverb.delays j))

/-- The tap read `reverb->delays[j].buffer[(write_pos - reverb->taps[t]) & mask]`. -/
def tap_read (reverb : DattorroReverb) (j : ℕ) (t : ℕ) : ℚ :=
  (reverb.delays j).buffer (tap_index (reverb.delays j) (reverb.taps t))

/-- The write `reverb->delays[j].buffer[reverb->delays[j].write_pos] = v`. -/
def delay_write (reverb : DattorroReverb) (j : ℕ) (v : ℚ) : DattorroReverb :=
  { reverb with
    delays := Function.update reverb.delays j
      { reverb.delays j with
        buffer := Function.update (reverb.delays j).buffer (reverb.delays j).write_pos v } }

/-- Index of the pre-delay read (line 138):
`(pre_delay_write_pos - pd + pre_delay_length) % pre_delay_length`. -/
def pre_delay_read_pos (reverb : DattorroReverb) (pd : ℤ) : ℤ :=
  Int.tmod (reverb.pre_delay_write_pos - pd + reverb.pre_delay_length) reverb.pre_delay_length

/-- Lines 132-142: mono input, pre-delay write and read, input low-pass. -/
def stage_input (c : FrameConsts) (reverb : DattorroReverb) (dry_left dry_right : ℚ) :
    DattorroReverb :=
  let mono_input := (dry_left + dry_right) * 0.5
  let r := { reverb with
    pre_delay_buffer :=
      Function.update reverb.pre_delay_buffer reverb.pre_delay_write_pos mono_input }
  let read_pos := pre_delay_read_pos r c.pd
  let pre_delay_out := r.pre_delay_buffer read_pos
  { r with lp1 := r.lp1 + c.bw * (pre_delay_out - r.lp1) }

/-- Lines 145-162: pre-tank diffusion; returns the engine and `split`. -/
def stage_diffusion (c : FrameConsts) (reverb : DattorroReverb) : DattorroReverb × ℚ :=
  let d0_out := fixed_read reverb 0
  let d1_out := fixed_read reverb 1
  let d2_out := fixed_read reverb 2
  let d3_out := fixed_read reverb 3
  let pre := reverb.lp1 - c.fi * d0_out
  let r := delay_write reverb 0 pre
  let pre := c.fi * (pre - d1_out) + d0_out
  let r := delay_write r 1 pre
  let pre := c.fi * pre + d1_out - c.si * d2_out
  let r := delay_write r 2 pre
  let pre := c.si * (pre - d3_out) + d2_out
  let r := delay_write r 3 pre
  let split := c.si * pre + d3_out
  (r, split)

/-- Lines 169-182: the left loop of the tank. -/
def stage_left (c : FrameConsts) (reverb : DattorroReverb) (split exc : ℚ) : DattorroReverb :=
  let d11_out := fixed_read reverb 11
  let temp := split + c.dc * d11_out + c.ft * read_delay_cat (reverb.delays 4) exc
  let r := delay_write reverb 4 temp
  let d4_out_mod := read_delay_cat (r.delays 4) exc
  let r := delay_write r 5 (d4_out_mod - c.ft * temp)
  let d5_out := fixed_read r 5
  let r := { r with lp2 := r.lp2 + c.dp * (d5_out - r.lp2) }
  let d6_out := fixed_read r 6
  let temp := c.dc * r.lp2 - c.st * d6_out
  let r := delay_write r 6 temp
  delay_write r 7 (d6_out + c.st * temp)

/-- Lines 185-198: the right loop of the tank. -/
def stage_right (c : FrameConsts) (reverb : DattorroReverb) (split exc2 : ℚ) : DattorroReverb :=
  let d7_out := fixed_read reverb 7
  let temp := split + c.dc * d7_out + c.ft * read_delay_cat (reverb.delays 8) exc2
  let r := delay_write reverb 8 temp
  let d8_out_mod := read_delay_cat (r.delays 8) exc2
  let r := delay_write r 9 (d8_out_mod - c.ft * temp)
  let d9_out := fixed_read r 9
  let r := { r with lp3 := r.lp3 + c.dp * (d9_out - r.lp3) }
  let d10_out := fixed_read r 10
  let temp := c.dc * r.lp3 - c.st * d10_out
  let r := delay_write r 10 temp
  delay_write r 11 (d10_out + c.st * temp)

/-- Lines 201-210: the wet left output `lo`. -/
def wet_left (reverb : DattorroReverb) : ℚ :=
  let lo : ℚ := 0
  let lo := lo + tap_read reverb 9 0
  let lo := lo + tap_read reverb 9 1
  let lo := lo - tap_read reverb 10 2
  let lo := lo + tap_read reverb 11 3
  let lo := lo - tap_read reverb 5 4
  let lo := lo - tap_read reverb 6 5
  let lo := lo - tap_read reverb 7 6
  lo

/-- Lines 202-218: the wet right output `ro`. -/
def wet_right (reverb : DattorroReverb) : ℚ :=
  let ro : ℚ := 0
  let ro := ro + tap_read reverb 5 7
  let ro := ro + tap_read reverb 5 8
  let ro := ro - tap_read reverb 6 9
  let ro := ro + tap_read reverb 7 10
  let ro := ro - tap_read reverb 9 11
  let ro := ro - tap_read reverb 10 12
  let ro := ro - tap_read reverb 11 13
  ro

/-- Body of the loop at lines 233-235:
`delays[j].write_pos = (delays[j].write_pos + 1) & delays[j].mask`. -/
def advance_body (j : ℕ) (reverb : DattorroReverb) : DattorroReverb :=
  { reverb with
    delays := Function.update reverb.delays j
      { reverb.delays j with
        write_pos := Int.land ((reverb.delays j).write_pos + 1) (reverb.delays j).mask } }

/-- Lines 226-235: phase, pre-delay cursor and delay-line cursors. -/
def stage_advance (c : FrameConsts) (reverb : DattorroReverb) : DattorroReverb :=
  let r := { reverb with exc_phase := reverb.exc_phase + c.ex }
  let r := if r.exc_phase ≥ 1 then { r with exc_phase := r.exc_phase - 1 } else r
  let r := { r with
    pre_delay_write_pos := Int.tmod (r.pre_delay_write_pos + 1) r.pre_delay_length }
  for_loop 12 advance_body r

/-- The body of the frame loop (lines 127-235) for frame `i`, on the engine
and the interleaved buffer. -/
def process_frame (m : Libm) (c : FrameConsts) (i : ℕ) (s : DattorroReverb × (ℤ → ℚ)) :
    DattorroReverb × (ℤ → ℚ) :=
  let reverb := s.1
  let buffer := s.2
  let dry_left := buffer (i * 2)
  let dry_right := buffer (i * 2 + 1)
  let r := stage_input c reverb dry_left dry_right
  let d := stage_diffusion c r
  let r := d.1
  let split := d.2
  let exc := c.ed * (1 + m.cosf (r.exc_phase * 2 * M_PI))
  let exc2 := c.ed * (1 + m.sinf (r.exc_phase * 2 * M_PI + M_PI / 2))
  let r := stage_left c r split exc
  let r := stage_right c r split exc2
  let lo := wet_left r
  let ro := wet_right r
  let buffer := Function.update buffer (i * 2) (dry_left * c.dr + lo * c.we)
  let buffer := Function.update buffer (i * 2 + 1) (dry_right * c.dr + ro * c.we)
  (stage_advance c r, buffer)

/-- The function `void dattorro_reverb_process(DattorroReverb* reverb, float* buffer,
int num_frames)`: the engine and the buffer after the call. -/
def dattorro_reverb_process (m : Libm) (reverb : DattorroReverb) (buffer : ℤ → ℚ)
    (num_frames : ℤ) : DattorroReverb × (ℤ → ℚ) :=
  for_loop num_frames.toNat (process_frame m (frame_consts reverb)) (reverb, buffer)

/-! ## Predicates and sample data used by the statements -/

/-- The delay line `make_delay` builds from a zeroed line. -/
def fresh_delay (length_in_seconds sample_rate : ℚ) : DelayLine where
  buffer := fun _ => 0
  size := roundf (length_in_seconds * sample_rate) - 1
  write_pos := 0
  mask := next_power_of_two (roundf (length_in_seconds * sample_rate)) - 1

/-- The parameter array written by lines 63-74. -/
def default_params : ℤ → ℚ := fun p =>
  if p = 11 then 0.6 else if p = 10 then 0.3 else if p = 9 then 0.7 else if p = 8 then 0.5
  else if p = 7 then 0.005 else if p = 6 then 0.5 else if p = 5 then 0.7 else if p = 4 then 0.5
  else if p = 3 then 0.625 else if p = 2 then 0.75 else if p = 1 then 0.9999
  else if p = 0 then 0.0 else 0

/-- Two engines agree on everything except sample storage and filter states:
the layout of the delay lines, the cursors, the phase and the parameters. -/
def SameLayout (r s : DattorroReverb) : Prop :=
  s.sample_rate = r.sample_rate ∧ s.params = r.params ∧ s.taps = r.taps ∧
  s.delay_buf = r.delay_buf ∧
  s.pre_delay_length = r.pre_delay_length ∧ s.pre_delay_write_pos = r.pre_delay_write_pos ∧
  s.exc_phase = r.exc_phase ∧
  ∀ j, (s.delays j).size = (r.delays j).size ∧ (s.delays j).write_pos = (r.delays j).write_pos ∧
    (s.delays j).mask = (r.delays j).mask

/-- The engine a frame is left in, before the cursors advance. -/
def frame_tank (m : Libm) (c : FrameConsts) (i : ℕ) (s : DattorroReverb × (ℤ → ℚ)) :
    DattorroReverb :=
  let r := (stage_diffusion c (stage_input c s.1 (s.2 (i * 2)) (s.2 (i * 2 + 1)))).1
  let split := (stage_diffusion c (stage_input c s.1 (s.2 (i * 2)) (s.2 (i * 2 + 1)))).2
  stage_right c
    (stage_left c r split (c.ed * (1 + m.cosf (r.exc_phase * 2 * M_PI))))
    split (c.ed * (1 + m.sinf (r.exc_phase * 2 * M_PI + M_PI / 2)))

/-- No sample is stored anywhere in the engine: every delay-line buffer, the
pre-delay buffer and the three filter states are zero. -/
def Silent (r : DattorroReverb) : Prop :=
  (∀ j k, (r.delays j).buffer k = 0) ∧ (∀ k, r.pre_delay_buffer k = 0) ∧
  r.lp1 = 0 ∧ r.lp2 = 0 ∧ r.lp3 = 0

/-- The engines that the interface can produce: a successful init, followed
by any parameter changes and any calls of the process function. -/
inductive Reachable (m : Libm) : DattorroReverb → Prop
  | init (reverb : DattorroReverb) (sample_rate : ℚ) :
      (dattorro_reverb_init reverb sample_rate).1 = true →
      Reachable m (dattorro_reverb_init reverb sample_rate).2
  | set_parameter (r : DattorroReverb) (param : ℤ) (value : ℚ) :
      Reachable m r → Reachable m (dattorro_reverb_set_parameter r param value)
  | process (r : DattorroReverb) (buffer : ℤ → ℚ) (num_frames : ℤ) :
      Reachable m r → Reachable m (dattorro_reverb_process m r buffer num_frames).1

/-- What init establishes about the layout and every later step keeps. -/
def WellFormed (r : DattorroReverb) : Prop :=
  r.sample_rate ≤ DATTORRO_MAX_SR ∧
  r.pre_delay_length = to_int r.sample_rate ∧
  (1 ≤ r.pre_delay_length →
    0 ≤ r.pre_delay_write_pos ∧ r.pre_delay_write_pos < r.pre_delay_length) ∧
  ∀ j, j < 12 →
    (r.delays j).size + 1 = roundf (delay_lengths j * r.sample_rate) ∧
    (r.delays j).mask + 1 = next_power_of_two ((r.delays j).size + 1) ∧
    0 ≤ (r.delays j).write_pos ∧ (r.delays j).write_pos ≤ (r.delays j).mask

/-- An engine whose fields all hold leftovers of earlier use. -/
def used_engine : DattorroReverb where
  sample_rate := 8000
  params := fun _ => 2
  delay_buf := fun _ _ => 1
  delays := fun _ => { buffer := fun _ => 1, size := 5, write_pos := 3, mask := 7 }
  taps := fun _ => 4
  pre_delay_buffer := fun _ => 1
  pre_delay_length := 8000
  pre_delay_write_pos := 17
  lp1 := 1
  lp2 := 1
  lp3 := 1
  exc_phase := 3 / 4

/-- The engine a successful init at 44100 Hz leaves in place of `used_engine`. -/
def fresh_44100 : DattorroReverb := (dattorro_reverb_init used_engine 44100).2

/-- A stand-in for the C library: any two functions will do. -/
def sample_libm : Libm where
  cosf := fun x => 1 - x * x / 2
  sinf := fun x => x

/-- The engine after `settings`, a list of `(param, value)` pairs, have been
passed to `dattorro_reverb_set_parameter` one after the other. -/
def apply_settings (settings : List (ℤ × ℚ)) (r : DattorroReverb) : DattorroReverb :=
  settings.foldl (fun acc pv => dattorro_reverb_set_parameter acc pv.1 pv.2) r

/-- The cubic of `read_delay_cat` (lines 45-49) in the four samples and the
fractional part `frac`. -/
def cat_poly (x0 x1 x2 x3 frac : ℚ) : ℚ :=
  let a := (3 * (x1 - x2) - x0 + x3) * (1 / 2)
  let b := 2 * x2 + x0 - (5 * x1 + x3) * (1 / 2)
  let c := (x2 - x0) * (1 / 2)
  (((a * frac) + b) * frac + c) * frac + x1

/-- The local `mono_input` of the frame loop (line 132). -/
def mono_input (dry_left dry_right : ℚ) : ℚ := (dry_left + dry_right) * 0.5

/-- The local `pre_delay_out` of the frame loop (lines 135-139): the sample
read from the pre-delay buffer after this frame has written its input. -/
def pre_delay_out (c : FrameConsts) (reverb : DattorroReverb) (dry_left dry_right : ℚ) : ℚ :=
  let r := { reverb with
    pre_delay_buffer :=
      Function.update reverb.pre_delay_buffer reverb.pre_delay_write_pos
        (mono_input dry_left dry_right) }
  r.pre_delay_buffer (pre_delay_read_pos r c.pd)

/-- The engine and the buffer after the first `n` frames of a call whose
parameter snapshot is `c`. -/
def run_frames (m : Libm) (c : FrameConsts) (reverb : DattorroReverb) (buffer : ℤ → ℚ)
    (n : ℕ) : DattorroReverb × (ℤ → ℚ) :=
  for_loop n (process_frame m c) (reverb, buffer)

/-- The engine `s` has the layout of `r`, and its delay-line buffers differ
from those of `r` at most in the slot under the write cursor. -/
def OffCursor (r s : DattorroReverb) : Prop :=
  SameLayout r s ∧
  ∀ j idx, idx ≠ (r.delays j).write_pos → (s.delays j).buffer idx = (r.delays j).buffer idx

/-- The sample that frame `t` of a call leaves in delay line `j` under the
write cursor: the value the frame wrote there. -/
def written_sample (m : Libm) (c : FrameConsts) (reverb : DattorroReverb) (buffer : ℤ → ℚ)
    (j t : ℕ) : ℚ :=
  ((frame_tank m c t (run_frames m c reverb buffer t)).delays j).buffer
    ((run_frames m c reverb buffer t).1.delays j).write_pos

/-- A stand-in for the C library whose two functions take values in [-1, 1],
as cosine and sine do. -/
def clipped_libm : Libm where
  cosf := fun x => max (-1) (min 1 (1 - x * x / 2))
  sinf := fun x => max (-1) (min 1 x)

/-- The engine a successful init at 1 Hz builds: every delay line has length
0, so size -1 and mask 0, every tap offset is 0 and the pre-delay buffer has
one slot. -/
def one_hz : DattorroReverb where
  sample_rate := 1
  params := default_params
  delay_buf := fun _ _ => 0
  delays := fun j =>
    if j < 12 then { buffer := fun _ => 0, size := -1, write_pos := 0, mask := 0 }
    else { buffer := fun _ => 0, size := 0, write_pos := 0, mask := 0 }
  taps := fun _ => 0
  pre_delay_buffer := fun _ => 0
  pre_delay_length := 1
  pre_delay_write_pos := 0
  lp1 := 0
  lp2 := 0
  lp3 := 0
  exc_phase := 0

/-! ### The hosting node (`src/dsp/nodes/dtreverb.c`)

The header `node.h` is not among the sources: `NODE_BUFFER_SIZE` is a
parameter, a `NodePort` is its sample array `buf`, and the member `node` and
the final call `node_process(node)` are left out. -/

/-- The table `static const char *cmd_strings[]` (dtreverb.c lines 4-18). -/
def cmd_strings : List String :=
  ["pre_delay", "bandwidth", "input_diffusion_1", "input_diffusion_2", "decay",
   "decay_diffusion_1", "decay_diffusion_2", "damping", "excursion_rate", "excursion_depth",
   "wet", "dry"]

/-- The type `DtReverbNode` (dtreverb.c lines 21-27): the engine, the
interleaved buffer `buf` of `NODE_BUFFER_SIZE * 2` floats, and the sample
arrays of the two inlets and the two outlets. -/
structure DtReverbNode where
  dt : DattorroReverb
  buf : ℤ → ℚ
  inl : ℤ → ℚ
  inr : ℤ → ℚ
  outl : ℤ → ℚ
  outr : ℤ → ℚ

/-- Body of the loop at lines 34-37: copy one frame of the inlets to `buf`. -/
def copy_in_body (i : ℕ) (n : DtReverbNode) : DtReverbNode :=
  let n := { n with buf := Function.update n.buf (i * 2 + 0) (n.inl i) }
  { n with buf := Function.update n.buf (i * 2 + 1) (n.inr i) }

/-- Body of the loop at lines 43-46: copy one frame of `buf` to the outlets. -/
def copy_out_body (i : ℕ) (n : DtReverbNode) : DtReverbNode :=
  let n := { n with outl := Function.update n.outl i (n.buf (i * 2 + 0)) }
  { n with outr := Function.update n.outr i (n.buf (i * 2 + 1)) }

/-- The frame count the node passes to the engine (line 40):
`NODE_BUFFER_SIZE * 2`. -/
def dtreverb_frame_count (NODE_BUFFER_SIZE : ℕ) : ℤ := NODE_BUFFER_SIZE * 2

/-- The function `static void process(Node *node)` of dtreverb.c
(lines 30-50). -/
def dtreverb_process (m : Libm) (NODE_BUFFER_SIZE : ℕ) (n : DtReverbNode) : DtReverbNode :=
  let n := for_loop NODE_BUFFER_SIZE copy_in_body n
  let res := dattorro_reverb_process m n.dt n.buf (dtreverb_frame_count NODE_BUFFER_SIZE)
  let n := { n with dt := res.1, buf := res.2 }
  for_loop NODE_BUFFER_SIZE copy_out_body n

/-- The C library test `isspace` (white space of the C locale). -/
def isspace (c : Char) : Bool := c.toNat = 32 || (9 ≤ c.toNat && c.toNat ≤ 13)

/-- Skipping of leading white space, as every `sscanf` conversion used here
does first. -/
def skip_space : List Char → List Char
  | [] => []
  | c :: s => if isspace c then skip_space s else c :: s

/-- The conversion `%Ns` of `sscanf`: at most `width` characters up to the next
white space; the result is the token and the rest of the input. -/
def scan_token : ℕ → List Char → List Char × List Char
  | 0, s => ([], s)
  | _ + 1, [] => ([], [])
  | width + 1, c :: s =>
    if isspace c then ([], c :: s)
    else ((c :: (scan_token width s).1), (scan_token width s).2)

/-- The call `sscanf(msg, "%15s %f", cmd, &val)` (line 59): the values of
`cmd` and `val` afterwards.  A conversion that fails leaves its variable as it
was.  The parsing of a float is the parameter `strtof`. -/
def sscanf_cmd_val (strtof : List Char → Option ℚ) (msg cmd : List Char) (val : ℚ) :
    List Char × ℚ :=
  let t := scan_token 15 (skip_space msg)
  if t.1 = [] then (cmd, val)
  else
    match strtof (skip_space t.2) with
    | some v => (t.1, v)
    | none => (t.1, val)

/-- Modelled from the spec: the helper `string_to_enum` is not among the
sources; it is taken as exact string match on the table, giving the index of
the matching entry counted from `i`, or -1 when there is none. -/
def string_to_enum_from (i : ℤ) : List String → List Char → ℤ
  | [], _ => -1
  | x :: xs, s => if x.toList = s then i else string_to_enum_from (i + 1) xs s

/-- Modelled from the spec: the helper `string_to_enum(strings, s)`, exact
string match on the table (see `string_to_enum_from`). -/
def string_to_enum (strings : List String) (s : List Char) : ℤ :=
  string_to_enum_from 0 strings s

/-- Modelled from the spec: the helper `clampf` is not among the sources; it
clamps its first argument to the interval of the other two. -/
def clampf (x lo hi : ℚ) : ℚ := max lo (min hi x)

/-- The text `sprintf(err, ...)` writes at line 61: the words bad command and
the command between two apostrophes. -/
def bad_command_text (cmd : List Char) : List Char :=
  "bad command ".toList ++ [Char.ofNat 39] ++ cmd ++ [Char.ofNat 39]

/-- The function `static int receive(Node *node, const char *msg, char *err)`
of dtreverb.c (lines 53-76): the returned value, the node and the contents of
`err` afterwards. -/
def dtreverb_receive (strtof : List Char → Option ℚ) (n : DtReverbNode) (msg err : List Char) :
    ℤ × DtReverbNode × List Char :=
  let scanned := sscanf_cmd_val strtof msg [] 0
  let cmd := scanned.1
  let val := scanned.2
  let prm := string_to_enum cmd_strings cmd
  if prm < 0 then (-1, n, bad_command_text cmd)
  else
    let val := clampf val 0.0 1.0
    let n := if prm = BANDWIDTH
      then { n with dt := dattorro_reverb_set_parameter n.dt BANDWIDTH val }
      else n
    (0, n, err)

/-- A node around an engine that passes the dry signal doubled and no wet
signal, with the value 5 in every slot of and behind `buf`. -/
def sample_node : DtReverbNode where
  dt := dattorro_reverb_set_parameter (dattorro_reverb_set_parameter fresh_44100 WET 0) DRY 2
  buf := fun _ => 5
  inl := fun _ => 1
  inr := fun _ => 1
  outl := fun _ => 0
  outr := fun _ => 0

/-- The engine `z` is the combination `a * x + b * y` of the engines `x` and
`y`: the three agree on layout, cursors, phase and parameters, and every stored
sample and filter state of `z` is `a` times that of `x` plus `b` times that of
`y`. -/
def LinComb (a b : ℚ) (x y z : DattorroReverb) : Prop :=
  SameLayout x y ∧ SameLayout x z ∧
  (∀ j k, (z.delays j).buffer k = a * (x.delays j).buffer k + b * (y.delays j).buffer k) ∧
  (∀ k, z.pre_delay_buffer k = a * x.pre_delay_buffer k + b * y.pre_delay_buffer k) ∧
  z.lp1 = a * x.lp1 + b * y.lp1 ∧ z.lp2 = a * x.lp2 + b * y.lp2 ∧
  z.lp3 = a * x.lp3 + b * y.lp3

/-- A sample input: the ramp whose sample `k` is `k`. -/
def ramp_input : ℤ → ℚ := fun k => k

/-- A sample input: the constant 1. -/
def unit_input : ℤ → ℚ := fun _ => 1

/-- The call `dattorro_reverb_process(reverb, buffer + offset, num_frames)` as
seen from `buffer`: element `k` of the pointer `buffer + offset` is element
`k + offset` of `buffer`. -/
def dattorro_reverb_process_at (m : Libm) (reverb : DattorroReverb) (buffer : ℤ → ℚ)
    (offset num_frames : ℤ) : DattorroReverb × (ℤ → ℚ) :=
  let res := dattorro_reverb_process m reverb (fun k => buffer (k + offset)) num_frames
  (res.1, fun k => res.2 (k - offset))

/-! ## Auxiliary facts -/

theorem ldiff_le (m n : ℕ) : Nat.ldiff m n ≤ m := by
  obtain ⟨k, hk⟩ : ∃ k, m < 2 ^ k ∧ n < 2 ^ k := by
    refine ⟨max m n, ?_, ?_⟩
    · exact lt_of_lt_of_le (Nat.lt_two_pow m) (Nat.pow_le_pow_right (by norm_num) (le_max_left _ _))
    · exact lt_of_lt_of_le (Nat.lt_two_pow n) (Nat.pow_le_pow_right (by norm_num) (le_max_right _ _))
  have h : Nat.ldiff m n = m &&& (2 ^ k - (n + 1)) := by
    apply Nat.eq_of_testBit_eq
    intro i
    rw [Nat.testBit_ldiff, Nat.testBit_and, Nat.testBit_two_pow_sub_succ hk.2]
    by_cases hi : i < k
    · simp [hi]
    · have : m.testBit i = false :=
        Nat.testBit_lt_two_pow (lt_of_lt_of_le hk.1 (Nat.pow_le_pow_right (by norm_num) (not_lt.mp hi)))
      simp [this]
  rw [h]
  exact Nat.and_le_left

theorem ldiff_two_pow_sub_one (k n : ℕ) : Nat.ldiff (2 ^ k - 1) n = 2 ^ k - 1 - n % 2 ^ k := by
  have hlt : n % 2 ^ k < 2 ^ k := Nat.mod_lt _ (by positivity)
  have : 2 ^ k - 1 - n % 2 ^ k = 2 ^ k - (n % 2 ^ k + 1) := by omega
  rw [this]
  apply Nat.eq_of_testBit_eq
  intro i
  rw [Nat.testBit_ldiff, Nat.testBit_two_pow_sub_succ hlt, Nat.testBit_two_pow_sub_one,
    Nat.testBit_mod_two_pow]
  by_cases hi : i < k <;> simp [hi]

theorem land_nonneg (x m : ℤ) (hm : 0 ≤ m) : 0 ≤ Int.land x m := by
  obtain ⟨m, rfl⟩ := Int.eq_ofNat_of_zero_le hm
  cases x <;> simp [Int.land]

theorem land_le (x m : ℤ) (hm : 0 ≤ m) : Int.land x m ≤ m := by
  obtain ⟨m, rfl⟩ := Int.eq_ofNat_of_zero_le hm
  cases x with
  | ofNat n => simp only [Int.land]; exact_mod_cast Nat.and_le_right
  | negSucc n => simp only [Int.land]; exact_mod_cast ldiff_le m n

theorem land_two_pow_sub_one (x : ℤ) (k : ℕ) : Int.land x (2 ^ k - 1) = x % 2 ^ k := by
  have h1 : ((2 : ℤ) ^ k - 1) = ((2 ^ k - 1 : ℕ) : ℤ) := by
    have : 1 ≤ 2 ^ k := Nat.one_le_two_pow
    push_cast [Nat.cast_sub this]; rfl
  rw [h1]
  cases x with
  | ofNat n =>
    simp only [Int.land]
    rw [Nat.and_pow_two_sub_one_eq_mod]
    simp
  | negSucc n =>
    simp only [Int.land]
    rw [ldiff_two_pow_sub_one, Int.negSucc_emod _ (by positivity)]
    have hlt : n % 2 ^ k < 2 ^ k := Nat.mod_lt _ (by positivity)
    have h2 : ((2 ^ k - 1 - n % 2 ^ k : ℕ) : ℤ) = (2 : ℤ) ^ k - 1 - ((n % 2 ^ k : ℕ) : ℤ) := by
      rw [Nat.sub_sub, Nat.cast_sub (by omega)]
      push_cast
      ring
    rw [h2]
    push_cast
    ring

theorem for_loop_zero {σ : Type} (body : ℕ → σ → σ) (s : σ) : for_loop 0 body s = s := rfl

theorem for_loop_succ {σ : Type} (n : ℕ) (body : ℕ → σ → σ) (s : σ) :
    for_loop (n + 1) body s = body n (for_loop n body s) := by
  simp [for_loop, List.range_succ]

theorem next_power_of_two_loop_spec (n : ℤ) :
    ∀ (fuel a : ℕ), n ≤ 2 ^ a * 2 ^ fuel →
      ∃ b : ℕ, next_power_of_two_loop n fuel (2 ^ a) = 2 ^ b ∧ n ≤ 2 ^ b := by
  intro fuel
  induction fuel with
  | zero => intro a h; exact ⟨a, rfl, by simpa using h⟩
  | succ f ih =>
    intro a h
    by_cases hlt : (2 : ℤ) ^ a < n
    · obtain ⟨b, hb, hn⟩ := ih (a + 1) (by rw [pow_succ] at h ⊢; linarith)
      refine ⟨b, ?_, hn⟩
      simp only [next_power_of_two_loop, hlt, if_true]
      rw [← hb, pow_succ]
    · exact ⟨a, by simp only [next_power_of_two_loop, hlt, if_false], not_lt.mp hlt⟩

theorem next_power_of_two_spec (n : ℤ) :
    ∃ b : ℕ, next_power_of_two n = 2 ^ b ∧ n ≤ 2 ^ b := by
  unfold next_power_of_two
  by_cases h0 : n = 0
  · exact ⟨0, by simp [h0], by simp [h0]⟩
  · simp only [h0, if_false]
    have h := next_power_of_two_loop_spec n n.toNat 0 (by
      rcases le_or_lt n 0 with hn | hn
      · exact le_trans hn (by positivity)
      · have h1 : (n.toNat : ℤ) = n := Int.toNat_of_nonneg hn.le
        have h2 : n.toNat < 2 ^ n.toNat := Nat.lt_two_pow _
        have h3 : ((n.toNat : ℕ) : ℤ) < ((2 ^ n.toNat : ℕ) : ℤ) := by exact_mod_cast h2
        push_cast at h3
        rw [h1] at h3
        simpa using h3.le)
    simpa using h

/-- The fuel given to the loop of `next_power_of_two` is enough: the loop
ends because its condition `power < n` fails. -/
theorem next_power_of_two_ge (n : ℤ) : n ≤ next_power_of_two n := by
  obtain ⟨b, hb, hn⟩ := next_power_of_two_spec n
  rw [hb]; exact hn

/-- The engine after the loop at lines 92-94 has run `n` times. -/
theorem for_loop_init_delay (sr : ℚ) (n : ℕ) (r : DattorroReverb) :
    for_loop n (init_delay_body sr) r =
      { r with
        delays := fun j =>
          if j < n then (make_delay (r.delays j) (r.delay_buf j) (delay_lengths j) sr).1
          else r.delays j
        delay_buf := fun j =>
          if j < n then (make_delay (r.delays j) (r.delay_buf j) (delay_lengths j) sr).2
          else r.delay_buf j } := by
  induction n with
  | zero => simp [for_loop_zero]
  | succ k ih =>
    rw [for_loop_succ, ih]
    simp only [init_delay_body, lt_irrefl, if_false]
    congr 1
    · funext j
      by_cases hj : j = k
      · subst hj; simp
      · have : j < k + 1 ↔ j < k := by omega
        simp [Function.update, hj, this]
    · funext j
      by_cases hj : j = k
      · subst hj; simp
      · have : j < k + 1 ↔ j < k := by omega
        simp [Function.update, hj, this]

/-- The engine after the loop at lines 102-104 has run `n` times. -/
theorem for_loop_init_tap (sr : ℚ) (n : ℕ) (r : DattorroReverb) :
    for_loop n (init_tap_body sr) r =
      { r with
        taps := fun t => if t < n then roundf (tap_lengths t * sr) else r.taps t } := by
  induction n with
  | zero => simp [for_loop_zero]
  | succ k ih =>
    rw [for_loop_succ, ih]
    simp only [init_tap_body]
    congr 1
    funext j
    by_cases hj : j = k
    · subst hj; simp
    · have : j < k + 1 ↔ j < k := by omega
      simp [Function.update, hj, this]

theorem init_flag (reverb : DattorroReverb) (sr : ℚ) :
    (dattorro_reverb_init reverb sr).1 = !decide (sr > DATTORRO_MAX_SR) := by
  unfold dattorro_reverb_init
  by_cases h : sr > DATTORRO_MAX_SR <;> simp [h]

theorem init_delays (reverb : DattorroReverb) (sr : ℚ) (h : sr ≤ DATTORRO_MAX_SR) (j : ℕ) :
    (dattorro_reverb_init reverb sr).2.delays j =
      if j < 12 then fresh_delay (delay_lengths j) sr
      else { buffer := fun _ => 0, size := 0, write_pos := 0, mask := 0 } := by
  have h' : ¬ sr > DATTORRO_MAX_SR := not_lt.mpr h
  simp only [dattorro_reverb_init, h', if_false, for_loop_init_delay, for_loop_init_tap]
  simp [dattorro_reverb_set_parameter, NUM_DATTORRO_PARAMS, PRE_DELAY, BANDWIDTH,
    INPUT_DIFFUSION_1, INPUT_DIFFUSION_2, DECAY, DECAY_DIFFUSION_1, DECAY_DIFFUSION_2, DAMPING,
    EXCURSION_RATE, EXCURSION_DEPTH, WET, DRY, zeroed, make_delay, fresh_delay]

theorem init_scalars (reverb : DattorroReverb) (sr : ℚ) (h : sr ≤ DATTORRO_MAX_SR) :
    (dattorro_reverb_init reverb sr).2.sample_rate = sr ∧
    (dattorro_reverb_init reverb sr).2.pre_delay_length = to_int sr ∧
    (dattorro_reverb_init reverb sr).2.pre_delay_write_pos = 0 ∧
    (dattorro_reverb_init reverb sr).2.pre_delay_buffer = (fun _ => 0) ∧
    (dattorro_reverb_init reverb sr).2.delay_buf = (fun _ _ => 0) ∧
    (dattorro_reverb_init reverb sr).2.lp1 = 0 ∧
    (dattorro_reverb_init reverb sr).2.lp2 = 0 ∧
    (dattorro_reverb_init reverb sr).2.lp3 = 0 ∧
    (dattorro_reverb_init reverb sr).2.exc_phase = 0 := by
  have h' : ¬ sr > DATTORRO_MAX_SR := not_lt.mpr h
  simp only [dattorro_reverb_init, h', if_false, for_loop_init_delay, for_loop_init_tap]
  simp [dattorro_reverb_set_parameter, NUM_DATTORRO_PARAMS, PRE_DELAY, BANDWIDTH,
    INPUT_DIFFUSION_1, INPUT_DIFFUSION_2, DECAY, DECAY_DIFFUSION_1, DECAY_DIFFUSION_2, DAMPING,
    EXCURSION_RATE, EXCURSION_DEPTH, WET, DRY, zeroed, make_delay]

theorem init_taps (reverb : DattorroReverb) (sr : ℚ) (h : sr ≤ DATTORRO_MAX_SR) (t : ℕ) :
    (dattorro_reverb_init reverb sr).2.taps t =
      if t < 14 then roundf (tap_lengths t * sr) else 0 := by
  have h' : ¬ sr > DATTORRO_MAX_SR := not_lt.mpr h
  simp only [dattorro_reverb_init, h', if_false, for_loop_init_delay, for_loop_init_tap]
  simp [dattorro_reverb_set_parameter, NUM_DATTORRO_PARAMS, PRE_DELAY, BANDWIDTH,
    INPUT_DIFFUSION_1, INPUT_DIFFUSION_2, DECAY, DECAY_DIFFUSION_1, DECAY_DIFFUSION_2, DAMPING,
    EXCURSION_RATE, EXCURSION_DEPTH, WET, DRY, zeroed]

theorem set_parameter_valid (reverb : DattorroReverb) (p : ℤ) (v : ℚ)
    (hp : 0 ≤ p ∧ p < NUM_DATTORRO_PARAMS) :
    dattorro_reverb_set_parameter reverb p v =
      { reverb with params := Function.update reverb.params p v } := by
  simp [dattorro_reverb_set_parameter, hp]

theorem init_params (reverb : DattorroReverb) (sr : ℚ) (h : sr ≤ DATTORRO_MAX_SR) :
    (dattorro_reverb_init reverb sr).2.params = default_params := by
  have h' : ¬ sr > DATTORRO_MAX_SR := not_lt.mpr h
  simp only [dattorro_reverb_init, h', if_false, for_loop_init_delay, for_loop_init_tap]
  rw [set_parameter_valid _ PRE_DELAY _ (by decide), set_parameter_valid _ BANDWIDTH _ (by decide),
    set_parameter_valid _ INPUT_DIFFUSION_1 _ (by decide),
    set_parameter_valid _ INPUT_DIFFUSION_2 _ (by decide),
    set_parameter_valid _ DECAY _ (by decide),
    set_parameter_valid _ DECAY_DIFFUSION_1 _ (by decide),
    set_parameter_valid _ DECAY_DIFFUSION_2 _ (by decide),
    set_parameter_valid _ DAMPING _ (by decide),
    set_parameter_valid _ EXCURSION_RATE _ (by decide),
    set_parameter_valid _ EXCURSION_DEPTH _ (by decide),
    set_parameter_valid _ WET _ (by decide),
    set_parameter_valid _ DRY _ (by decide)]
  funext p
  simp only [zeroed, default_params, Function.update, PRE_DELAY, BANDWIDTH,
    INPUT_DIFFUSION_1, INPUT_DIFFUSION_2, DECAY, DECAY_DIFFUSION_1, DECAY_DIFFUSION_2, DAMPING,
    EXCURSION_RATE, EXCURSION_DEPTH, WET, DRY, eq_rec_constant, dite_eq_ite]

/-! ## Facts about one frame -/

theorem SameLayout.refl (r : DattorroReverb) : SameLayout r r :=
  ⟨rfl, rfl, rfl, rfl, rfl, rfl, rfl, fun _ => ⟨rfl, rfl, rfl⟩⟩

theorem SameLayout.trans {r s t : DattorroReverb} (h1 : SameLayout r s) (h2 : SameLayout s t) :
    SameLayout r t := by
  obtain ⟨a1, a2, a3, a4, a5, a6, a7, a8⟩ := h1
  obtain ⟨b1, b2, b3, b4, b5, b6, b7, b8⟩ := h2
  refine ⟨b1.trans a1, b2.trans a2, b3.trans a3, b4.trans a4, b5.trans a5, b6.trans a6,
    b7.trans a7, fun j => ⟨(b8 j).1.trans (a8 j).1, (b8 j).2.1.trans (a8 j).2.1,
      (b8 j).2.2.trans (a8 j).2.2⟩⟩

theorem delay_write_layout (r : DattorroReverb) (k : ℕ) (v : ℚ) :
    SameLayout r (delay_write r k v) := by
  refine ⟨rfl, rfl, rfl, rfl, rfl, rfl, rfl, fun j => ?_⟩
  by_cases hj : j = k
  · subst hj; simp [delay_write]
  · simp [delay_write, Function.update_noteq hj]

theorem stage_input_layout (c : FrameConsts) (r : DattorroReverb) (l rt : ℚ) :
    SameLayout r (stage_input c r l rt) :=
  ⟨rfl, rfl, rfl, rfl, rfl, rfl, rfl, fun _ => ⟨rfl, rfl, rfl⟩⟩

theorem stage_diffusion_layout (c : FrameConsts) (r : DattorroReverb) :
    SameLayout r (stage_diffusion c r).1 := by
  unfold stage_diffusion
  exact (((delay_write_layout _ _ _).trans (delay_write_layout _ _ _)).trans
    (delay_write_layout _ _ _)).trans (delay_write_layout _ _ _)

theorem lp2_layout (r : DattorroReverb) (v : ℚ) : SameLayout r { r with lp2 := v } :=
  ⟨rfl, rfl, rfl, rfl, rfl, rfl, rfl, fun _ => ⟨rfl, rfl, rfl⟩⟩

theorem lp3_layout (r : DattorroReverb) (v : ℚ) : SameLayout r { r with lp3 := v } :=
  ⟨rfl, rfl, rfl, rfl, rfl, rfl, rfl, fun _ => ⟨rfl, rfl, rfl⟩⟩

theorem stage_left_layout (c : FrameConsts) (r : DattorroReverb) (split exc : ℚ) :
    SameLayout r (stage_left c r split exc) := by
  unfold stage_left
  exact ((((delay_write_layout _ _ _).trans (delay_write_layout _ _ _)).trans
    (lp2_layout _ _)).trans (delay_write_layout _ _ _)).trans (delay_write_layout _ _ _)

theorem stage_right_layout (c : FrameConsts) (r : DattorroReverb) (split exc2 : ℚ) :
    SameLayout r (stage_right c r split exc2) := by
  unfold stage_right
  exact ((((delay_write_layout _ _ _).trans (delay_write_layout _ _ _)).trans
    (lp3_layout _ _)).trans (delay_write_layout _ _ _)).trans (delay_write_layout _ _ _)

/-- The engine after the loop at lines 233-235 has run `n` times. -/
theorem for_loop_advance (n : ℕ) (r : DattorroReverb) :
    for_loop n advance_body r =
      { r with
        delays := fun j =>
          if j < n then
            { r.delays j with
              write_pos := Int.land ((r.delays j).write_pos + 1) (r.delays j).mask }
          else r.delays j } := by
  induction n with
  | zero => simp [for_loop_zero]
  | succ k ih =>
    rw [for_loop_succ, ih]
    simp only [advance_body, lt_irrefl, if_false]
    congr 1
    funext j
    by_cases hj : j = k
    · subst hj; simp
    · have : j < k + 1 ↔ j < k := by omega
      simp [Function.update, hj, this]

theorem process_frame_fst (m : Libm) (c : FrameConsts) (i : ℕ) (s : DattorroReverb × (ℤ → ℚ)) :
    (process_frame m c i s).1 = stage_advance c (frame_tank m c i s) := by
  simp only [process_frame, frame_tank]

theorem frame_tank_layout (m : Libm) (c : FrameConsts) (i : ℕ) (s : DattorroReverb × (ℤ → ℚ)) :
    SameLayout s.1 (frame_tank m c i s) := by
  unfold frame_tank
  exact (((stage_input_layout _ _ _ _).trans (stage_diffusion_layout _ _)).trans
    (stage_left_layout _ _ _ _)).trans (stage_right_layout _ _ _ _)

/-- What one frame does to everything but the stored samples and the filter
states. -/
theorem process_frame_layout (m : Libm) (c : FrameConsts) (i : ℕ)
    (s : DattorroReverb × (ℤ → ℚ)) :
    (process_frame m c i s).1.sample_rate = s.1.sample_rate ∧
    (process_frame m c i s).1.params = s.1.params ∧
    (process_frame m c i s).1.taps = s.1.taps ∧
    (process_frame m c i s).1.pre_delay_length = s.1.pre_delay_length ∧
    (process_frame m c i s).1.pre_delay_write_pos =
      Int.tmod (s.1.pre_delay_write_pos + 1) s.1.pre_delay_length ∧
    ∀ j, ((process_frame m c i s).1.delays j).size = (s.1.delays j).size ∧
      ((process_frame m c i s).1.delays j).mask = (s.1.delays j).mask ∧
      ((process_frame m c i s).1.delays j).write_pos =
        if j < 12 then Int.land ((s.1.delays j).write_pos + 1) (s.1.delays j).mask
        else (s.1.delays j).write_pos := by
  obtain ⟨a1, a2, a3, _, a5, a6, _, a8⟩ := frame_tank_layout m c i s
  rw [process_frame_fst]
  simp only [stage_advance, for_loop_advance]
  refine ⟨?_, ?_, ?_, ?_, ?_, fun j => ?_⟩
  · split_ifs <;> exact a1
  · split_ifs <;> exact a2
  · split_ifs <;> exact a3
  · split_ifs <;> exact a5
  · split_ifs <;> simp [a5, a6]
  · obtain ⟨b1, b2, b3⟩ := a8 j
    by_cases hj : j < 12
    · split_ifs <;> simp [hj, b1, b2, b3]
    · split_ifs <;> simp [hj, b1, b2, b3]

theorem process_frame_snd (m : Libm) (c : FrameConsts) (i : ℕ) (s : DattorroReverb × (ℤ → ℚ)) :
    (process_frame m c i s).2 =
      Function.update
        (Function.update s.2 (i * 2)
          (s.2 (i * 2) * c.dr + wet_left (frame_tank m c i s) * c.we))
        (i * 2 + 1) (s.2 (i * 2 + 1) * c.dr + wet_right (frame_tank m c i s) * c.we) := by
  simp only [process_frame, frame_tank]

theorem delay_write_self (r : DattorroReverb) (j : ℕ) (v : ℚ)
    (h : (r.delays j).buffer (r.delays j).write_pos = v) : delay_write r j v = r := by
  subst h
  simp [delay_write]

theorem fixed_read_silent {r : DattorroReverb} (h : Silent r) (j : ℕ) : fixed_read r j = 0 :=
  h.1 j _

theorem tap_read_silent {r : DattorroReverb} (h : Silent r) (j t : ℕ) : tap_read r j t = 0 :=
  h.1 j _

theorem read_delay_cat_silent {r : DattorroReverb} (h : Silent r) (j : ℕ) (x : ℚ) :
    read_delay_cat (r.delays j) x = 0 := by
  simp [read_delay_cat, h.1 j]

theorem stage_input_silent (c : FrameConsts) {r : DattorroReverb} (h : Silent r) :
    stage_input c r 0 0 = r := by
  obtain ⟨_, h2, h3, _, _⟩ := h
  have hb : Function.update r.pre_delay_buffer r.pre_delay_write_pos 0 = r.pre_delay_buffer := by
    rw [← h2 r.pre_delay_write_pos]; exact Function.update_eq_self _ _
  simp [stage_input, hb, h2, h3]
  rw [← h3]

theorem stage_diffusion_silent (c : FrameConsts) {r : DattorroReverb} (h : Silent r) :
    stage_diffusion c r = (r, 0) := by
  have hw : ∀ j, delay_write r j 0 = r := fun j => delay_write_self r j 0 (h.1 j _)
  simp [stage_diffusion, fixed_read_silent h, h.2.2.1, hw]

theorem stage_left_silent (c : FrameConsts) {r : DattorroReverb} (h : Silent r) (exc : ℚ) :
    stage_left c r 0 exc = r := by
  have hw : ∀ j, delay_write r j 0 = r := fun j => delay_write_self r j 0 (h.1 j _)
  have h2 : r.lp2 = 0 := h.2.2.2.1
  have hr : ({ r with lp2 := 0 } : DattorroReverb) = r := by rw [← h2]
  simp [stage_left, fixed_read_silent h, read_delay_cat_silent h, hw, h2, hr]

theorem stage_right_silent (c : FrameConsts) {r : DattorroReverb} (h : Silent r) (exc2 : ℚ) :
    stage_right c r 0 exc2 = r := by
  have hw : ∀ j, delay_write r j 0 = r := fun j => delay_write_self r j 0 (h.1 j _)
  have h3 : r.lp3 = 0 := h.2.2.2.2
  have hr : ({ r with lp3 := 0 } : DattorroReverb) = r := by rw [← h3]
  simp [stage_right, fixed_read_silent h, read_delay_cat_silent h, hw, h3, hr]

theorem frame_tank_silent (m : Libm) (c : FrameConsts) (i : ℕ) {r : DattorroReverb}
    (h : Silent r) (b : ℤ → ℚ) (hb : ∀ k, b k = 0) : frame_tank m c i (r, b) = r := by
  simp only [frame_tank, hb, stage_input_silent c h, stage_diffusion_silent c h,
    stage_left_silent c h, stage_right_silent c h]

theorem stage_advance_silent (c : FrameConsts) {r : DattorroReverb} (h : Silent r) :
    Silent (stage_advance c r) := by
  obtain ⟨h1, h2, h3, h4, h5⟩ := h
  simp only [stage_advance, for_loop_advance]
  refine ⟨fun j k => ?_, ?_, ?_, ?_, ?_⟩
  · by_cases hj : j < 12 <;> split_ifs <;> simp [hj, h1]
  · split_ifs <;> exact h2
  · split_ifs <;> exact h3
  · split_ifs <;> exact h4
  · split_ifs <;> exact h5

theorem process_frame_silent (m : Libm) (c : FrameConsts) (i : ℕ) {r : DattorroReverb}
    (h : Silent r) (b : ℤ → ℚ) (hb : ∀ k, b k = 0) :
    Silent (process_frame m c i (r, b)).1 ∧ ∀ k, (process_frame m c i (r, b)).2 k = 0 := by
  constructor
  · rw [process_frame_fst, frame_tank_silent m c i h b hb]
    exact stage_advance_silent c h
  · intro k
    rw [process_frame_snd, frame_tank_silent m c i h b hb]
    simp only [wet_left, wet_right, tap_read_silent h, hb, Function.update]
    split_ifs <;> simp

theorem process_silent (m : Libm) (r : DattorroReverb) (h : Silent r) (b : ℤ → ℚ)
    (hb : ∀ k, b k = 0) (n : ℤ) :
    Silent (dattorro_reverb_process m r b n).1 ∧ ∀ k, (dattorro_reverb_process m r b n).2 k = 0 := by
  unfold dattorro_reverb_process
  generalize frame_consts r = c
  induction n.toNat with
  | zero => exact ⟨h, hb⟩
  | succ k ih =>
    rw [for_loop_succ]
    exact process_frame_silent m c k ih.1 _ ih.2

/-! ## Facts about a whole call and about reachable engines -/

/-- A property of the engine kept by every frame is kept by a call. -/
theorem process_preserves (m : Libm) (P : DattorroReverb → Prop)
    (hP : ∀ c i s, P s.1 → P (process_frame m c i s).1) (r : DattorroReverb) (b : ℤ → ℚ)
    (n : ℤ) (h : P r) : P (dattorro_reverb_process m r b n).1 := by
  unfold dattorro_reverb_process
  generalize frame_consts r = c
  induction n.toNat with
  | zero => exact h
  | succ k ih => rw [for_loop_succ]; exact hP c k _ ih

theorem init_true_iff (reverb : DattorroReverb) (sr : ℚ) :
    (dattorro_reverb_init reverb sr).1 = true ↔ sr ≤ DATTORRO_MAX_SR := by
  rw [init_flag]; simp

theorem mask_nonneg_of_eq {d : DelayLine}
    (h : d.mask + 1 = next_power_of_two (d.size + 1)) : 0 ≤ d.mask := by
  obtain ⟨b, hb, _⟩ := next_power_of_two_spec (d.size + 1)
  have : (1 : ℤ) ≤ 2 ^ b := one_le_pow₀ (by norm_num)
  omega

theorem wellFormed_init (reverb : DattorroReverb) (sr : ℚ) (h : sr ≤ DATTORRO_MAX_SR) :
    WellFormed (dattorro_reverb_init reverb sr).2 := by
  obtain ⟨h1, h2, h3, -⟩ := init_scalars reverb sr h
  refine ⟨by rw [h1]; exact h, by rw [h2, h1], fun hl => ?_, fun j hj => ?_⟩
  · rw [h3]; exact ⟨le_refl _, by omega⟩
  · rw [init_delays reverb sr h j, h1]
    simp only [hj, if_true, fresh_delay, sub_add_cancel, true_and, le_refl]
    obtain ⟨b, hb, _⟩ := next_power_of_two_spec (roundf (delay_lengths j * sr))
    have : (1 : ℤ) ≤ 2 ^ b := one_le_pow₀ (by norm_num)
    omega

theorem wellFormed_set_parameter (r : DattorroReverb) (p : ℤ) (v : ℚ) (h : WellFormed r) :
    WellFormed (dattorro_reverb_set_parameter r p v) := by
  unfold dattorro_reverb_set_parameter
  split_ifs
  · exact h
  · exact h

theorem wellFormed_frame (m : Libm) (c : FrameConsts) (i : ℕ) (s : DattorroReverb × (ℤ → ℚ))
    (h : WellFormed s.1) : WellFormed (process_frame m c i s).1 := by
  obtain ⟨h1, h2, h3, h4⟩ := h
  obtain ⟨a1, -, -, a4, a5, a6⟩ := process_frame_layout m c i s
  refine ⟨by rw [a1]; exact h1, by rw [a4, a1]; exact h2, fun hl => ?_, fun j hj => ?_⟩
  · rw [a4] at hl
    obtain ⟨hw, _⟩ := h3 hl
    rw [a5, a4]
    exact ⟨Int.tmod_nonneg _ (by omega), Int.tmod_lt_of_pos _ (by omega)⟩
  · obtain ⟨b1, b2, b3⟩ := a6 j
    obtain ⟨c1, c2, c3, c4⟩ := h4 j hj
    have hm : 0 ≤ (s.1.delays j).mask := mask_nonneg_of_eq c2
    rw [b1, b2, b3, a1]
    simp only [hj, if_true]
    exact ⟨c1, c2, land_nonneg _ _ hm, land_le _ _ hm⟩

theorem reachable_wellFormed (m : Libm) (r : DattorroReverb) (h : Reachable m r) :
    WellFormed r := by
  induction h with
  | init reverb sr h => exact wellFormed_init reverb sr ((init_true_iff reverb sr).mp h)
  | set_parameter r p v _ ih => exact wellFormed_set_parameter r p v ih
  | process r b n _ ih =>
    exact process_preserves m WellFormed (fun c i s hs => wellFormed_frame m c i s hs) r b n ih

/-! ## The claims -/

/-- C1. Identity at extremes: with WET = 0 and DRY = 1 a call of
`dattorro_reverb_process` leaves every buffer entry (so each of the first
`2 * num_frames`) equal to its input value, for every engine state, every
buffer and every frame count. -/
theorem identity_at_extremes (m : Libm) (reverb : DattorroReverb) (buffer : ℤ → ℚ)
    (num_frames : ℤ)
    (hwet : dattorro_reverb_get_parameter reverb WET = 0)
    (hdry : dattorro_reverb_get_parameter reverb DRY = 1) :
    ∀ k, (dattorro_reverb_process m reverb buffer num_frames).2 k = buffer k := by
  have hwe : (frame_consts reverb).we = 0 := by
    simp [dattorro_reverb_get_parameter, WET, NUM_DATTORRO_PARAMS] at hwet
    simp [frame_consts, WET, hwet]
  have hdr : (frame_consts reverb).dr = 1 := by
    simp [dattorro_reverb_get_parameter, DRY, NUM_DATTORRO_PARAMS] at hdry
    simp [frame_consts, DRY, hdry]
  unfold dattorro_reverb_process
  generalize frame_consts reverb = c at hwe hdr
  have key : ∀ n : ℕ, (for_loop n (process_frame m c) (reverb, buffer)).2 = buffer := by
    intro n
    induction n with
    | zero => rfl
    | succ k ih =>
      rw [for_loop_succ, process_frame_snd, ih, hwe, hdr]
      simp
  intro k
  rw [key]

theorem identity_at_extremes_witness :
    dattorro_reverb_get_parameter
        (dattorro_reverb_set_parameter (dattorro_reverb_set_parameter used_engine WET 0) DRY 1)
        WET = 0 ∧
      (dattorro_reverb_process sample_libm
        (dattorro_reverb_set_parameter (dattorro_reverb_set_parameter used_engine WET 0) DRY 1)
        (fun k => (k : ℚ) / 3) 2).2 1 = 1 / 3 := by
  have hwet : dattorro_reverb_get_parameter
      (dattorro_reverb_set_parameter (dattorro_reverb_set_parameter used_engine WET 0) DRY 1)
      WET = 0 := by
    simp [dattorro_reverb_get_parameter, dattorro_reverb_set_parameter, WET, DRY,
      NUM_DATTORRO_PARAMS]
  have hdry : dattorro_reverb_get_parameter
      (dattorro_reverb_set_parameter (dattorro_reverb_set_parameter used_engine WET 0) DRY 1)
      DRY = 1 := by
    simp [dattorro_reverb_get_parameter, dattorro_reverb_set_parameter, WET, DRY,
      NUM_DATTORRO_PARAMS]
  refine ⟨hwet, ?_⟩
  rw [identity_at_extremes sample_libm _ _ 2 hwet hdry 1]
  norm_num

theorem apply_settings_silent (settings : List (ℤ × ℚ)) (r : DattorroReverb) (h : Silent r) :
    Silent (apply_settings settings r) := by
  unfold apply_settings
  induction settings generalizing r with
  | nil => exact h
  | cons pv rest ih =>
    simp only [List.foldl_cons]
    apply ih
    unfold dattorro_reverb_set_parameter
    split_ifs
    · exact h
    · exact h

theorem init_silent (reverb : DattorroReverb) (sr : ℚ) (h : sr ≤ DATTORRO_MAX_SR) :
    Silent (dattorro_reverb_init reverb sr).2 := by
  obtain ⟨-, -, -, h4, -, h6, h7, h8, -⟩ := init_scalars reverb sr h
  refine ⟨fun j k => ?_, fun k => by rw [h4], h6, h7, h8⟩
  rw [init_delays reverb sr h j]
  split_ifs <;> rfl

/-- C2. No energy from nothing: on a freshly initialised engine, whatever
parameter values are set afterwards and whatever the frame count, processing
an all-zero buffer leaves the buffer all zero, and afterwards every delay-line
buffer, the pre-delay buffer and the filter states lp1, lp2, lp3 are still
zero; the parameters are untouched. -/
theorem no_energy_from_nothing (m : Libm) (reverb : DattorroReverb) (sample_rate : ℚ)
    (settings : List (ℤ × ℚ)) (buffer : ℤ → ℚ) (num_frames : ℤ)
    (hinit : (dattorro_reverb_init reverb sample_rate).1 = true)
    (hzero : ∀ k, buffer k = 0) :
    (∀ k, (dattorro_reverb_process m
        (apply_settings settings (dattorro_reverb_init reverb sample_rate).2)
        buffer num_frames).2 k = 0) ∧
    (∀ j k, ((dattorro_reverb_process m
        (apply_settings settings (dattorro_reverb_init reverb sample_rate).2)
        buffer num_frames).1.delays j).buffer k = 0) ∧
    (∀ k, (dattorro_reverb_process m
        (apply_settings settings (dattorro_reverb_init reverb sample_rate).2)
        buffer num_frames).1.pre_delay_buffer k = 0) ∧
    (dattorro_reverb_process m
        (apply_settings settings (dattorro_reverb_init reverb sample_rate).2)
        buffer num_frames).1.lp1 = 0 ∧
    (dattorro_reverb_process m
        (apply_settings settings (dattorro_reverb_init reverb sample_rate).2)
        buffer num_frames).1.lp2 = 0 ∧
    (dattorro_reverb_process m
        (apply_settings settings (dattorro_reverb_init reverb sample_rate).2)
        buffer num_frames).1.lp3 = 0 ∧
    (dattorro_reverb_process m
        (apply_settings settings (dattorro_reverb_init reverb sample_rate).2)
        buffer num_frames).1.params =
      (apply_settings settings (dattorro_reverb_init reverb sample_rate).2).params := by
  have hs := apply_settings_silent settings _
    (init_silent reverb sample_rate ((init_true_iff reverb sample_rate).mp hinit))
  obtain ⟨⟨h1, h2, h3, h4, h5⟩, hb⟩ := process_silent m _ hs buffer hzero num_frames
  refine ⟨hb, h1, h2, h3, h4, h5, ?_⟩
  exact process_preserves m
    (fun r => r.params =
      (apply_settings settings (dattorro_reverb_init reverb sample_rate).2).params)
    (fun c i s hs => ((process_frame_layout m c i s).2.1).trans hs) _ _ _ rfl

theorem no_energy_from_nothing_witness :
    (dattorro_reverb_init used_engine 44100).1 = true ∧
    (dattorro_reverb_process sample_libm
        (apply_settings [(DRY, 0), (WET, 1), (DECAY, 9 / 10)]
          (dattorro_reverb_init used_engine 44100).2)
        (fun _ => 0) 3).2 0 = 0 := by
  have hinit : (dattorro_reverb_init used_engine 44100).1 = true := by
    rw [init_true_iff]; norm_num [DATTORRO_MAX_SR]
  exact ⟨hinit, (no_energy_from_nothing sample_libm used_engine 44100
    [(DRY, 0), (WET, 1), (DECAY, 9 / 10)] (fun _ => 0) 3 hinit (fun _ => rfl)).1 0⟩

/-- C3. Parameter store round trip and independence: for a valid identifier
`p`, after `set_parameter(p, v)` the call `get_parameter(p)` returns `v`
itself (unclamped), `get_parameter(q)` returns what it returned before for
every other `q`, and no other member of the engine changes. -/
theorem set_get_parameter_round_trip (reverb : DattorroReverb) (p q : ℤ) (v : ℚ)
    (hp : 0 ≤ p ∧ p < NUM_DATTORRO_PARAMS) :
    dattorro_reverb_get_parameter (dattorro_reverb_set_parameter reverb p v) p = v ∧
    (q ≠ p → dattorro_reverb_get_parameter (dattorro_reverb_set_parameter reverb p v) q =
      dattorro_reverb_get_parameter reverb q) ∧
    (dattorro_reverb_set_parameter reverb p v).sample_rate = reverb.sample_rate ∧
    (dattorro_reverb_set_parameter reverb p v).delay_buf = reverb.delay_buf ∧
    (dattorro_reverb_set_parameter reverb p v).delays = reverb.delays ∧
    (dattorro_reverb_set_parameter reverb p v).taps = reverb.taps ∧
    (dattorro_reverb_set_parameter reverb p v).pre_delay_buffer = reverb.pre_delay_buffer ∧
    (dattorro_reverb_set_parameter reverb p v).pre_delay_length = reverb.pre_delay_length ∧
    (dattorro_reverb_set_parameter reverb p v).pre_delay_write_pos =
      reverb.pre_delay_write_pos ∧
    (dattorro_reverb_set_parameter reverb p v).lp1 = reverb.lp1 ∧
    (dattorro_reverb_set_parameter reverb p v).lp2 = reverb.lp2 ∧
    (dattorro_reverb_set_parameter reverb p v).lp3 = reverb.lp3 ∧
    (dattorro_reverb_set_parameter reverb p v).exc_phase = reverb.exc_phase := by
  rw [set_parameter_valid reverb p v hp]
  refine ⟨by simp [dattorro_reverb_get_parameter, hp], fun hq => ?_, rfl, rfl, rfl, rfl, rfl,
    rfl, rfl, rfl, rfl, rfl, rfl⟩
  simp [dattorro_reverb_get_parameter, Function.update_noteq hq]

theorem set_get_parameter_round_trip_witness :
    dattorro_reverb_get_parameter (dattorro_reverb_set_parameter used_engine DECAY (5 / 2))
      DECAY = 5 / 2 ∧
    dattorro_reverb_get_parameter (dattorro_reverb_set_parameter used_engine DECAY (5 / 2))
      WET = dattorro_reverb_get_parameter used_engine WET :=
  ⟨(set_get_parameter_round_trip used_engine DECAY WET (5 / 2) (by decide)).1,
    (set_get_parameter_round_trip used_engine DECAY WET (5 / 2) (by decide)).2.1 (by decide)⟩

/-- C4. Init failure condition: `dattorro_reverb_init` returns false exactly
when the sample rate exceeds `DATTORRO_MAX_SR` = 44100, true for every other
rate, and on failure the engine object is returned as it was. -/
theorem init_fails_exactly_above_max (reverb : DattorroReverb) (sample_rate : ℚ) :
    DATTORRO_MAX_SR = 44100 ∧
    ((dattorro_reverb_init reverb sample_rate).1 = false ↔ sample_rate > DATTORRO_MAX_SR) ∧
    ((dattorro_reverb_init reverb sample_rate).1 = true ↔ sample_rate ≤ DATTORRO_MAX_SR) ∧
    ((dattorro_reverb_init reverb sample_rate).1 = false →
      (dattorro_reverb_init reverb sample_rate).2 = reverb) := by
  refine ⟨rfl, ?_, init_true_iff reverb sample_rate, ?_⟩
  · rw [init_flag]; simp
  · unfold dattorro_reverb_init
    split_ifs <;> simp

theorem next_power_of_two_loop_le (n : ℤ) (c : ℕ) (hn : n ≤ 2 ^ c) :
    ∀ (fuel a : ℕ), a ≤ c → next_power_of_two_loop n fuel (2 ^ a) ≤ 2 ^ c := by
  intro fuel
  induction fuel with
  | zero =>
    intro a ha
    exact pow_le_pow_right₀ (by norm_num) ha
  | succ f ih =>
    intro a ha
    by_cases hlt : (2 : ℤ) ^ a < n
    · have hac : a < c := by
        by_contra hge
        have : (2 : ℤ) ^ c ≤ 2 ^ a := pow_le_pow_right₀ (by norm_num) (not_lt.mp hge)
        linarith
      have := ih (a + 1) hac
      simp only [next_power_of_two_loop, hlt, if_true]
      rwa [pow_succ] at this
    · simp only [next_power_of_two_loop, hlt, if_false]
      exact pow_le_pow_right₀ (by norm_num) ha

theorem next_power_of_two_le (n : ℤ) (c : ℕ) (hn : n ≤ 2 ^ c) : next_power_of_two n ≤ 2 ^ c := by
  unfold next_power_of_two
  split_ifs
  · exact one_le_pow₀ (by norm_num)
  · simpa using next_power_of_two_loop_le n c hn n.toNat 0 (Nat.zero_le _)

theorem roundf_le (x : ℚ) (b : ℤ) (hb : 0 ≤ b) (hx : x ≤ b) : roundf x ≤ b := by
  unfold roundf
  split_ifs with h
  · have : ⌊x + 1 / 2⌋ < b + 1 := by
      rw [Int.floor_lt]; push_cast; linarith
    omega
  · have : 0 ≤ ⌊-x + 1 / 2⌋ := by
      rw [Int.le_floor]; push_cast; push_neg at h; linarith
    omega

theorem two_le_roundf_iff (x : ℚ) : 2 ≤ roundf x ↔ 3 / 2 ≤ x := by
  unfold roundf
  split_ifs with h
  · rw [Int.le_floor]; push_cast; constructor <;> intro h1 <;> linarith
  · push_neg at h
    have : 0 ≤ ⌊-x + 1 / 2⌋ := by
      rw [Int.le_floor]; push_cast; linarith
    constructor
    · intro h1; omega
    · intro h1; linarith

theorem delay_lengths_bounds (j : ℕ) (hj : j < 12) :
    (3595309 : ℚ) / 1000000000 ≤ delay_lengths j ∧ delay_lengths j ≤ 3 / 20 := by
  interval_cases j <;> norm_num [delay_lengths]

theorem DELAY_BUF_SIZE_5_eq : DELAY_BUF_SIZE_5 = 8192 := by
  have h1 : to_int (0.149625349 * DATTORRO_MAX_SR) = 6598 := by
    unfold to_int DATTORRO_MAX_SR
    norm_num
  have h2 : clz32 ((6598 : ℤ) - 1).toNat = 19 := by decide
  rw [DELAY_BUF_SIZE_5, NEXT_POW2, h1, h2]
  norm_num

theorem wellFormed_mask_le (r : DattorroReverb) (h : WellFormed r) (j : ℕ) (hj : j < 12) :
    (r.delays j).mask + 1 ≤ 8192 := by
  obtain ⟨h1, -, -, h4⟩ := h
  obtain ⟨c1, c2, -, -⟩ := h4 j hj
  rw [c2, c1]
  have hl := delay_lengths_bounds j hj
  have hx : delay_lengths j * r.sample_rate ≤ ((8192 : ℤ) : ℚ) := by
    unfold DATTORRO_MAX_SR at h1
    rcases le_or_lt 0 r.sample_rate with hs | hs
    · push_cast
      nlinarith [hl.1, hl.2]
    · push_cast
      nlinarith [hl.1, hl.2]
  have := next_power_of_two_le _ 13 (by
    have := roundf_le _ 8192 (by norm_num) hx
    norm_num; exact this)
  norm_num at this
  exact this

/-- C5. Delay-line shape invariant: in every engine reachable from a
successful init, each of the 12 delay lines has `mask + 1` a power of two,
`mask + 1 = next_power_of_two (size + 1)` with `size + 1` the requested length
`roundf (length * sample_rate)` and `size + 1 ≤ mask + 1`, and
`0 ≤ write_pos ≤ mask`; a frame sets `write_pos` to `(write_pos + 1) & mask`
and keeps `size` and `mask`. -/
theorem delay_line_shape (m : Libm) (r : DattorroReverb) (h : Reachable m r) (j : ℕ)
    (hj : j < 12) :
    (∃ k : ℕ, (r.delays j).mask + 1 = 2 ^ k) ∧
    (r.delays j).mask + 1 = next_power_of_two ((r.delays j).size + 1) ∧
    (r.delays j).size + 1 = roundf (delay_lengths j * r.sample_rate) ∧
    (r.delays j).size + 1 ≤ (r.delays j).mask + 1 ∧
    0 ≤ (r.delays j).write_pos ∧ (r.delays j).write_pos ≤ (r.delays j).mask ∧
    ∀ (c : FrameConsts) (i : ℕ) (buffer : ℤ → ℚ),
      ((process_frame m c i (r, buffer)).1.delays j).write_pos =
        Int.land ((r.delays j).write_pos + 1) (r.delays j).mask ∧
      ((process_frame m c i (r, buffer)).1.delays j).size = (r.delays j).size ∧
      ((process_frame m c i (r, buffer)).1.delays j).mask = (r.delays j).mask := by
  obtain ⟨-, -, -, h4⟩ := reachable_wellFormed m r h
  obtain ⟨c1, c2, c3, c4⟩ := h4 j hj
  obtain ⟨b, hb, hn⟩ := next_power_of_two_spec ((r.delays j).size + 1)
  refine ⟨⟨b, c2.trans hb⟩, c2, c1, by rw [c2, hb]; exact hn, c3, c4, fun c i buffer => ?_⟩
  obtain ⟨b1, b2, b3⟩ := (process_frame_layout m c i (r, buffer)).2.2.2.2.2 j
  exact ⟨by rw [b3]; simp [hj], b1, b2⟩

theorem delay_line_shape_witness :
    (∃ k : ℕ, ((dattorro_reverb_process sample_libm
        (dattorro_reverb_init used_engine 44100).2 (fun _ => 1) 5).1.delays 5).mask + 1 = 2 ^ k) ∧
    0 ≤ ((dattorro_reverb_process sample_libm
        (dattorro_reverb_init used_engine 44100).2 (fun _ => 1) 5).1.delays 5).write_pos := by
  have hinit : (dattorro_reverb_init used_engine 44100).1 = true := by
    rw [init_true_iff]; norm_num [DATTORRO_MAX_SR]
  have h := delay_line_shape sample_libm _
    (Reachable.process _ (fun _ => 1) 5 (Reachable.init used_engine 44100 hinit)) 5 (by decide)
  exact ⟨h.1, h.2.2.2.2.1⟩

/-- C6. Delay-line index safety: take an engine `r` reachable from a
successful init and any engine `s` with the same layout (the states a frame
passes through, see `frame_tank_layout`).  For each of the 12 lines, the index
of the fixed feedback read, of each sample of an interpolated read at any
offset, of a tap read at any tap value, and of the write all lie in
`[0, mask]`, and `mask + 1` is at most `DELAY_BUF_SIZE_5 = 8192`, the extent
of `DelayLine.buffer`. -/
theorem delay_index_safety (m : Libm) (r s : DattorroReverb) (h : Reachable m r)
    (hs : SameLayout r s) (j : ℕ) (hj : j < 12) (int_i k tap : ℤ) :
    (0 ≤ fixed_index (s.delays j) ∧ fixed_index (s.delays j) ≤ (s.delays j).mask) ∧
    (0 ≤ cat_index (s.delays j) int_i k ∧ cat_index (s.delays j) int_i k ≤ (s.delays j).mask) ∧
    (0 ≤ tap_index (s.delays j) tap ∧ tap_index (s.delays j) tap ≤ (s.delays j).mask) ∧
    (0 ≤ (s.delays j).write_pos ∧ (s.delays j).write_pos ≤ (s.delays j).mask) ∧
    (s.delays j).mask + 1 ≤ DELAY_BUF_SIZE_5 ∧ DELAY_BUF_SIZE_5 = 8192 := by
  have hw := reachable_wellFormed m r h
  have hle := wellFormed_mask_le r hw j hj
  obtain ⟨-, -, -, h4⟩ := hw
  obtain ⟨-, c2, c3, c4⟩ := h4 j hj
  obtain ⟨-, b2, b3⟩ := hs.2.2.2.2.2.2.2 j
  have hm : 0 ≤ (s.delays j).mask := by rw [b3]; exact mask_nonneg_of_eq c2
  refine ⟨⟨land_nonneg _ _ hm, land_le _ _ hm⟩, ⟨land_nonneg _ _ hm, land_le _ _ hm⟩,
    ⟨land_nonneg _ _ hm, land_le _ _ hm⟩, ⟨by rw [b2]; exact c3, by rw [b2, b3]; exact c4⟩,
    by rw [b3, DELAY_BUF_SIZE_5_eq]; exact hle, DELAY_BUF_SIZE_5_eq⟩

theorem delay_index_safety_witness :
    0 ≤ cat_index ((frame_tank sample_libm (frame_consts fresh_44100) 0
        (fresh_44100, fun _ => 1)).delays 4) 61 3 ∧
    cat_index ((frame_tank sample_libm (frame_consts fresh_44100) 0
        (fresh_44100, fun _ => 1)).delays 4) 61 3 ≤
      ((frame_tank sample_libm (frame_consts fresh_44100) 0
        (fresh_44100, fun _ => 1)).delays 4).mask := by
  have hinit : (dattorro_reverb_init used_engine 44100).1 = true := by
    rw [init_true_iff]; norm_num [DATTORRO_MAX_SR]
  have hr : Reachable sample_libm fresh_44100 := Reachable.init used_engine 44100 hinit
  have h := delay_index_safety sample_libm fresh_44100
    (frame_tank sample_libm (frame_consts fresh_44100) 0 (fresh_44100, fun _ => 1)) hr
    (frame_tank_layout sample_libm (frame_consts fresh_44100) 0 (fresh_44100, fun _ => 1))
    4 (by decide) 61 3 0
  exact h.2.1

theorem to_int_bounds (x : ℚ) (h1 : 1 ≤ x) (h2 : x ≤ DATTORRO_MAX_SR) :
    1 ≤ to_int x ∧ to_int x ≤ 44100 := by
  unfold DATTORRO_MAX_SR at h2
  have h0 : (0 : ℚ) ≤ x := by linarith
  simp only [to_int, h0, if_true]
  constructor
  · rw [Int.le_floor]; push_cast; exact h1
  · have : ⌊x⌋ < 44100 + 1 := by rw [Int.floor_lt]; push_cast; linarith
    omega

theorem set_parameter_cursors (r : DattorroReverb) (p : ℤ) (v : ℚ) :
    (dattorro_reverb_set_parameter r p v).sample_rate = r.sample_rate ∧
    (dattorro_reverb_set_parameter r p v).pre_delay_length = r.pre_delay_length ∧
    (dattorro_reverb_set_parameter r p v).pre_delay_write_pos = r.pre_delay_write_pos := by
  unfold dattorro_reverb_set_parameter
  split_ifs <;> exact ⟨rfl, rfl, rfl⟩

theorem set_pre_delay_pd (r : DattorroReverb) (v : ℚ) :
    (frame_consts (dattorro_reverb_set_parameter r PRE_DELAY v)).pd = to_int v := by
  rw [set_parameter_valid r PRE_DELAY v (by decide)]
  simp [frame_consts]

/-- C7, counterexample. After a successful init at 44100 Hz, with PRE_DELAY set
to 50000 the read index of the first frame is -5900, outside the pre-delay
buffer; and init at 0 Hz succeeds with `pre_delay_length = 0`. -/
theorem pre_delay_not_clamped :
    (dattorro_reverb_init used_engine 44100).1 = true ∧
    (dattorro_reverb_set_parameter fresh_44100 PRE_DELAY 50000).pre_delay_length = 44100 ∧
    pre_delay_read_pos (dattorro_reverb_set_parameter fresh_44100 PRE_DELAY 50000)
      (frame_consts (dattorro_reverb_set_parameter fresh_44100 PRE_DELAY 50000)).pd = -5900 ∧
    (dattorro_reverb_init used_engine 0).1 = true ∧
    (dattorro_reverb_init used_engine 0).2.pre_delay_length = 0 := by
  have h44 : (44100 : ℚ) ≤ DATTORRO_MAX_SR := by norm_num [DATTORRO_MAX_SR]
  have h0 : (0 : ℚ) ≤ DATTORRO_MAX_SR := by norm_num [DATTORRO_MAX_SR]
  obtain ⟨-, a2, a3, -⟩ := init_scalars used_engine 44100 h44
  obtain ⟨-, b2, -⟩ := init_scalars used_engine 0 h0
  obtain ⟨-, c2, c3⟩ := set_parameter_cursors fresh_44100 PRE_DELAY 50000
  have hl : (dattorro_reverb_set_parameter fresh_44100 PRE_DELAY 50000).pre_delay_length
      = 44100 := by
    rw [c2, fresh_44100, a2]; norm_num [to_int]
  have hw : (dattorro_reverb_set_parameter fresh_44100 PRE_DELAY 50000).pre_delay_write_pos
      = 0 := by
    rw [c3, fresh_44100, a3]
  have hpd : (frame_consts (dattorro_reverb_set_parameter fresh_44100 PRE_DELAY 50000)).pd
      = 50000 := by
    rw [set_pre_delay_pd]; norm_num [to_int]
  refine ⟨(init_true_iff _ _).mpr h44, hl, ?_, (init_true_iff _ _).mpr h0, ?_⟩
  · rw [pre_delay_read_pos, hl, hw, hpd]; decide
  · rw [b2]; norm_num [to_int]

/-- C7, amended. In every engine reachable from a successful init whose sample
rate is at least 1, if the integer part `pd` of PRE_DELAY that a call reads is
at most `pre_delay_length` (process does not clamp it), then
`1 ≤ pre_delay_length ≤ 44100` and both the pre-delay write index and the read
index `(write_pos - pd + pre_delay_length) % pre_delay_length` lie in
`[0, pre_delay_length)`. -/
theorem pre_delay_index_safety (m : Libm) (r : DattorroReverb) (h : Reachable m r)
    (hsr : 1 ≤ r.sample_rate) (hpd : (frame_consts r).pd ≤ r.pre_delay_length) :
    (frame_consts r).pd = to_int (dattorro_reverb_get_parameter r PRE_DELAY) ∧
    1 ≤ r.pre_delay_length ∧ r.pre_delay_length ≤ 44100 ∧
    (0 ≤ r.pre_delay_write_pos ∧ r.pre_delay_write_pos < r.pre_delay_length) ∧
    (0 ≤ pre_delay_read_pos r (frame_consts r).pd ∧
      pre_delay_read_pos r (frame_consts r).pd < r.pre_delay_length) := by
  obtain ⟨h1, h2, h3, -⟩ := reachable_wellFormed m r h
  obtain ⟨hl1, hl2⟩ := to_int_bounds r.sample_rate hsr h1
  rw [← h2] at hl1 hl2
  obtain ⟨hw1, hw2⟩ := h3 hl1
  refine ⟨by simp [frame_consts, dattorro_reverb_get_parameter, PRE_DELAY, NUM_DATTORRO_PARAMS],
    hl1, hl2, ⟨hw1, hw2⟩, ?_, ?_⟩
  · exact Int.tmod_nonneg _ (by omega)
  · exact Int.tmod_lt_of_pos _ (by omega)

theorem pre_delay_index_safety_witness :
    0 ≤ pre_delay_read_pos (dattorro_reverb_set_parameter fresh_44100 PRE_DELAY 44100)
      (frame_consts (dattorro_reverb_set_parameter fresh_44100 PRE_DELAY 44100)).pd ∧
    pre_delay_read_pos (dattorro_reverb_set_parameter fresh_44100 PRE_DELAY 44100)
      (frame_consts (dattorro_reverb_set_parameter fresh_44100 PRE_DELAY 44100)).pd <
      (dattorro_reverb_set_parameter fresh_44100 PRE_DELAY 44100).pre_delay_length := by
  have h44 : (44100 : ℚ) ≤ DATTORRO_MAX_SR := by norm_num [DATTORRO_MAX_SR]
  obtain ⟨a1, a2, -⟩ := init_scalars used_engine 44100 h44
  have hr : Reachable sample_libm (dattorro_reverb_set_parameter fresh_44100 PRE_DELAY 44100) :=
    Reachable.set_parameter fresh_44100 PRE_DELAY 44100
      (Reachable.init used_engine 44100 ((init_true_iff _ _).mpr h44))
  obtain ⟨c1, c2, -⟩ := set_parameter_cursors fresh_44100 PRE_DELAY 44100
  have hsr : 1 ≤ (dattorro_reverb_set_parameter fresh_44100 PRE_DELAY 44100).sample_rate := by
    rw [c1, fresh_44100, a1]; norm_num
  have hpd : (frame_consts (dattorro_reverb_set_parameter fresh_44100 PRE_DELAY 44100)).pd ≤
      (dattorro_reverb_set_parameter fresh_44100 PRE_DELAY 44100).pre_delay_length := by
    rw [set_pre_delay_pd, c2, fresh_44100, a2]
  exact (pre_delay_index_safety sample_libm
    (dattorro_reverb_set_parameter fresh_44100 PRE_DELAY 44100) hr hsr hpd).2.2.2.2

/-- C8, counterexample. Init at 100 Hz succeeds although delay line 0 gets
the logical size -1. -/
theorem degenerate_delay_accepted :
    (dattorro_reverb_init used_engine 100).1 = true ∧
    ((dattorro_reverb_init used_engine 100).2.delays 0).size = -1 := by
  have h100 : (100 : ℚ) ≤ DATTORRO_MAX_SR := by norm_num [DATTORRO_MAX_SR]
  refine ⟨(init_true_iff _ _).mpr h100, ?_⟩
  rw [init_delays used_engine 100 h100 0]
  norm_num [fresh_delay, delay_lengths, roundf]

/-- C8, amended. Init checks the sample rate only.  When it returns true,
every delay line has size at least 1 exactly when
`0.003595309 * sample_rate ≥ 1.5` (the shortest line rounds to 2 samples or
more); in particular for every accepted sample rate from 418 Hz up. -/
theorem delay_sizes_positive_iff (reverb : DattorroReverb) (sample_rate : ℚ)
    (h : (dattorro_reverb_init reverb sample_rate).1 = true) :
    ((∀ j, j < 12 → 1 ≤ ((dattorro_reverb_init reverb sample_rate).2.delays j).size) ↔
      3 / 2 ≤ 0.003595309 * sample_rate) ∧
    (418 ≤ sample_rate →
      ∀ j, j < 12 → 1 ≤ ((dattorro_reverb_init reverb sample_rate).2.delays j).size) := by
  have hsr := (init_true_iff reverb sample_rate).mp h
  have hsize : ∀ j, j < 12 →
      (1 ≤ ((dattorro_reverb_init reverb sample_rate).2.delays j).size ↔
        3 / 2 ≤ delay_lengths j * sample_rate) := by
    intro j hj
    rw [init_delays reverb sample_rate hsr j, ← two_le_roundf_iff]
    simp only [hj, if_true, fresh_delay]
    omega
  have hall : 3 / 2 ≤ 0.003595309 * sample_rate →
      ∀ j, j < 12 → 1 ≤ ((dattorro_reverb_init reverb sample_rate).2.delays j).size := by
    intro h1 j hj
    rw [hsize j hj]
    have hl := (delay_lengths_bounds j hj).1
    have hpos : 0 < sample_rate := by
      by_contra hn
      push_neg at hn
      have : (0.003595309 : ℚ) * sample_rate ≤ 0 :=
        mul_nonpos_of_nonneg_of_nonpos (by norm_num) hn
      linarith
    have : (0.003595309 : ℚ) * sample_rate ≤ delay_lengths j * sample_rate :=
      mul_le_mul_of_nonneg_right (by norm_num at hl ⊢; exact hl) hpos.le
    linarith
  refine ⟨⟨fun hj => ?_, hall⟩, fun h418 => hall (by norm_num at h418 ⊢; linarith)⟩
  have := (hsize 1 (by decide)).mp (hj 1 (by decide))
  simpa [delay_lengths] using this

theorem delay_sizes_positive_iff_witness :
    (dattorro_reverb_init used_engine 44100).1 = true ∧
    1 ≤ ((dattorro_reverb_init used_engine 44100).2.delays 1).size := by
  have hinit : (dattorro_reverb_init used_engine 44100).1 = true := by
    rw [init_true_iff]; norm_num [DATTORRO_MAX_SR]
  exact ⟨hinit, (delay_sizes_positive_iff used_engine 44100 hinit).2 (by norm_num) 1 (by decide)⟩

/-- C9. Unknown parameter identifier: for `param < 0` or
`param ≥ NUM_DATTORRO_PARAMS`, `dattorro_reverb_set_parameter` returns the
engine unchanged and `dattorro_reverb_get_parameter` returns 0. -/
theorem unknown_parameter_ignored (reverb : DattorroReverb) (param : ℤ) (value : ℚ)
    (hp : param < 0 ∨ NUM_DATTORRO_PARAMS ≤ param) :
    dattorro_reverb_set_parameter reverb param value = reverb ∧
    dattorro_reverb_get_parameter reverb param = 0 := by
  have hn : ¬ (0 ≤ param ∧ param < NUM_DATTORRO_PARAMS) := by
    rintro ⟨h1, h2⟩
    rcases hp with hp | hp <;> omega
  simp [dattorro_reverb_set_parameter, dattorro_reverb_get_parameter, hn]

theorem unknown_parameter_ignored_witness :
    dattorro_reverb_set_parameter used_engine 12 (1 / 2) = used_engine ∧
    dattorro_reverb_get_parameter used_engine (-1) = 0 :=
  ⟨(unknown_parameter_ignored used_engine 12 (1 / 2) (Or.inr (by decide))).1,
    (unknown_parameter_ignored used_engine (-1) 0 (Or.inl (by decide))).2⟩

/-- C10. Defaults at init: after a successful init, whatever the engine object
held before, `get_parameter` returns pre_delay = 0, bandwidth = 0.9999,
input_diffusion_1 = 0.75, input_diffusion_2 = 0.625, decay = 0.5,
decay_diffusion_1 = 0.7, decay_diffusion_2 = 0.5, damping = 0.005,
excursion_rate = 0.5, excursion_depth = 0.7, wet = 0.3, dry = 0.6, and all
cursors, filter states, the phase and all buffers are zero. -/
theorem init_defaults (reverb : DattorroReverb) (sample_rate : ℚ)
    (h : (dattorro_reverb_init reverb sample_rate).1 = true) :
    (dattorro_reverb_get_parameter (dattorro_reverb_init reverb sample_rate).2 PRE_DELAY = 0 ∧
    dattorro_reverb_get_parameter (dattorro_reverb_init reverb sample_rate).2 BANDWIDTH
      = 0.9999 ∧
    dattorro_reverb_get_parameter (dattorro_reverb_init reverb sample_rate).2 INPUT_DIFFUSION_1
      = 0.75 ∧
    dattorro_reverb_get_parameter (dattorro_reverb_init reverb sample_rate).2 INPUT_DIFFUSION_2
      = 0.625 ∧
    dattorro_reverb_get_parameter (dattorro_reverb_init reverb sample_rate).2 DECAY = 0.5 ∧
    dattorro_reverb_get_parameter (dattorro_reverb_init reverb sample_rate).2 DECAY_DIFFUSION_1
      = 0.7 ∧
    dattorro_reverb_get_parameter (dattorro_reverb_init reverb sample_rate).2 DECAY_DIFFUSION_2
      = 0.5 ∧
    dattorro_reverb_get_parameter (dattorro_reverb_init reverb sample_rate).2 DAMPING = 0.005 ∧
    dattorro_reverb_get_parameter (dattorro_reverb_init reverb sample_rate).2 EXCURSION_RATE
      = 0.5 ∧
    dattorro_reverb_get_parameter (dattorro_reverb_init reverb sample_rate).2 EXCURSION_DEPTH
      = 0.7 ∧
    dattorro_reverb_get_parameter (dattorro_reverb_init reverb sample_rate).2 WET = 0.3 ∧
    dattorro_reverb_get_parameter (dattorro_reverb_init reverb sample_rate).2 DRY = 0.6) ∧
    ((dattorro_reverb_init reverb sample_rate).2.pre_delay_write_pos = 0 ∧
    (∀ j, ((dattorro_reverb_init reverb sample_rate).2.delays j).write_pos = 0) ∧
    (dattorro_reverb_init reverb sample_rate).2.lp1 = 0 ∧
    (dattorro_reverb_init reverb sample_rate).2.lp2 = 0 ∧
    (dattorro_reverb_init reverb sample_rate).2.lp3 = 0 ∧
    (dattorro_reverb_init reverb sample_rate).2.exc_phase = 0 ∧
    (∀ j k, ((dattorro_reverb_init reverb sample_rate).2.delays j).buffer k = 0) ∧
    (∀ j k, (dattorro_reverb_init reverb sample_rate).2.delay_buf j k = 0) ∧
    (∀ k, (dattorro_reverb_init reverb sample_rate).2.pre_delay_buffer k = 0)) := by
  have hsr := (init_true_iff reverb sample_rate).mp h
  obtain ⟨-, -, a3, a4, a5, a6, a7, a8, a9⟩ := init_scalars reverb sample_rate hsr
  have hp := init_params reverb sample_rate hsr
  refine ⟨?_, a3, fun j => ?_, a6, a7, a8, a9, fun j k => ?_, fun j k => by rw [a5],
    fun k => by rw [a4]⟩
  · simp only [dattorro_reverb_get_parameter, hp, default_params, PRE_DELAY, BANDWIDTH,
      INPUT_DIFFUSION_1, INPUT_DIFFUSION_2, DECAY, DECAY_DIFFUSION_1, DECAY_DIFFUSION_2,
      DAMPING, EXCURSION_RATE, EXCURSION_DEPTH, WET, DRY, NUM_DATTORRO_PARAMS]
    norm_num
  · rw [init_delays reverb sample_rate hsr j]; split_ifs <;> rfl
  · rw [init_delays reverb sample_rate hsr j]; split_ifs <;> rfl

theorem init_defaults_witness :
    (dattorro_reverb_init used_engine 44100).1 = true ∧
    dattorro_reverb_get_parameter used_engine WET = 2 ∧
    dattorro_reverb_get_parameter (dattorro_reverb_init used_engine 44100).2 WET = 0.3 ∧
    used_engine.lp1 = 1 ∧ (dattorro_reverb_init used_engine 44100).2.lp1 = 0 := by
  have hinit : (dattorro_reverb_init used_engine 44100).1 = true := by
    rw [init_true_iff]; norm_num [DATTORRO_MAX_SR]
  have h := init_defaults used_engine 44100 hinit
  exact ⟨hinit, by simp [dattorro_reverb_get_parameter, used_engine, WET, NUM_DATTORRO_PARAMS],
    h.1.2.2.2.2.2.2.2.2.2.2.1, rfl, h.2.2.2.1⟩

/-! ## Interpolated reads, phase and mono input -/

theorem read_delay_cat_eq_poly (delay : DelayLine) (i : ℚ) :
    read_delay_cat delay i =
      cat_poly (delay.buffer (cat_index delay (floorf i) 0))
        (delay.buffer (cat_index delay (floorf i) 1))
        (delay.buffer (cat_index delay (floorf i) 2))
        (delay.buffer (cat_index delay (floorf i) 3)) (i - floorf i) := rfl

theorem stage_input_lp1 (c : FrameConsts) (r : DattorroReverb) (l rt : ℚ) :
    (stage_input c r l rt).lp1 = r.lp1 + c.bw * (pre_delay_out c r l rt - r.lp1) := rfl

theorem stage_input_pre_delay_buffer (c : FrameConsts) (r : DattorroReverb) (l rt : ℚ) :
    (stage_input c r l rt).pre_delay_buffer =
      Function.update r.pre_delay_buffer r.pre_delay_write_pos (mono_input l rt) := rfl

theorem run_frames_zero (m : Libm) (c : FrameConsts) (r : DattorroReverb) (b : ℤ → ℚ) :
    run_frames m c r b 0 = (r, b) := rfl

theorem run_frames_succ (m : Libm) (c : FrameConsts) (r : DattorroReverb) (b : ℤ → ℚ) (n : ℕ) :
    run_frames m c r b (n + 1) = process_frame m c n (run_frames m c r b n) :=
  for_loop_succ n _ _

theorem process_eq_run_frames (m : Libm) (r : DattorroReverb) (b : ℤ → ℚ) (n : ℤ) :
    dattorro_reverb_process m r b n = run_frames m (frame_consts r) r b n.toNat := rfl

theorem floorf_int_add (k : ℤ) (f : ℚ) (h0 : 0 ≤ f) (h1 : f < 1) : floorf (k + f) = k := by
  unfold floorf
  rw [Int.floor_eq_iff]
  constructor <;> linarith

theorem stage_diffusion_pre_delay_buffer (c : FrameConsts) (r : DattorroReverb) :
    (stage_diffusion c r).1.pre_delay_buffer = r.pre_delay_buffer := rfl

theorem stage_left_pre_delay_buffer (c : FrameConsts) (r : DattorroReverb) (split exc : ℚ) :
    (stage_left c r split exc).pre_delay_buffer = r.pre_delay_buffer := rfl

theorem stage_right_pre_delay_buffer (c : FrameConsts) (r : DattorroReverb) (split exc : ℚ) :
    (stage_right c r split exc).pre_delay_buffer = r.pre_delay_buffer := rfl

theorem stage_advance_pre_delay_buffer (c : FrameConsts) (r : DattorroReverb) :
    (stage_advance c r).pre_delay_buffer = r.pre_delay_buffer := by
  simp only [stage_advance, for_loop_advance]
  split_ifs <;> rfl

/-- What one frame does to the pre-delay buffer: one write of the mono input
at the write cursor. -/
theorem process_frame_pre_delay_buffer (m : Libm) (c : FrameConsts) (i : ℕ)
    (s : DattorroReverb × (ℤ → ℚ)) :
    (process_frame m c i s).1.pre_delay_buffer =
      Function.update s.1.pre_delay_buffer s.1.pre_delay_write_pos
        (mono_input (s.2 (i * 2)) (s.2 (i * 2 + 1))) := by
  rw [process_frame_fst, stage_advance_pre_delay_buffer]
  unfold frame_tank
  rw [stage_right_pre_delay_buffer, stage_left_pre_delay_buffer,
    stage_diffusion_pre_delay_buffer, stage_input_pre_delay_buffer]

theorem process_frame_exc_phase (m : Libm) (c : FrameConsts) (i : ℕ)
    (s : DattorroReverb × (ℤ → ℚ)) :
    (process_frame m c i s).1.exc_phase =
      if s.1.exc_phase + c.ex ≥ 1 then s.1.exc_phase + c.ex - 1 else s.1.exc_phase + c.ex := by
  obtain ⟨-, -, -, -, -, -, a7, -⟩ := frame_tank_layout m c i s
  rw [process_frame_fst]
  simp only [stage_advance, for_loop_advance, a7]
  split_ifs <;> rfl

/-- C11. Interpolation degenerates correctly: at an integer offset `k` the
cubic-interpolated read returns the one stored sample
`buffer[(write_pos - size + k) & mask]`, which is the slot of the integer tap
read at `size - k`; at offset 0 it is the fixed feedback read. -/
theorem interpolation_at_integer_offset (delay : DelayLine) (k : ℤ) :
    read_delay_cat delay (k : ℚ) =
      delay.buffer (Int.land (delay.write_pos - delay.size + k) delay.mask) ∧
    Int.land (delay.write_pos - delay.size + k) delay.mask =
      tap_index delay (delay.size - k) ∧
    read_delay_cat delay 0 = delay.buffer (fixed_index delay) := by
  have h : ∀ j : ℤ, read_delay_cat delay (j : ℚ) =
      delay.buffer (Int.land (delay.write_pos - delay.size + j) delay.mask) := by
    intro j
    have hf : floorf (j : ℚ) = j := by simp [floorf]
    rw [read_delay_cat_eq_poly, hf]
    simp only [cat_poly, sub_self, mul_zero, zero_add, zero_mul, cat_index]
    congr 2
    ring
  refine ⟨h k, ?_, ?_⟩
  · unfold tap_index
    congr 1
    ring
  · have := h 0
    simpa [fixed_index] using this

/-- C16. Interpolated read is smooth across integer offsets: the cubic of
`read_delay_cat` takes the value `x1` at `frac = 0` and `x2` at `frac = 1`;
for an integer `k` and `0 ≤ f < 1` the read at `k + f` is that cubic in the
four samples around `k`, its value at 1 is the read at `k + 1`, and the read at
`k + f` tends to the read at `k + 1` as `f` tends to 1 from below. -/
theorem interpolation_meets_next_offset (delay : DelayLine) (k : ℤ) (x0 x1 x2 x3 : ℚ) :
    cat_poly x0 x1 x2 x3 0 = x1 ∧ cat_poly x0 x1 x2 x3 1 = x2 ∧
    (∀ f : ℚ, 0 ≤ f → f < 1 →
      read_delay_cat delay (k + f) =
        cat_poly (delay.buffer (cat_index delay k 0)) (delay.buffer (cat_index delay k 1))
          (delay.buffer (cat_index delay k 2)) (delay.buffer (cat_index delay k 3)) f) ∧
    cat_poly (delay.buffer (cat_index delay k 0)) (delay.buffer (cat_index delay k 1))
        (delay.buffer (cat_index delay k 2)) (delay.buffer (cat_index delay k 3)) 1 =
      read_delay_cat delay ((k + 1 : ℤ) : ℚ) ∧
    Filter.Tendsto (fun f : ℚ => read_delay_cat delay (k + f)) (nhdsWithin 1 (Set.Ico 0 1))
      (nhds (read_delay_cat delay ((k + 1 : ℤ) : ℚ))) := by
  have hpoly : ∀ f : ℚ, 0 ≤ f → f < 1 →
      read_delay_cat delay (k + f) =
        cat_poly (delay.buffer (cat_index delay k 0)) (delay.buffer (cat_index delay k 1))
          (delay.buffer (cat_index delay k 2)) (delay.buffer (cat_index delay k 3)) f := by
    intro f h0 h1
    rw [read_delay_cat_eq_poly, floorf_int_add k f h0 h1]
    congr 1
    ring
  have hone : ∀ y0 y1 y2 y3 : ℚ, cat_poly y0 y1 y2 y3 1 = y2 := by
    intro y0 y1 y2 y3
    simp only [cat_poly]
    ring
  have hnext : read_delay_cat delay ((k + 1 : ℤ) : ℚ) = delay.buffer (cat_index delay k 2) := by
    have hf : floorf ((k + 1 : ℤ) : ℚ) = k + 1 := by simp [floorf]
    rw [read_delay_cat_eq_poly, hf]
    simp only [cat_poly, sub_self, mul_zero, zero_add, zero_mul, cat_index]
    congr 2
    ring
  refine ⟨by simp [cat_poly], hone _ _ _ _, hpoly, by rw [hone, hnext], ?_⟩
  have hcont : Continuous (fun f : ℚ =>
      cat_poly (delay.buffer (cat_index delay k 0)) (delay.buffer (cat_index delay k 1))
        (delay.buffer (cat_index delay k 2)) (delay.buffer (cat_index delay k 3)) f) := by
    unfold cat_poly
    fun_prop
  have hval : cat_poly (delay.buffer (cat_index delay k 0)) (delay.buffer (cat_index delay k 1))
      (delay.buffer (cat_index delay k 2)) (delay.buffer (cat_index delay k 3)) 1 =
      read_delay_cat delay ((k + 1 : ℤ) : ℚ) := by rw [hone, hnext]
  have hlim := (hcont.tendsto 1).mono_left
    (nhdsWithin_le_nhds : nhdsWithin (1 : ℚ) (Set.Ico 0 1) ≤ nhds 1)
  simp only [hval] at hlim
  refine hlim.congr' ?_
  filter_upwards [self_mem_nhdsWithin] with f hf
  exact (hpoly f hf.1 hf.2).symm

/-- C17. Modulation phase stays in [0, 1): if `exc_phase` is in [0, 1) and
`excursion_rate / sample_rate` is in [0, 1), the phase is again in [0, 1)
after any number of frames; a frame adds `ex` to the phase and subtracts 1
once when the sum has reached 1. -/
theorem phase_stays_in_unit_interval (m : Libm) (reverb : DattorroReverb) (buffer : ℤ → ℚ)
    (num_frames : ℤ)
    (hphase : 0 ≤ reverb.exc_phase ∧ reverb.exc_phase < 1)
    (hex : 0 ≤ dattorro_reverb_get_parameter reverb EXCURSION_RATE / reverb.sample_rate ∧
      dattorro_reverb_get_parameter reverb EXCURSION_RATE / reverb.sample_rate < 1) :
    (0 ≤ (dattorro_reverb_process m reverb buffer num_frames).1.exc_phase ∧
      (dattorro_reverb_process m reverb buffer num_frames).1.exc_phase < 1) ∧
    (frame_consts reverb).ex =
      dattorro_reverb_get_parameter reverb EXCURSION_RATE / reverb.sample_rate ∧
    ∀ (i : ℕ) (s : DattorroReverb × (ℤ → ℚ)),
      (process_frame m (frame_consts reverb) i s).1.exc_phase =
        if s.1.exc_phase + (frame_consts reverb).ex ≥ 1
        then s.1.exc_phase + (frame_consts reverb).ex - 1
        else s.1.exc_phase + (frame_consts reverb).ex := by
  have hc : (frame_consts reverb).ex =
      dattorro_reverb_get_parameter reverb EXCURSION_RATE / reverb.sample_rate := by
    simp [frame_consts, dattorro_reverb_get_parameter, EXCURSION_RATE, NUM_DATTORRO_PARAMS]
  refine ⟨?_, hc, fun i s => process_frame_exc_phase m _ i s⟩
  rw [← hc] at hex
  rw [process_eq_run_frames]
  generalize frame_consts reverb = c at hex
  induction num_frames.toNat with
  | zero => exact hphase
  | succ n ih =>
    rw [run_frames_succ, process_frame_exc_phase]
    split_ifs with h
    · constructor <;> linarith [ih.1, ih.2, hex.1, hex.2]
    · push_neg at h
      constructor <;> linarith [ih.1, ih.2, hex.1, hex.2]

theorem phase_stays_in_unit_interval_witness :
    0 ≤ (dattorro_reverb_process sample_libm used_engine (fun _ => 1) 7).1.exc_phase ∧
    (dattorro_reverb_process sample_libm used_engine (fun _ => 1) 7).1.exc_phase < 1 :=
  (phase_stays_in_unit_interval sample_libm used_engine (fun _ => 1) 7
    (by norm_num [used_engine])
    (by norm_num [used_engine, dattorro_reverb_get_parameter, EXCURSION_RATE,
      NUM_DATTORRO_PARAMS])).1

/-- C18, counterexample. For the input frame (1, 1) the value written into the
pre-delay buffer is 1, not the sum 2 of the two channels. -/
theorem mono_input_is_not_the_sum :
    (stage_input (frame_consts used_engine) used_engine 1 1).pre_delay_buffer
        used_engine.pre_delay_write_pos = 1 ∧
    (stage_input (frame_consts used_engine) used_engine 1 1).pre_delay_buffer
        used_engine.pre_delay_write_pos ≠ 1 + 1 := by
  rw [stage_input_pre_delay_buffer]
  norm_num [mono_input]

/-- C18, amended. In every frame the value written into the pre-delay buffer
at the write cursor is `(dry_left + dry_right) * 0.5`, half the sum of the two
input samples of that frame. -/
theorem mono_input_is_the_average (m : Libm) (c : FrameConsts) (i : ℕ) (reverb : DattorroReverb)
    (buffer : ℤ → ℚ) :
    (stage_input c reverb (buffer (i * 2)) (buffer (i * 2 + 1))).pre_delay_buffer
        reverb.pre_delay_write_pos = (buffer (i * 2) + buffer (i * 2 + 1)) * (1 / 2) ∧
    (process_frame m c i (reverb, buffer)).1.pre_delay_buffer reverb.pre_delay_write_pos =
      (buffer (i * 2) + buffer (i * 2 + 1)) * (1 / 2) := by
  rw [process_frame_pre_delay_buffer, stage_input_pre_delay_buffer]
  norm_num [mono_input]

/-! ## Where a frame writes -/

theorem OffCursor.same (r : DattorroReverb) : OffCursor r r :=
  ⟨SameLayout.refl r, fun _ _ _ => rfl⟩

theorem OffCursor.andThen {r s t : DattorroReverb} (h1 : OffCursor r s) (h2 : OffCursor s t) :
    OffCursor r t := by
  refine ⟨SameLayout.trans h1.1 h2.1, fun j idx hidx => ?_⟩
  have hw : (s.delays j).write_pos = (r.delays j).write_pos := (h1.1.2.2.2.2.2.2.2 j).2.1
  rw [h2.2 j idx (by rw [hw]; exact hidx), h1.2 j idx hidx]

theorem delay_write_offCursor (r : DattorroReverb) (k : ℕ) (v : ℚ) :
    OffCursor r (delay_write r k v) := by
  refine ⟨delay_write_layout r k v, fun j idx hidx => ?_⟩
  by_cases hj : j = k
  · subst hj
    simp [delay_write, Function.update_noteq hidx]
  · simp [delay_write, Function.update_noteq hj]

theorem stage_input_offCursor (c : FrameConsts) (r : DattorroReverb) (l rt : ℚ) :
    OffCursor r (stage_input c r l rt) :=
  ⟨stage_input_layout c r l rt, fun _ _ _ => rfl⟩

theorem lp2_offCursor (r : DattorroReverb) (v : ℚ) : OffCursor r { r with lp2 := v } :=
  ⟨lp2_layout r v, fun _ _ _ => rfl⟩

theorem lp3_offCursor (r : DattorroReverb) (v : ℚ) : OffCursor r { r with lp3 := v } :=
  ⟨lp3_layout r v, fun _ _ _ => rfl⟩

theorem stage_diffusion_offCursor (c : FrameConsts) (r : DattorroReverb) :
    OffCursor r (stage_diffusion c r).1 := by
  unfold stage_diffusion
  exact (((delay_write_offCursor _ _ _).andThen (delay_write_offCursor _ _ _)).andThen
    (delay_write_offCursor _ _ _)).andThen (delay_write_offCursor _ _ _)

theorem stage_left_offCursor (c : FrameConsts) (r : DattorroReverb) (split exc : ℚ) :
    OffCursor r (stage_left c r split exc) := by
  unfold stage_left
  exact ((((delay_write_offCursor _ _ _).andThen (delay_write_offCursor _ _ _)).andThen
    (lp2_offCursor _ _)).andThen (delay_write_offCursor _ _ _)).andThen (delay_write_offCursor _ _ _)

theorem stage_right_offCursor (c : FrameConsts) (r : DattorroReverb) (split exc2 : ℚ) :
    OffCursor r (stage_right c r split exc2) := by
  unfold stage_right
  exact ((((delay_write_offCursor _ _ _).andThen (delay_write_offCursor _ _ _)).andThen
    (lp3_offCursor _ _)).andThen (delay_write_offCursor _ _ _)).andThen (delay_write_offCursor _ _ _)

/-- Up to the cursor advance, a frame changes a delay-line buffer only in the
slot under the write cursor. -/
theorem frame_tank_offCursor (m : Libm) (c : FrameConsts) (i : ℕ)
    (s : DattorroReverb × (ℤ → ℚ)) : OffCursor s.1 (frame_tank m c i s) := by
  unfold frame_tank
  exact (((stage_input_offCursor _ _ _ _).andThen (stage_diffusion_offCursor _ _)).andThen
    (stage_left_offCursor _ _ _ _)).andThen (stage_right_offCursor _ _ _ _)

theorem stage_advance_buffer (c : FrameConsts) (r : DattorroReverb) (j : ℕ) :
    ((stage_advance c r).delays j).buffer = (r.delays j).buffer := by
  simp only [stage_advance, for_loop_advance]
  by_cases hj : j < 12 <;> split_ifs <;> simp [hj]

theorem process_frame_buffer (m : Libm) (c : FrameConsts) (i : ℕ)
    (s : DattorroReverb × (ℤ → ℚ)) (j : ℕ) :
    ((process_frame m c i s).1.delays j).buffer = ((frame_tank m c i s).delays j).buffer := by
  rw [process_frame_fst, stage_advance_buffer]

/-- A slot of a delay line keeps its sample over the frames `a, ..., a + d - 1`
of a call when the write cursor is elsewhere in each of them. -/
theorem buffer_persists (m : Libm) (c : FrameConsts) (r : DattorroReverb) (b : ℤ → ℚ)
    (j : ℕ) (idx : ℤ) (a : ℕ) :
    ∀ d : ℕ, (∀ t, a ≤ t → t < a + d → idx ≠ ((run_frames m c r b t).1.delays j).write_pos) →
      ((run_frames m c r b (a + d)).1.delays j).buffer idx =
        ((run_frames m c r b a).1.delays j).buffer idx := by
  intro d
  induction d with
  | zero => intro _; rfl
  | succ d ih =>
    intro h
    rw [← Nat.add_assoc, run_frames_succ, process_frame_buffer,
      (frame_tank_offCursor m c (a + d) _).2 j idx (h (a + d) (by omega) (by omega))]
    exact ih (fun t h1 h2 => h t h1 (by omega))

theorem process_frame_snd_other (m : Libm) (c : FrameConsts) (i : ℕ)
    (s : DattorroReverb × (ℤ → ℚ)) (idx : ℤ) (h1 : idx ≠ i * 2) (h2 : idx ≠ i * 2 + 1) :
    (process_frame m c i s).2 idx = s.2 idx := by
  rw [process_frame_snd, Function.update_noteq h2, Function.update_noteq h1]

/-- The frames `0, ..., n - 1` leave the buffer entries from `2 * n` on as they
were. -/
theorem run_frames_snd_later (m : Libm) (c : FrameConsts) (r : DattorroReverb) (b : ℤ → ℚ)
    (idx : ℤ) : ∀ n : ℕ, (n : ℤ) * 2 ≤ idx → (run_frames m c r b n).2 idx = b idx := by
  intro n
  induction n with
  | zero => intro _; rfl
  | succ n ih =>
    intro h
    push_cast at h
    rw [run_frames_succ, process_frame_snd_other m c n _ idx (by omega) (by omega)]
    exact ih (by omega)

/-- The frames from `n` on leave the buffer entries below `2 * n` as frame
`n - 1` left them. -/
theorem run_frames_snd_earlier (m : Libm) (c : FrameConsts) (r : DattorroReverb) (b : ℤ → ℚ)
    (idx : ℤ) (n : ℕ) (h : idx < (n : ℤ) * 2) :
    ∀ d : ℕ, (run_frames m c r b (n + d)).2 idx = (run_frames m c r b n).2 idx := by
  intro d
  induction d with
  | zero => rfl
  | succ d ih =>
    rw [← Nat.add_assoc, run_frames_succ,
      process_frame_snd_other m c (n + d) _ idx (by push_cast; omega) (by push_cast; omega)]
    exact ih

/-- The layout after `n` frames: sizes and masks stay, parameters stay. -/
theorem run_frames_layout (m : Libm) (c : FrameConsts) (r : DattorroReverb) (b : ℤ → ℚ) (n : ℕ) :
    (run_frames m c r b n).1.sample_rate = r.sample_rate ∧
    (run_frames m c r b n).1.params = r.params ∧
    (run_frames m c r b n).1.taps = r.taps ∧
    (run_frames m c r b n).1.pre_delay_length = r.pre_delay_length ∧
    ∀ j, ((run_frames m c r b n).1.delays j).size = (r.delays j).size ∧
      ((run_frames m c r b n).1.delays j).mask = (r.delays j).mask := by
  induction n with
  | zero => exact ⟨rfl, rfl, rfl, rfl, fun _ => ⟨rfl, rfl⟩⟩
  | succ n ih =>
    obtain ⟨a1, a2, a3, a4, -, a6⟩ := process_frame_layout m c n (run_frames m c r b n)
    obtain ⟨b1, b2, b3, b4, b5⟩ := ih
    rw [run_frames_succ]
    exact ⟨a1.trans b1, a2.trans b2, a3.trans b3, a4.trans b4,
      fun j => ⟨(a6 j).1.trans (b5 j).1, (a6 j).2.1.trans (b5 j).2⟩⟩

/-- The write cursor of a line after `n` frames, for a power-of-two capacity. -/
theorem run_frames_write_pos (m : Libm) (c : FrameConsts) (r : DattorroReverb) (b : ℤ → ℚ)
    (j : ℕ) (hj : j < 12) (e : ℕ) (he : (r.delays j).mask = 2 ^ e - 1)
    (h0 : 0 ≤ (r.delays j).write_pos) (h1 : (r.delays j).write_pos ≤ (r.delays j).mask) (n : ℕ) :
    ((run_frames m c r b n).1.delays j).write_pos = ((r.delays j).write_pos + n) % 2 ^ e := by
  induction n with
  | zero =>
    have hlt : (r.delays j).write_pos < 2 ^ e := by omega
    simp [run_frames_zero, Int.emod_eq_of_lt h0 hlt]
  | succ n ih =>
    obtain ⟨-, -, -, -, -, a6⟩ := process_frame_layout m c n (run_frames m c r b n)
    rw [run_frames_succ, (a6 j).2.2, ih, ((run_frames_layout m c r b n).2.2.2.2 j).2, he]
    simp only [hj, if_true]
    rw [land_two_pow_sub_one, Int.emod_add_emod]
    push_cast
    ring_nf

/-! ## Circular delay semantics -/

theorem emod_add_ne (a d n : ℤ) (h0 : 0 < d) (h1 : d < n) : (a + d) % n ≠ a % n := by
  intro h
  have h2 : (a + d - a) % n = 0 := Int.emod_eq_emod_iff_emod_sub_eq_zero.mp h
  rw [add_sub_cancel_left, Int.emod_eq_of_lt h0.le h1] at h2
  omega

theorem next_power_of_two_eq (n : ℤ) (k : ℕ) (h1 : 2 ^ k < n) (h2 : n ≤ 2 ^ (k + 1)) :
    next_power_of_two n = 2 ^ (k + 1) := by
  obtain ⟨b, hb, hn⟩ := next_power_of_two_spec n
  have hle := next_power_of_two_le n (k + 1) h2
  rw [hb] at hle ⊢
  have hkb : k < b := by
    by_contra hge
    have : (2 : ℤ) ^ b ≤ 2 ^ k := pow_le_pow_right₀ (by norm_num) (not_lt.mp hge)
    linarith
  have hbk : b ≤ k + 1 := by
    by_contra hgt
    have : (2 : ℤ) ^ (k + 1 + 1) ≤ 2 ^ b := pow_le_pow_right₀ (by norm_num) (by omega)
    have h3 : (2 : ℤ) ^ (k + 1) < 2 ^ (k + 1 + 1) := by
      rw [pow_succ (2 : ℤ) (k + 1)]
      have : (0 : ℤ) < 2 ^ (k + 1) := by positivity
      linarith
    linarith
  have : b = k + 1 := by omega
  rw [this]

theorem wellFormed_mask_pow (r : DattorroReverb) (h : WellFormed r) (j : ℕ) (hj : j < 12) :
    ∃ e : ℕ, (r.delays j).mask = 2 ^ e - 1 := by
  obtain ⟨-, c2, -, -⟩ := h.2.2.2 j hj
  obtain ⟨e, he, -⟩ := next_power_of_two_spec ((r.delays j).size + 1)
  exact ⟨e, by rw [← he, ← c2]; ring⟩

theorem tap_index_layout {r s : DattorroReverb} (h : SameLayout r s) (j : ℕ) (k : ℤ) :
    tap_index (s.delays j) k = tap_index (r.delays j) k := by
  obtain ⟨-, b2, b3⟩ := h.2.2.2.2.2.2.2 j
  simp only [tap_index, b2, b3]

/-- The slot an integer read at offset `k` uses after `n` frames. -/
theorem run_frames_tap_index (m : Libm) (c : FrameConsts) (r : DattorroReverb) (b : ℤ → ℚ)
    (j : ℕ) (hj : j < 12) (e : ℕ) (he : (r.delays j).mask = 2 ^ e - 1)
    (h0 : 0 ≤ (r.delays j).write_pos) (h1 : (r.delays j).write_pos ≤ (r.delays j).mask)
    (n : ℕ) (k : ℤ) :
    tap_index ((run_frames m c r b n).1.delays j) k =
      ((r.delays j).write_pos + n - k) % 2 ^ e := by
  rw [tap_index, run_frames_write_pos m c r b j hj e he h0 h1 n,
    ((run_frames_layout m c r b n).2.2.2.2 j).2, he, land_two_pow_sub_one, sub_eq_add_neg,
    Int.emod_add_emod, ← sub_eq_add_neg]

/-- C14. Circular delay semantics: in an engine reachable from a successful
init, for each of the 12 lines and `1 ≤ k ≤ mask`, the integer read at offset
`k` (index `(write_pos - k) & mask`) in frame `t + k` returns the sample frame
`t` wrote at the cursor, before as well as after the write of frame `t + k`;
so a tap read with `taps[tp] = k` and the fixed read with `size = k` return the
sample written `k` frames earlier; and when the line starts empty with the
cursor at 0, the read returns 0 in every frame `n < k`. -/
theorem circular_delay (m : Libm) (c : FrameConsts) (r : DattorroReverb) (b : ℤ → ℚ)
    (h : Reachable m r) (j : ℕ) (hj : j < 12) (t k : ℕ) (hk1 : 1 ≤ k)
    (hk2 : (k : ℤ) ≤ (r.delays j).mask) :
    ((run_frames m c r b (t + k)).1.delays j).buffer
        (tap_index ((run_frames m c r b (t + k)).1.delays j) k) =
      written_sample m c r b j t ∧
    ((frame_tank m c (t + k) (run_frames m c r b (t + k))).delays j).buffer
        (tap_index ((frame_tank m c (t + k) (run_frames m c r b (t + k))).delays j) k) =
      written_sample m c r b j t ∧
    (∀ tp, r.taps tp = k →
      tap_read (frame_tank m c (t + k) (run_frames m c r b (t + k))) j tp =
        written_sample m c r b j t) ∧
    ((r.delays j).size = k →
      fixed_read (run_frames m c r b (t + k)).1 j = written_sample m c r b j t) ∧
    (((r.delays j).write_pos = 0 ∧ ∀ idx, (r.delays j).buffer idx = 0) →
      ∀ n, n < k →
        ((run_frames m c r b n).1.delays j).buffer
          (tap_index ((run_frames m c r b n).1.delays j) k) = 0 ∧
        ((frame_tank m c n (run_frames m c r b n)).delays j).buffer
          (tap_index ((frame_tank m c n (run_frames m c r b n)).delays j) k) = 0) := by
  have hw := reachable_wellFormed m r h
  obtain ⟨e, he⟩ := wellFormed_mask_pow r hw j hj
  obtain ⟨-, -, h0, h1⟩ := hw.2.2.2 j hj
  have hcap : (k : ℤ) < 2 ^ e := by omega
  have hwp := run_frames_write_pos m c r b j hj e he h0 h1
  have hidx := run_frames_tap_index m c r b j hj e he h0 h1
  -- the slot read in frame `t + k` is the slot frame `t` wrote
  have hslot : tap_index ((run_frames m c r b (t + k)).1.delays j) k =
      ((run_frames m c r b t).1.delays j).write_pos := by
    rw [hidx, hwp]
    push_cast
    congr 1
    ring
  -- the cursor of a later frame is elsewhere
  have hne : ∀ d : ℕ, 1 ≤ d → d ≤ k →
      ((run_frames m c r b t).1.delays j).write_pos ≠
        ((run_frames m c r b (t + d)).1.delays j).write_pos := by
    intro d hd1 hd2
    rw [hwp, hwp]
    push_cast
    rw [← add_assoc]
    exact (emod_add_ne _ (d : ℤ) _ (by exact_mod_cast hd1) (by omega)).symm
  have hbefore : ((run_frames m c r b (t + k)).1.delays j).buffer
      ((run_frames m c r b t).1.delays j).write_pos = written_sample m c r b j t := by
    have hp := buffer_persists m c r b j ((run_frames m c r b t).1.delays j).write_pos (t + 1)
      (k - 1) (fun t' ht1 ht2 => by
        have := hne (t' - t) (by omega) (by omega)
        rwa [show t + (t' - t) = t' by omega] at this)
    rw [show t + 1 + (k - 1) = t + k by omega] at hp
    rw [hp, run_frames_succ, process_frame_buffer]
    rfl
  have hafter : ((frame_tank m c (t + k) (run_frames m c r b (t + k))).delays j).buffer
      ((run_frames m c r b t).1.delays j).write_pos = written_sample m c r b j t := by
    rw [(frame_tank_offCursor m c (t + k) _).2 j _ (hne k hk1 (le_refl k))]
    exact hbefore
  have hlay := frame_tank_layout m c (t + k) (run_frames m c r b (t + k))
  refine ⟨by rw [hslot]; exact hbefore, by rw [tap_index_layout hlay, hslot]; exact hafter,
    fun tp htp => ?_, fun hsz => ?_, fun hfresh n hn => ?_⟩
  · have htaps : (frame_tank m c (t + k) (run_frames m c r b (t + k))).taps tp = k := by
      rw [hlay.2.2.1, (run_frames_layout m c r b (t + k)).2.2.1, htp]
    rw [tap_read, htaps, tap_index_layout hlay, hslot]
    exact hafter
  · have hsize : ((run_frames m c r b (t + k)).1.delays j).size = k := by
      rw [((run_frames_layout m c r b (t + k)).2.2.2.2 j).1, hsz]
    have hfix : fixed_index ((run_frames m c r b (t + k)).1.delays j) =
        tap_index ((run_frames m c r b (t + k)).1.delays j) k := by
      rw [fixed_index, tap_index, hsize]
    rw [fixed_read, hfix, hslot]
    exact hbefore
  · obtain ⟨hz, hbuf⟩ := hfresh
    -- in frame `n < k` the slot read has not been written since the start
    have hfar : ∀ t' : ℕ, t' ≤ n →
        tap_index ((run_frames m c r b n).1.delays j) k ≠
          ((run_frames m c r b t').1.delays j).write_pos := by
      intro t' ht'
      rw [hidx, hwp, hz]
      have hd : (0 : ℤ) + t' = (0 + (n : ℤ) - k) + ((t' : ℤ) + k - n) := by ring
      rw [hd]
      exact (emod_add_ne _ ((t' : ℤ) + k - n) _ (by omega) (by omega)).symm
    have hp := buffer_persists m c r b j (tap_index ((run_frames m c r b n).1.delays j) k) 0 n
      (fun t' _ ht2 => by
        have := hfar t' (by omega)
        exact this)
    rw [Nat.zero_add, run_frames_zero] at hp
    have hS : ((run_frames m c r b n).1.delays j).buffer
        (tap_index ((run_frames m c r b n).1.delays j) k) = 0 := by
      rw [hp]; exact hbuf _
    refine ⟨hS, ?_⟩
    rw [tap_index_layout (frame_tank_layout m c n (run_frames m c r b n)),
      (frame_tank_offCursor m c n _).2 j _ (hfar n (le_refl n))]
    exact hS

theorem fresh_44100_reachable (m : Libm) : Reachable m fresh_44100 :=
  Reachable.init used_engine 44100
    ((init_true_iff used_engine 44100).mpr (by norm_num [DATTORRO_MAX_SR]))

theorem fresh_44100_delays (j : ℕ) (hj : j < 12) :
    fresh_44100.delays j = fresh_delay (delay_lengths j) 44100 := by
  rw [fresh_44100, init_delays used_engine 44100 (by norm_num [DATTORRO_MAX_SR]) j]
  simp [hj]

theorem fresh_44100_line5 :
    (fresh_44100.delays 5).size = 6597 ∧ (fresh_44100.delays 5).mask = 8191 ∧
    (fresh_44100.delays 5).write_pos = 0 ∧ ∀ idx, (fresh_44100.delays 5).buffer idx = 0 := by
  have hr : roundf (delay_lengths 5 * 44100) = 6598 := by norm_num [roundf, delay_lengths]
  have hp : next_power_of_two 6598 = 2 ^ (12 + 1) :=
    next_power_of_two_eq 6598 12 (by norm_num) (by norm_num)
  rw [fresh_44100_delays 5 (by decide)]
  simp only [fresh_delay, hr, hp]
  norm_num

theorem circular_delay_witness :
    ((run_frames sample_libm (frame_consts fresh_44100) fresh_44100 (fun _ => 1) (2 + 3)).1.delays
        5).buffer
        (tap_index ((run_frames sample_libm (frame_consts fresh_44100) fresh_44100 (fun _ => 1)
          (2 + 3)).1.delays 5) (3 : ℕ)) =
      written_sample sample_libm (frame_consts fresh_44100) fresh_44100 (fun _ => 1) 5 2 := by
  have hk : ((3 : ℕ) : ℤ) ≤ (fresh_44100.delays 5).mask := by
    rw [fresh_44100_line5.2.1]; norm_num
  exact (circular_delay sample_libm (frame_consts fresh_44100) fresh_44100 (fun _ => 1)
    (fresh_44100_reachable sample_libm) 5 (by decide) 2 3 (by decide) hk).1

/-! ## Read-before-write ordering -/

theorem land_sub_ne (wp d mask : ℤ) (e : ℕ) (he : mask = 2 ^ e - 1) (h0 : 0 ≤ wp)
    (h1 : wp ≤ mask) (hd0 : 0 < d) (hd1 : d < 2 ^ e) : Int.land (wp - d) mask ≠ wp := by
  rw [he, land_two_pow_sub_one]
  intro h
  have hwp : wp % 2 ^ e = wp := Int.emod_eq_of_lt h0 (by omega)
  have := emod_add_ne (wp - d) d (2 ^ e) hd0 hd1
  rw [sub_add_cancel, hwp] at this
  exact this h.symm

theorem fixed_read_after_write (s : DattorroReverb) (j : ℕ) (v : ℚ)
    (h : fixed_index (s.delays j) ≠ (s.delays j).write_pos) :
    fixed_read (delay_write s j v) j = fixed_read s j := by
  simp [fixed_read, delay_write, fixed_index] at h ⊢
  rw [Function.update_noteq h]

theorem read_delay_cat_after_write (s : DattorroReverb) (j : ℕ) (v x : ℚ)
    (h : ∀ k : ℤ, 0 ≤ k → k ≤ 3 →
      cat_index (s.delays j) (floorf x) k ≠ (s.delays j).write_pos) :
    read_delay_cat ((delay_write s j v).delays j) x = read_delay_cat (s.delays j) x := by
  have h0 := h 0 (by norm_num) (by norm_num)
  have h1 := h 1 (by norm_num) (by norm_num)
  have h2 := h 2 (by norm_num) (by norm_num)
  have h3 := h 3 (by norm_num) (by norm_num)
  simp only [read_delay_cat_eq_poly]
  simp only [delay_write, Function.update_same, cat_index] at h0 h1 h2 h3 ⊢
  rw [Function.update_noteq h0, Function.update_noteq h1, Function.update_noteq h2,
    Function.update_noteq h3]

theorem floorf_excursion_bounds (depth u : ℚ) (hd0 : 0 ≤ depth) (hd1 : depth ≤ 1)
    (hu0 : -1 ≤ u) (hu1 : u ≤ 1) :
    0 ≤ floorf (depth * 44100 / 1000 * (1 + u)) ∧ floorf (depth * 44100 / 1000 * (1 + u)) ≤ 88 := by
  have h1 : 0 ≤ depth * 44100 / 1000 * (1 + u) :=
    mul_nonneg (by positivity) (by linarith)
  have h2 : depth * 44100 / 1000 * (1 + u) < 89 := by
    have : depth * 44100 / 1000 * (1 + u) ≤ 441 / 10 * 2 :=
      mul_le_mul (by linarith) (by linarith) (by linarith) (by norm_num)
    linarith
  unfold floorf
  constructor
  · exact Int.floor_nonneg.mpr h1
  · have : ⌊depth * 44100 / 1000 * (1 + u)⌋ < 89 := by
      rw [Int.floor_lt]; exact_mod_cast h2
    omega

theorem wellFormed_size_pos_44100 (r : DattorroReverb) (h : WellFormed r)
    (hsr : r.sample_rate = 44100) (j : ℕ) (hj : j < 12) : 1 ≤ (r.delays j).size := by
  obtain ⟨c1, -, -, -⟩ := h.2.2.2 j hj
  have hl := (delay_lengths_bounds j hj).1
  have h2 : 2 ≤ roundf (delay_lengths j * r.sample_rate) := by
    rw [two_le_roundf_iff, hsr]
    linarith
  omega

theorem wellFormed_line4_44100 (r : DattorroReverb) (h : WellFormed r)
    (hsr : r.sample_rate = 44100) :
    (r.delays 4).size = 995 ∧ (r.delays 4).mask = 2 ^ 10 - 1 := by
  obtain ⟨c1, c2, -, -⟩ := h.2.2.2 4 (by decide)
  have hr : roundf (delay_lengths 4 * 44100) = 996 := by norm_num [roundf, delay_lengths]
  have hp : next_power_of_two 996 = 2 ^ (9 + 1) :=
    next_power_of_two_eq 996 9 (by norm_num) (by norm_num)
  rw [hsr, hr] at c1
  rw [c1, hp] at c2
  constructor <;> omega

theorem wellFormed_line8_44100 (r : DattorroReverb) (h : WellFormed r)
    (hsr : r.sample_rate = 44100) :
    (r.delays 8).size = 1344 ∧ (r.delays 8).mask = 2 ^ 11 - 1 := by
  obtain ⟨c1, c2, -, -⟩ := h.2.2.2 8 (by decide)
  have hr : roundf (delay_lengths 8 * 44100) = 1345 := by norm_num [roundf, delay_lengths]
  have hp : next_power_of_two 1345 = 2 ^ (10 + 1) :=
    next_power_of_two_eq 1345 10 (by norm_num) (by norm_num)
  rw [hsr, hr] at c1
  rw [c1, hp] at c2
  constructor <;> omega

/-- C13. Read-before-write ordering: take an engine `r` reachable from an init
at 44100 Hz with excursion_depth in [0, 1], library functions with values in
[-1, 1], and any engine `s` of the same layout (the states a frame passes
through).  For every line the slot of the fixed read differs from the slot at
`write_pos`, so the fixed read is the same after the line has been written;
for lines 4 and 8 the four slots of the interpolated read at
`ed * (1 + cosf x)` and `ed * (1 + sinf x)`, any `x`, differ from the slot at
`write_pos`, so the interpolated read after the write returns the value of the
one before it. -/
theorem read_before_write_ordering (m : Libm) (r s : DattorroReverb) (h : Reachable m r)
    (hs : SameLayout r s) (hsr : r.sample_rate = 44100)
    (hdepth : 0 ≤ dattorro_reverb_get_parameter r EXCURSION_DEPTH ∧
      dattorro_reverb_get_parameter r EXCURSION_DEPTH ≤ 1)
    (hcos : ∀ x, -1 ≤ m.cosf x ∧ m.cosf x ≤ 1) (hsin : ∀ x, -1 ≤ m.sinf x ∧ m.sinf x ≤ 1)
    (x v : ℚ) :
    (∀ j, j < 12 →
      fixed_index (s.delays j) ≠ (s.delays j).write_pos ∧
      fixed_read (delay_write s j v) j = fixed_read s j) ∧
    (∀ k : ℤ, 0 ≤ k → k ≤ 3 →
      cat_index (s.delays 4) (floorf ((frame_consts r).ed * (1 + m.cosf x))) k ≠
        (s.delays 4).write_pos) ∧
    (∀ k : ℤ, 0 ≤ k → k ≤ 3 →
      cat_index (s.delays 8) (floorf ((frame_consts r).ed * (1 + m.sinf x))) k ≠
        (s.delays 8).write_pos) ∧
    read_delay_cat ((delay_write s 4 v).delays 4) ((frame_consts r).ed * (1 + m.cosf x)) =
      read_delay_cat (s.delays 4) ((frame_consts r).ed * (1 + m.cosf x)) ∧
    read_delay_cat ((delay_write s 8 v).delays 8) ((frame_consts r).ed * (1 + m.sinf x)) =
      read_delay_cat (s.delays 8) ((frame_consts r).ed * (1 + m.sinf x)) := by
  have hw := reachable_wellFormed m r h
  have hlay := hs.2.2.2.2.2.2.2
  have hed : (frame_consts r).ed =
      dattorro_reverb_get_parameter r EXCURSION_DEPTH * 44100 / 1000 := by
    simp [frame_consts, dattorro_reverb_get_parameter, EXCURSION_DEPTH, NUM_DATTORRO_PARAMS, hsr]
  have hfixed : ∀ j, j < 12 → fixed_index (s.delays j) ≠ (s.delays j).write_pos := by
    intro j hj
    obtain ⟨e, he⟩ := wellFormed_mask_pow r hw j hj
    obtain ⟨-, c2, c3, c4⟩ := hw.2.2.2 j hj
    obtain ⟨b1, b2, b3⟩ := hlay j
    have hpos := wellFormed_size_pos_44100 r hw hsr j hj
    have hge := next_power_of_two_ge ((r.delays j).size + 1)
    rw [fixed_index, b1, b2, b3]
    exact land_sub_ne _ _ _ e he c3 c4 (by omega) (by omega)
  have hcat4 : ∀ k : ℤ, 0 ≤ k → k ≤ 3 →
      cat_index (s.delays 4) (floorf ((frame_consts r).ed * (1 + m.cosf x))) k ≠
        (s.delays 4).write_pos := by
    intro k hk0 hk3
    obtain ⟨hsz, hmask⟩ := wellFormed_line4_44100 r hw hsr
    obtain ⟨-, -, c3, c4⟩ := hw.2.2.2 4 (by decide)
    obtain ⟨b1, b2, b3⟩ := hlay 4
    obtain ⟨f0, f1⟩ := floorf_excursion_bounds _ (m.cosf x) hdepth.1 hdepth.2 (hcos x).1 (hcos x).2
    rw [hed, cat_index, b1, b2, b3, hsz]
    have hrw : ∀ i : ℤ, (r.delays 4).write_pos - 995 + i - 1 + k =
        (r.delays 4).write_pos - (995 - i + 1 - k) := fun i => by ring
    rw [hrw]
    exact land_sub_ne _ _ _ 10 hmask c3 c4 (by omega) (by norm_num; omega)
  have hcat8 : ∀ k : ℤ, 0 ≤ k → k ≤ 3 →
      cat_index (s.delays 8) (floorf ((frame_consts r).ed * (1 + m.sinf x))) k ≠
        (s.delays 8).write_pos := by
    intro k hk0 hk3
    obtain ⟨hsz, hmask⟩ := wellFormed_line8_44100 r hw hsr
    obtain ⟨-, -, c3, c4⟩ := hw.2.2.2 8 (by decide)
    obtain ⟨b1, b2, b3⟩ := hlay 8
    obtain ⟨f0, f1⟩ := floorf_excursion_bounds _ (m.sinf x) hdepth.1 hdepth.2 (hsin x).1 (hsin x).2
    rw [hed, cat_index, b1, b2, b3, hsz]
    have hrw : ∀ i : ℤ, (r.delays 8).write_pos - 1344 + i - 1 + k =
        (r.delays 8).write_pos - (1344 - i + 1 - k) := fun i => by ring
    rw [hrw]
    exact land_sub_ne _ _ _ 11 hmask c3 c4 (by omega) (by norm_num; omega)
  exact ⟨fun j hj => ⟨hfixed j hj, fixed_read_after_write s j v (hfixed j hj)⟩, hcat4, hcat8,
    read_delay_cat_after_write s 4 v _ hcat4, read_delay_cat_after_write s 8 v _ hcat8⟩

theorem read_before_write_ordering_witness :
    fixed_index (fresh_44100.delays 5) ≠ (fresh_44100.delays 5).write_pos ∧
    read_delay_cat ((delay_write fresh_44100 4 1).delays 4)
        ((frame_consts fresh_44100).ed * (1 + clipped_libm.cosf 0)) =
      read_delay_cat (fresh_44100.delays 4)
        ((frame_consts fresh_44100).ed * (1 + clipped_libm.cosf 0)) := by
  have h44 : (44100 : ℚ) ≤ DATTORRO_MAX_SR := by norm_num [DATTORRO_MAX_SR]
  have hsr : fresh_44100.sample_rate = 44100 := (init_scalars used_engine 44100 h44).1
  have hp : fresh_44100.params = default_params := init_params used_engine 44100 h44
  have hdepth : 0 ≤ dattorro_reverb_get_parameter fresh_44100 EXCURSION_DEPTH ∧
      dattorro_reverb_get_parameter fresh_44100 EXCURSION_DEPTH ≤ 1 := by
    simp only [dattorro_reverb_get_parameter, hp, default_params, EXCURSION_DEPTH,
      NUM_DATTORRO_PARAMS]
    norm_num
  have hcos : ∀ x, -1 ≤ clipped_libm.cosf x ∧ clipped_libm.cosf x ≤ 1 := fun x =>
    ⟨le_max_left _ _, max_le (by norm_num) (min_le_left _ _)⟩
  have hsin : ∀ x, -1 ≤ clipped_libm.sinf x ∧ clipped_libm.sinf x ≤ 1 := fun x =>
    ⟨le_max_left _ _, max_le (by norm_num) (min_le_left _ _)⟩
  have h := read_before_write_ordering clipped_libm fresh_44100 fresh_44100
    (fresh_44100_reachable clipped_libm) (SameLayout.refl fresh_44100) hsr hdepth hcos hsin 0 1
  exact ⟨(h.1 5 (by decide)).1, h.2.2.2.1⟩

/-! ## The pre-delay line -/

theorem apply_settings_cursors (settings : List (ℤ × ℚ)) (r : DattorroReverb) :
    (apply_settings settings r).sample_rate = r.sample_rate ∧
    (apply_settings settings r).pre_delay_length = r.pre_delay_length ∧
    (apply_settings settings r).pre_delay_write_pos = r.pre_delay_write_pos := by
  unfold apply_settings
  induction settings generalizing r with
  | nil => exact ⟨rfl, rfl, rfl⟩
  | cons pv rest ih =>
    simp only [List.foldl_cons]
    obtain ⟨a1, a2, a3⟩ := ih (dattorro_reverb_set_parameter r pv.1 pv.2)
    obtain ⟨b1, b2, b3⟩ := set_parameter_cursors r pv.1 pv.2
    exact ⟨a1.trans b1, a2.trans b2, a3.trans b3⟩

/-- The pre-delay write cursor after `n` frames, started at 0. -/
theorem run_frames_pre_delay_write_pos (m : Libm) (c : FrameConsts) (r : DattorroReverb)
    (b : ℤ → ℚ) (hL : 1 ≤ r.pre_delay_length) (hwp : r.pre_delay_write_pos = 0) (n : ℕ) :
    (run_frames m c r b n).1.pre_delay_write_pos = (n : ℤ) % r.pre_delay_length := by
  induction n with
  | zero => simp [run_frames_zero, hwp]
  | succ n ih =>
    obtain ⟨-, -, -, a4, a5, -⟩ := process_frame_layout m c n (run_frames m c r b n)
    have hlen := (run_frames_layout m c r b n).2.2.2.1
    rw [run_frames_succ, a5, ih, hlen,
      Int.tmod_eq_emod (by have := Int.emod_nonneg (n : ℤ) (by omega : r.pre_delay_length ≠ 0)
                           omega) (by omega),
      Int.emod_add_emod]
    push_cast
    rfl

/-- The pre-delay buffer after frame `n`: one more write, of the mono input of
frame `n`, at the cursor. -/
theorem run_frames_pre_delay_buffer (m : Libm) (c : FrameConsts) (r : DattorroReverb)
    (b : ℤ → ℚ) (hL : 1 ≤ r.pre_delay_length) (hwp : r.pre_delay_write_pos = 0) (n : ℕ) :
    (run_frames m c r b (n + 1)).1.pre_delay_buffer =
      Function.update (run_frames m c r b n).1.pre_delay_buffer ((n : ℤ) % r.pre_delay_length)
        (mono_input (b ((n : ℤ) * 2)) (b ((n : ℤ) * 2 + 1))) := by
  rw [run_frames_succ, process_frame_pre_delay_buffer,
    run_frames_pre_delay_write_pos m c r b hL hwp n,
    run_frames_snd_later m c r b _ n (le_refl _),
    run_frames_snd_later m c r b _ n (by omega)]

/-- The pre-delay buffer after `n` frames, read `e` slots behind the slot
written last. -/
theorem run_frames_pre_delay_history (m : Libm) (c : FrameConsts) (r : DattorroReverb)
    (b : ℤ → ℚ) (hL : 1 ≤ r.pre_delay_length) (hwp : r.pre_delay_write_pos = 0)
    (hbuf : ∀ k, r.pre_delay_buffer k = 0) :
    ∀ (n : ℕ) (e : ℤ), 0 ≤ e → e < r.pre_delay_length →
      (run_frames m c r b n).1.pre_delay_buffer (((n : ℤ) - 1 - e) % r.pre_delay_length) =
        if e + 1 ≤ (n : ℤ) then
          mono_input (b (((n : ℤ) - 1 - e) * 2)) (b (((n : ℤ) - 1 - e) * 2 + 1))
        else 0 := by
  intro n
  induction n with
  | zero =>
    intro e he0 _
    have : ¬ (e + 1 ≤ ((0 : ℕ) : ℤ)) := by push_cast; omega
    rw [if_neg this, run_frames_zero]
    exact hbuf _
  | succ n ih =>
    intro e he0 heL
    rw [run_frames_pre_delay_buffer m c r b hL hwp n, Function.update_apply]
    have hidx : ((n + 1 : ℕ) : ℤ) - 1 - e = (n : ℤ) - e := by push_cast; ring
    rw [hidx]
    rcases eq_or_lt_of_le he0 with h0 | hpos
    · subst h0
      have hc : (0 : ℤ) + 1 ≤ ((n + 1 : ℕ) : ℤ) := by push_cast; omega
      rw [if_pos hc]
      simp only [sub_zero, if_true]
    · have hne : ((n : ℤ) - e) % r.pre_delay_length ≠ (n : ℤ) % r.pre_delay_length := by
        have := emod_add_ne ((n : ℤ) - e) e r.pre_delay_length hpos heL
        rw [sub_add_cancel] at this
        exact this.symm
      rw [if_neg hne]
      have h := ih (e - 1) (by omega) (by omega)
      have hidx2 : (n : ℤ) - 1 - (e - 1) = (n : ℤ) - e := by ring
      rw [hidx2] at h
      rw [h]
      have hiff : (e - 1 + 1 ≤ (n : ℤ)) ↔ (e + 1 ≤ ((n + 1 : ℕ) : ℤ)) := by
        push_cast; omega
      by_cases hc : e - 1 + 1 ≤ (n : ℤ)
      · rw [if_pos hc, if_pos (hiff.mp hc)]
      · rw [if_neg hc, if_neg (fun h' => hc (hiff.mpr h'))]

/-- C15. Pre-delay is an exact integer delay: on a freshly initialised engine
(any parameter settings afterwards) with `pre_delay_length ≥ 1` and the integer
part `pd` of PRE_DELAY in `[0, pre_delay_length - 1]`, the pre-delay output of
frame `n` is the mono input `(l + r) * 0.5` of frame `n - pd` when `n ≥ pd`
and 0 when `n < pd`; for `pd = 0` it is the value written in the same frame. -/
theorem pre_delay_exact_delay (m : Libm) (reverb : DattorroReverb) (sample_rate : ℚ)
    (settings : List (ℤ × ℚ)) (buffer : ℤ → ℚ) (n : ℕ)
    (hinit : (dattorro_reverb_init reverb sample_rate).1 = true)
    (hsr : 1 ≤ sample_rate)
    (hpd0 : 0 ≤ (frame_consts
      (apply_settings settings (dattorro_reverb_init reverb sample_rate).2)).pd)
    (hpd1 : (frame_consts
      (apply_settings settings (dattorro_reverb_init reverb sample_rate).2)).pd ≤
      (apply_settings settings (dattorro_reverb_init reverb sample_rate).2).pre_delay_length - 1) :
    pre_delay_out
        (frame_consts (apply_settings settings (dattorro_reverb_init reverb sample_rate).2))
        (run_frames m
          (frame_consts (apply_settings settings (dattorro_reverb_init reverb sample_rate).2))
          (apply_settings settings (dattorro_reverb_init reverb sample_rate).2) buffer n).1
        ((run_frames m
          (frame_consts (apply_settings settings (dattorro_reverb_init reverb sample_rate).2))
          (apply_settings settings (dattorro_reverb_init reverb sample_rate).2) buffer n).2
          (n * 2))
        ((run_frames m
          (frame_consts (apply_settings settings (dattorro_reverb_init reverb sample_rate).2))
          (apply_settings settings (dattorro_reverb_init reverb sample_rate).2) buffer n).2
          (n * 2 + 1)) =
      if (frame_consts
          (apply_settings settings (dattorro_reverb_init reverb sample_rate).2)).pd ≤ (n : ℤ)
      then
        mono_input
          (buffer (((n : ℤ) - (frame_consts
            (apply_settings settings (dattorro_reverb_init reverb sample_rate).2)).pd) * 2))
          (buffer (((n : ℤ) - (frame_consts
            (apply_settings settings (dattorro_reverb_init reverb sample_rate).2)).pd) * 2 + 1))
      else 0 := by
  have hmax := (init_true_iff reverb sample_rate).mp hinit
  obtain ⟨i1, i2, i3, i4, -⟩ := init_scalars reverb sample_rate hmax
  obtain ⟨s1, s2, s3⟩ := apply_settings_cursors settings (dattorro_reverb_init reverb sample_rate).2
  have hsil := apply_settings_silent settings _ (init_silent reverb sample_rate hmax)
  generalize apply_settings settings (dattorro_reverb_init reverb sample_rate).2 = r
    at hpd0 hpd1 s1 s2 s3 hsil ⊢
  have hL : 1 ≤ r.pre_delay_length := by
    rw [s2, i2]
    exact (to_int_bounds sample_rate hsr hmax).1
  have hwp : r.pre_delay_write_pos = 0 := by rw [s3, i3]
  generalize frame_consts r = c at hpd0 hpd1 ⊢
  have hupd := run_frames_pre_delay_buffer m c r buffer hL hwp n
  have hwpn := run_frames_pre_delay_write_pos m c r buffer hL hwp n
  have hlen := (run_frames_layout m c r buffer n).2.2.2.1
  have hhist := run_frames_pre_delay_history m c r buffer hL hwp hsil.2.1 (n + 1) c.pd hpd0
    (by omega)
  have hidx : ((n + 1 : ℕ) : ℤ) - 1 - c.pd = (n : ℤ) - c.pd := by push_cast; ring
  rw [hidx] at hhist
  have hnonneg : 0 ≤ (n : ℤ) % r.pre_delay_length :=
    Int.emod_nonneg _ (by omega)
  have hread : Int.tmod ((n : ℤ) % r.pre_delay_length - c.pd + r.pre_delay_length)
      r.pre_delay_length = ((n : ℤ) - c.pd) % r.pre_delay_length := by
    rw [Int.tmod_eq_emod (by omega) (by omega), Int.add_emod_self, sub_eq_add_neg,
      Int.emod_add_emod, ← sub_eq_add_neg]
  simp only [pre_delay_out, pre_delay_read_pos]
  rw [hwpn, hlen, hread, run_frames_snd_later m c r buffer _ n (le_refl _),
    run_frames_snd_later m c r buffer _ n (by omega), ← hupd, hhist]
  have hiff : (c.pd + 1 ≤ ((n + 1 : ℕ) : ℤ)) ↔ (c.pd ≤ (n : ℤ)) := by push_cast; omega
  by_cases hc : c.pd ≤ (n : ℤ)
  · rw [if_pos hc, if_pos (hiff.mpr hc)]
  · rw [if_neg hc, if_neg (fun h' => hc (hiff.mp h'))]

theorem pre_delay_exact_delay_witness :
    (frame_consts (apply_settings [(PRE_DELAY, 3)] (dattorro_reverb_init used_engine 44100).2)).pd
      = 3 ∧
    pre_delay_out
        (frame_consts (apply_settings [(PRE_DELAY, 3)] (dattorro_reverb_init used_engine 44100).2))
        (run_frames sample_libm
          (frame_consts
            (apply_settings [(PRE_DELAY, 3)] (dattorro_reverb_init used_engine 44100).2))
          (apply_settings [(PRE_DELAY, 3)] (dattorro_reverb_init used_engine 44100).2)
          (fun k => (k : ℚ)) 5).1
        ((run_frames sample_libm
          (frame_consts
            (apply_settings [(PRE_DELAY, 3)] (dattorro_reverb_init used_engine 44100).2))
          (apply_settings [(PRE_DELAY, 3)] (dattorro_reverb_init used_engine 44100).2)
          (fun k => (k : ℚ)) 5).2 ((5 : ℕ) * 2))
        ((run_frames sample_libm
          (frame_consts
            (apply_settings [(PRE_DELAY, 3)] (dattorro_reverb_init used_engine 44100).2))
          (apply_settings [(PRE_DELAY, 3)] (dattorro_reverb_init used_engine 44100).2)
          (fun k => (k : ℚ)) 5).2 ((5 : ℕ) * 2 + 1)) =
      mono_input 4 5 := by
  have h44 : (44100 : ℚ) ≤ DATTORRO_MAX_SR := by norm_num [DATTORRO_MAX_SR]
  have hinit : (dattorro_reverb_init used_engine 44100).1 = true := (init_true_iff _ _).mpr h44
  have hset : apply_settings [(PRE_DELAY, 3)] (dattorro_reverb_init used_engine 44100).2 =
      dattorro_reverb_set_parameter (dattorro_reverb_init used_engine 44100).2 PRE_DELAY 3 := rfl
  have hpd : (frame_consts
      (apply_settings [(PRE_DELAY, 3)] (dattorro_reverb_init used_engine 44100).2)).pd = 3 := by
    rw [hset, set_pre_delay_pd]; norm_num [to_int]
  have hlen : (apply_settings [(PRE_DELAY, 3)]
      (dattorro_reverb_init used_engine 44100).2).pre_delay_length = 44100 := by
    rw [(apply_settings_cursors _ _).2.1, (init_scalars used_engine 44100 h44).2.1]
    norm_num [to_int]
  have h := pre_delay_exact_delay sample_libm used_engine 44100 [(PRE_DELAY, 3)]
    (fun k => (k : ℚ)) 5 hinit (by norm_num) (by rw [hpd]; norm_num)
    (by rw [hpd, hlen]; norm_num)
  refine ⟨hpd, ?_⟩
  rw [h, hpd]
  norm_num

/-! ## The first frame -/

theorem land_zero_right (x : ℤ) : Int.land x 0 = 0 :=
  le_antisymm (land_le x 0 (le_refl 0)) (land_nonneg x 0 (le_refl 0))

theorem roundf_small (x : ℚ) (h0 : 0 ≤ x) (h1 : x < 1 / 2) : roundf x = 0 := by
  unfold roundf
  rw [if_pos h0, Int.floor_eq_iff]
  constructor <;> push_cast <;> linarith

theorem init_one_hz : (dattorro_reverb_init used_engine 1).2 = one_hz := by
  have h1 : (1 : ℚ) ≤ DATTORRO_MAX_SR := by norm_num [DATTORRO_MAX_SR]
  obtain ⟨a1, a2, a3, a4, a5, a6, a7, a8, a9⟩ := init_scalars used_engine 1 h1
  have hp := init_params used_engine 1 h1
  have hd : (dattorro_reverb_init used_engine 1).2.delays = one_hz.delays := by
    funext j
    rw [init_delays used_engine 1 h1 j]
    by_cases hj : j < 12
    · have hr : roundf (delay_lengths j * 1) = 0 := by
        have := delay_lengths_bounds j hj
        exact roundf_small _ (by linarith [this.1]) (by linarith [this.2])
      rw [mul_one] at hr
      simp [hj, one_hz, fresh_delay, hr, next_power_of_two]
    · simp [hj, one_hz]
  have ht : (dattorro_reverb_init used_engine 1).2.taps = one_hz.taps := by
    funext t
    rw [init_taps used_engine 1 h1 t]
    by_cases ht : t < 14
    · have hr : roundf (tap_lengths t * 1) = 0 := by
        apply roundf_small
        · interval_cases t <;> norm_num [tap_lengths]
        · interval_cases t <;> norm_num [tap_lengths]
      rw [mul_one] at hr
      simp [ht, one_hz, hr]
    · simp [ht, one_hz]
  have ha2 : to_int (1 : ℚ) = 1 := by norm_num [to_int]
  rw [ha2] at a2
  cases hr : (dattorro_reverb_init used_engine 1).2 with
  | mk sr params db dl tp pb pl pw l1 l2 l3 ph =>
    rw [hr] at a1 a2 a3 a4 a5 a6 a7 a8 a9 hp hd ht
    simp only at a1 a2 a3 a4 a5 a6 a7 a8 a9 hp hd ht
    subst a1 a2 a3 a4 a5 a6 a7 a8 a9 hp hd ht
    rfl

set_option maxHeartbeats 2000000 in
theorem wet_left_one_hz :
    wet_left (frame_tank clipped_libm (frame_consts one_hz) 0 (one_hz, fun _ => 1)) =
      243082879281 / 52428800000000 := by
  simp only [frame_tank, stage_input, stage_diffusion, stage_left, stage_right, wet_left,
    tap_read, tap_index, fixed_read, fixed_index, delay_write, read_delay_cat, cat_index,
    pre_delay_read_pos, frame_consts, one_hz, land_zero_right, default_params,
    clipped_libm, floorf, M_PI]
  norm_num [Function.update, land_zero_right, PRE_DELAY, BANDWIDTH,
    INPUT_DIFFUSION_1, INPUT_DIFFUSION_2, DECAY, DECAY_DIFFUSION_1, DECAY_DIFFUSION_2, DAMPING,
    EXCURSION_RATE, EXCURSION_DEPTH, WET, DRY]

/-- The first buffer entry after a call of one frame. -/
theorem process_one_frame_left (m : Libm) (r : DattorroReverb) (b : ℤ → ℚ) :
    (dattorro_reverb_process m r b 1).2 0 =
      b 0 * (frame_consts r).dr +
        wet_left (frame_tank m (frame_consts r) 0 (r, b)) * (frame_consts r).we := by
  have h : dattorro_reverb_process m r b 1 = process_frame m (frame_consts r) 0 (r, b) := by
    rw [process_eq_run_frames]
    exact run_frames_succ m (frame_consts r) r b 0
  rw [h, process_frame_snd]
  have h01 : (0 : ℤ) ≠ ((0 : ℕ) : ℤ) * 2 + 1 := by norm_num
  rw [Function.update_noteq h01]
  simp

/-- C12, counterexample. After a successful init at 1 Hz with the default
parameters, the first frame on the input (1, 1) has the wet sum
243082879281 / 52428800000000 on the left, so the first output sample is not
the dry part 1 * 0.6: with tap offsets and masks all 0, every tap read returns
the sample written in this very frame. -/
theorem first_frame_not_dry_at_one_hz :
    (dattorro_reverb_init used_engine 1).1 = true ∧
    wet_left (frame_tank clipped_libm (frame_consts (dattorro_reverb_init used_engine 1).2) 0
      ((dattorro_reverb_init used_engine 1).2, fun _ => 1)) = 243082879281 / 52428800000000 ∧
    (dattorro_reverb_process clipped_libm (dattorro_reverb_init used_engine 1).2
      (fun _ => 1) 1).2 0 = 1575051745913529 / 2621440000000000 ∧
    (dattorro_reverb_process clipped_libm (dattorro_reverb_init used_engine 1).2
      (fun _ => 1) 1).2 0 ≠
      1 * dattorro_reverb_get_parameter (dattorro_reverb_init used_engine 1).2 DRY := by
  have hval : (dattorro_reverb_process clipped_libm one_hz (fun _ => 1) 1).2 0 =
      1575051745913529 / 2621440000000000 := by
    rw [process_one_frame_left, wet_left_one_hz]
    norm_num [frame_consts, one_hz, default_params, WET, DRY]
  have hdry : dattorro_reverb_get_parameter one_hz DRY = 0.6 := by
    norm_num [dattorro_reverb_get_parameter, one_hz, default_params, DRY, NUM_DATTORRO_PARAMS]
  rw [init_one_hz]
  refine ⟨(init_true_iff _ _).mpr (by norm_num [DATTORRO_MAX_SR]), wet_left_one_hz, hval, ?_⟩
  rw [hval, hdry]
  norm_num

theorem apply_settings_delays (settings : List (ℤ × ℚ)) (r : DattorroReverb) :
    (apply_settings settings r).delays = r.delays ∧ (apply_settings settings r).taps = r.taps := by
  unfold apply_settings
  induction settings generalizing r with
  | nil => exact ⟨rfl, rfl⟩
  | cons pv rest ih =>
    simp only [List.foldl_cons]
    obtain ⟨a1, a2⟩ := ih (dattorro_reverb_set_parameter r pv.1 pv.2)
    have hb : (dattorro_reverb_set_parameter r pv.1 pv.2).delays = r.delays ∧
        (dattorro_reverb_set_parameter r pv.1 pv.2).taps = r.taps := by
      unfold dattorro_reverb_set_parameter
      split_ifs <;> exact ⟨rfl, rfl⟩
    exact ⟨a1.trans hb.1, a2.trans hb.2⟩

theorem one_le_roundf (x : ℚ) (h : 1 / 2 ≤ x) : 1 ≤ roundf x := by
  unfold roundf
  rw [if_pos (by linarith), Int.le_floor]
  push_cast
  linarith

theorem roundf_add_one_le (x y : ℚ) (h0 : 0 ≤ x) (h : x + 1 ≤ y) : roundf x + 1 ≤ roundf y := by
  unfold roundf
  rw [if_pos h0, if_pos (by linarith), ← Int.floor_add_one]
  exact Int.floor_mono (by linarith)

/-- A tap read of the first frame after init lands on a slot the frame has not
written, when the tap offset is at least 1 and below the length of the line. -/
theorem fresh_tap_read_zero (r s : DattorroReverb) (sr : ℚ) (j tp : ℕ) (h : OffCursor r s)
    (hd : r.delays j = fresh_delay (delay_lengths j) sr)
    (ht : r.taps tp = roundf (tap_lengths tp * sr)) (hsr : 123 ≤ sr)
    (h1 : 1 / 246 ≤ tap_lengths tp) (h2 : tap_lengths tp + 1 / 123 ≤ delay_lengths j) :
    tap_read s j tp = 0 := by
  have htap1 : 1 ≤ roundf (tap_lengths tp * sr) := by
    apply one_le_roundf
    have : (1 : ℚ) / 246 * 123 ≤ tap_lengths tp * sr :=
      mul_le_mul h1 hsr (by norm_num) (by linarith)
    linarith
  have htap2 : roundf (tap_lengths tp * sr) + 1 ≤ roundf (delay_lengths j * sr) := by
    apply roundf_add_one_le
    · exact mul_nonneg (by linarith) (by linarith)
    · have : (1 : ℚ) / 123 * 123 ≤ (delay_lengths j - tap_lengths tp) * sr :=
        mul_le_mul (by linarith) hsr (by norm_num) (by linarith)
      linarith
  obtain ⟨e, he, hge⟩ := next_power_of_two_spec (roundf (delay_lengths j * sr))
  obtain ⟨b1, b2, b3⟩ := h.1.2.2.2.2.2.2.2 j
  have hwp : (r.delays j).write_pos = 0 := by rw [hd]; rfl
  have hmask : (r.delays j).mask = 2 ^ e - 1 := by rw [hd]; simp only [fresh_delay]; rw [he]
  have hbuf : ∀ idx, (r.delays j).buffer idx = 0 := by intro idx; rw [hd]; rfl
  have hne : tap_index (s.delays j) (s.taps tp) ≠ (r.delays j).write_pos := by
    rw [tap_index, b2, b3, h.1.2.2.1, ht]
    have h2e : (1 : ℤ) ≤ 2 ^ e := one_le_pow₀ (by norm_num)
    exact land_sub_ne _ _ _ e hmask (by rw [hwp]) (by rw [hwp, hmask]; omega)
      (by omega) (by omega)
  rw [tap_read, h.2 j _ hne]
  exact hbuf _

/-- C12, amended. First frame is dry only: on an engine freshly initialised
at a sample rate from 123 Hz up (to the accepted maximum 44100 Hz), with any
parameter settings afterwards, any buffer and any call of at least one frame,
each of the 14 tap reads of the first frame returns 0, so the wet sums are 0
and the first output frame is exactly `(l * dry, r * dry)`. -/
theorem first_frame_is_dry (m : Libm) (reverb : DattorroReverb) (sample_rate : ℚ)
    (settings : List (ℤ × ℚ)) (buffer : ℤ → ℚ) (num_frames : ℤ)
    (hinit : (dattorro_reverb_init reverb sample_rate).1 = true)
    (hsr : 123 ≤ sample_rate) (hn : 1 ≤ num_frames) :
    wet_left (frame_tank m
        (frame_consts (apply_settings settings (dattorro_reverb_init reverb sample_rate).2)) 0
        (apply_settings settings (dattorro_reverb_init reverb sample_rate).2, buffer)) = 0 ∧
    wet_right (frame_tank m
        (frame_consts (apply_settings settings (dattorro_reverb_init reverb sample_rate).2)) 0
        (apply_settings settings (dattorro_reverb_init reverb sample_rate).2, buffer)) = 0 ∧
    (dattorro_reverb_process m
        (apply_settings settings (dattorro_reverb_init reverb sample_rate).2)
        buffer num_frames).2 0 =
      buffer 0 * dattorro_reverb_get_parameter
        (apply_settings settings (dattorro_reverb_init reverb sample_rate).2) DRY ∧
    (dattorro_reverb_process m
        (apply_settings settings (dattorro_reverb_init reverb sample_rate).2)
        buffer num_frames).2 1 =
      buffer 1 * dattorro_reverb_get_parameter
        (apply_settings settings (dattorro_reverb_init reverb sample_rate).2) DRY := by
  have hmax := (init_true_iff reverb sample_rate).mp hinit
  obtain ⟨sd, st⟩ := apply_settings_delays settings (dattorro_reverb_init reverb sample_rate).2
  have hdel : ∀ j, j < 12 →
      (apply_settings settings (dattorro_reverb_init reverb sample_rate).2).delays j =
        fresh_delay (delay_lengths j) sample_rate := by
    intro j hj
    rw [sd, init_delays reverb sample_rate hmax j, if_pos hj]
  have htap : ∀ t, t < 14 →
      (apply_settings settings (dattorro_reverb_init reverb sample_rate).2).taps t =
        roundf (tap_lengths t * sample_rate) := by
    intro t ht
    rw [st, init_taps reverb sample_rate hmax t, if_pos ht]
  generalize apply_settings settings (dattorro_reverb_init reverb sample_rate).2 = r
    at hdel htap ⊢
  have hoff := frame_tank_offCursor m (frame_consts r) 0 (r, buffer)
  have hz : ∀ j tp, j < 12 → tp < 14 → 1 / 246 ≤ tap_lengths tp →
      tap_lengths tp + 1 / 123 ≤ delay_lengths j →
      tap_read (frame_tank m (frame_consts r) 0 (r, buffer)) j tp = 0 :=
    fun j tp hj htp h1 h2 =>
      fresh_tap_read_zero r _ sample_rate j tp hoff (hdel j hj) (htap tp htp) hsr h1 h2
  have hlo : wet_left (frame_tank m (frame_consts r) 0 (r, buffer)) = 0 := by
    simp only [wet_left]
    rw [hz 9 0 (by decide) (by decide) (by norm_num [tap_lengths])
        (by norm_num [tap_lengths, delay_lengths]),
      hz 9 1 (by decide) (by decide) (by norm_num [tap_lengths])
        (by norm_num [tap_lengths, delay_lengths]),
      hz 10 2 (by decide) (by decide) (by norm_num [tap_lengths])
        (by norm_num [tap_lengths, delay_lengths]),
      hz 11 3 (by decide) (by decide) (by norm_num [tap_lengths])
        (by norm_num [tap_lengths, delay_lengths]),
      hz 5 4 (by decide) (by decide) (by norm_num [tap_lengths])
        (by norm_num [tap_lengths, delay_lengths]),
      hz 6 5 (by decide) (by decide) (by norm_num [tap_lengths])
        (by norm_num [tap_lengths, delay_lengths]),
      hz 7 6 (by decide) (by decide) (by norm_num [tap_lengths])
        (by norm_num [tap_lengths, delay_lengths])]
    norm_num
  have hro : wet_right (frame_tank m (frame_consts r) 0 (r, buffer)) = 0 := by
    simp only [wet_right]
    rw [hz 5 7 (by decide) (by decide) (by norm_num [tap_lengths])
        (by norm_num [tap_lengths, delay_lengths]),
      hz 5 8 (by decide) (by decide) (by norm_num [tap_lengths])
        (by norm_num [tap_lengths, delay_lengths]),
      hz 6 9 (by decide) (by decide) (by norm_num [tap_lengths])
        (by norm_num [tap_lengths, delay_lengths]),
      hz 7 10 (by decide) (by decide) (by norm_num [tap_lengths])
        (by norm_num [tap_lengths, delay_lengths]),
      hz 9 11 (by decide) (by decide) (by norm_num [tap_lengths])
        (by norm_num [tap_lengths, delay_lengths]),
      hz 10 12 (by decide) (by decide) (by norm_num [tap_lengths])
        (by norm_num [tap_lengths, delay_lengths]),
      hz 11 13 (by decide) (by decide) (by norm_num [tap_lengths])
        (by norm_num [tap_lengths, delay_lengths])]
    norm_num
  have hdr : (frame_consts r).dr = dattorro_reverb_get_parameter r DRY := by
    simp [frame_consts, dattorro_reverb_get_parameter, DRY, NUM_DATTORRO_PARAMS]
  have hfirst : (run_frames m (frame_consts r) r buffer 1).2 0 = buffer 0 * (frame_consts r).dr ∧
      (run_frames m (frame_consts r) r buffer 1).2 1 = buffer 1 * (frame_consts r).dr := by
    have h1 : run_frames m (frame_consts r) r buffer 1 =
        process_frame m (frame_consts r) 0 (r, buffer) := run_frames_succ m _ r buffer 0
    rw [h1, process_frame_snd, hlo, hro]
    have h01 : (0 : ℤ) ≠ ((0 : ℕ) : ℤ) * 2 + 1 := by norm_num
    constructor
    · rw [Function.update_noteq h01]
      simp
    · simp
  obtain ⟨k, hk⟩ : ∃ k : ℕ, num_frames.toNat = 1 + k := ⟨num_frames.toNat - 1, by omega⟩
  rw [process_eq_run_frames, hk,
    run_frames_snd_earlier m (frame_consts r) r buffer 0 1 (by norm_num) k,
    run_frames_snd_earlier m (frame_consts r) r buffer 1 1 (by norm_num) k, ← hdr]
  exact ⟨hlo, hro, hfirst.1, hfirst.2⟩

theorem apply_settings_nil (r : DattorroReverb) : apply_settings [] r = r := rfl

theorem first_frame_is_dry_witness :
    (dattorro_reverb_process sample_libm (dattorro_reverb_init used_engine 44100).2
        (fun _ => 1) 1).2 0 = 0.6 ∧
    (dattorro_reverb_process sample_libm (dattorro_reverb_init used_engine 44100).2
        (fun _ => 1) 1).2 1 = 0.6 := by
  have h44 : (44100 : ℚ) ≤ DATTORRO_MAX_SR := by norm_num [DATTORRO_MAX_SR]
  have hp := init_params used_engine 44100 h44
  have hdry : dattorro_reverb_get_parameter (dattorro_reverb_init used_engine 44100).2 DRY
      = 0.6 := by
    simp only [dattorro_reverb_get_parameter, hp, default_params, DRY, NUM_DATTORRO_PARAMS]
    norm_num
  have h := first_frame_is_dry sample_libm used_engine 44100 [] (fun _ => 1) 1
    ((init_true_iff _ _).mpr h44) (by norm_num) (le_refl 1)
  rw [apply_settings_nil, hdry] at h
  exact ⟨by rw [h.2.2.1]; norm_num, by rw [h.2.2.2]; norm_num⟩

/-! ## The hosting node -/

/-- With no wet signal a call scales the entries of its frames by `dry` and
leaves every other entry alone. -/
theorem run_frames_dry_only (m : Libm) (c : FrameConsts) (r : DattorroReverb) (b : ℤ → ℚ)
    (hwe : c.we = 0) (n : ℕ) (idx : ℤ) :
    (run_frames m c r b n).2 idx =
      if 0 ≤ idx ∧ idx < (n : ℤ) * 2 then b idx * c.dr else b idx := by
  induction n generalizing idx with
  | zero =>
    have : ¬ (0 ≤ idx ∧ idx < ((0 : ℕ) : ℤ) * 2) := by push_cast; omega
    rw [if_neg this]; rfl
  | succ n ih =>
    rw [run_frames_succ, process_frame_snd, hwe, Function.update_apply, Function.update_apply,
      ih ((n : ℤ) * 2), ih ((n : ℤ) * 2 + 1), ih idx]
    have h1 : ¬ (0 ≤ (n : ℤ) * 2 ∧ (n : ℤ) * 2 < (n : ℤ) * 2) := by omega
    have h2 : ¬ (0 ≤ (n : ℤ) * 2 + 1 ∧ (n : ℤ) * 2 + 1 < (n : ℤ) * 2) := by omega
    rw [if_neg h1, if_neg h2]
    push_cast
    by_cases ha : idx = (n : ℤ) * 2 + 1
    · rw [if_pos ha, if_pos (by omega), ha]; ring
    · rw [if_neg ha]
      by_cases hb : idx = (n : ℤ) * 2
      · rw [if_pos hb, if_pos (by omega), hb]; ring
      · rw [if_neg hb]
        by_cases hc : 0 ≤ idx ∧ idx < (n : ℤ) * 2
        · rw [if_pos hc, if_pos (by omega)]
        · rw [if_neg hc, if_neg (by omega)]

theorem copy_out_body_buf (i : ℕ) (n : DtReverbNode) : (copy_out_body i n).buf = n.buf := rfl

/-- C19, the code at `NODE_BUFFER_SIZE = 1`. The node passes the frame count 2
for a `buf` of 2 floats, so the engine processes the frame at indices 2 and 3:
the value 5 behind `buf` at index 3 is overwritten with 10. -/
theorem dtreverb_process_overruns_buf :
    dtreverb_frame_count 1 = 2 ∧ sample_node.buf 3 = 5 ∧
    (dtreverb_process clipped_libm 1 sample_node).buf 3 = 10 := by
  refine ⟨by norm_num [dtreverb_frame_count], rfl, ?_⟩
  have hc : (frame_consts sample_node.dt).we = 0 ∧ (frame_consts sample_node.dt).dr = 2 := by
    simp only [sample_node]
    rw [set_parameter_valid _ DRY _ (by decide), set_parameter_valid _ WET _ (by decide)]
    simp [frame_consts, WET, DRY]
  have hin : for_loop 1 copy_in_body sample_node =
      { sample_node with
        buf := Function.update (Function.update sample_node.buf 0 (sample_node.inl 0)) 1
          (sample_node.inr 0) } := by
    rw [for_loop_succ, for_loop_zero]
    simp [copy_in_body]
  simp only [dtreverb_process, hin, for_loop_succ, for_loop_zero, copy_out_body_buf]
  rw [process_eq_run_frames, run_frames_dry_only _ _ _ _ hc.1, hc.2]
  norm_num [dtreverb_frame_count, sample_node, Function.update]

theorem sscanf_cmd_val_token (strtof : List Char → Option ℚ) (msg : List Char)
    (tok left : List Char) (h : scan_token 15 (skip_space msg) = (tok, left)) (hne : tok ≠ []) :
    sscanf_cmd_val strtof msg [] 0 = (tok, (strtof (skip_space left)).getD 0) := by
  simp only [sscanf_cmd_val, h, if_neg hne]
  cases strtof (skip_space left) <;> rfl

theorem receive_unknown (strtof : List Char → Option ℚ) (node : DtReverbNode)
    (msg err tok left : List Char)
    (h : scan_token 15 (skip_space msg) = (tok, left)) (hne : tok ≠ [])
    (hp : string_to_enum cmd_strings tok = -1) :
    dtreverb_receive strtof node msg err = (-1, node, bad_command_text tok) := by
  simp [dtreverb_receive, sscanf_cmd_val_token strtof msg tok left h hne, hp]

theorem receive_known (strtof : List Char → Option ℚ) (node : DtReverbNode)
    (msg err tok left : List Char) (p : ℤ)
    (h : scan_token 15 (skip_space msg) = (tok, left)) (hne : tok ≠ [])
    (hp : string_to_enum cmd_strings tok = p) (hp0 : 0 ≤ p) :
    dtreverb_receive strtof node msg err =
      (0,
        if p = BANDWIDTH then
          { node with
            dt := dattorro_reverb_set_parameter node.dt BANDWIDTH
              (clampf ((strtof (skip_space left)).getD 0) 0.0 1.0) }
        else node, err) := by
  simp only [dtreverb_receive, sscanf_cmd_val_token strtof msg tok left h hne, hp,
    if_neg (not_lt.mpr hp0)]

/-- C20, the code on the twelve recognised names. For a message made of a
name, a blank and any further text: with the four names of 17 characters
(input_diffusion_1, input_diffusion_2, decay_diffusion_1, decay_diffusion_2)
the conversion to a command of at most 15 characters cuts the name, no table
entry matches, and `receive` returns -1 and writes the bad-command text; with
pre_delay, decay, damping, excursion_rate, excursion_depth, wet and dry it
returns 0 and changes nothing; with bandwidth it returns 0 and sets BANDWIDTH
to the parsed value (0 when none parses) clamped to [0, 1]. -/
theorem receive_on_recognised_names (strtof : List Char → Option ℚ) (node : DtReverbNode)
    (rest err : List Char) :
    dtreverb_receive strtof node ("input_diffusion_1".toList ++ ' ' :: rest) err =
      (-1, node, bad_command_text "input_diffusion".toList) ∧
    dtreverb_receive strtof node ("input_diffusion_2".toList ++ ' ' :: rest) err =
      (-1, node, bad_command_text "input_diffusion".toList) ∧
    dtreverb_receive strtof node ("decay_diffusion_1".toList ++ ' ' :: rest) err =
      (-1, node, bad_command_text "decay_diffusion".toList) ∧
    dtreverb_receive strtof node ("decay_diffusion_2".toList ++ ' ' :: rest) err =
      (-1, node, bad_command_text "decay_diffusion".toList) ∧
    dtreverb_receive strtof node ("pre_delay".toList ++ ' ' :: rest) err = (0, node, err) ∧
    dtreverb_receive strtof node ("decay".toList ++ ' ' :: rest) err = (0, node, err) ∧
    dtreverb_receive strtof node ("damping".toList ++ ' ' :: rest) err = (0, node, err) ∧
    dtreverb_receive strtof node ("excursion_rate".toList ++ ' ' :: rest) err = (0, node, err) ∧
    dtreverb_receive strtof node ("excursion_depth".toList ++ ' ' :: rest) err = (0, node, err) ∧
    dtreverb_receive strtof node ("wet".toList ++ ' ' :: rest) err = (0, node, err) ∧
    dtreverb_receive strtof node ("dry".toList ++ ' ' :: rest) err = (0, node, err) ∧
    dtreverb_receive strtof node ("bandwidth".toList ++ ' ' :: rest) err =
      (0,
        { node with
          dt := dattorro_reverb_set_parameter node.dt BANDWIDTH
            (clampf ((strtof (skip_space rest)).getD 0) 0 1) }, err) := by
  refine ⟨?_, ?_, ?_, ?_, ?_, ?_, ?_, ?_, ?_, ?_, ?_, ?_⟩
  · apply receive_unknown strtof node _ err _ ('_' :: '1' :: ' ' :: rest)
    · simp [scan_token, skip_space, isspace]
    · simp
    · simp [string_to_enum, string_to_enum_from, cmd_strings]
  · apply receive_unknown strtof node _ err _ ('_' :: '2' :: ' ' :: rest)
    · simp [scan_token, skip_space, isspace]
    · simp
    · simp [string_to_enum, string_to_enum_from, cmd_strings]
  · apply receive_unknown strtof node _ err _ ('_' :: '1' :: ' ' :: rest)
    · simp [scan_token, skip_space, isspace]
    · simp
    · simp [string_to_enum, string_to_enum_from, cmd_strings]
  · apply receive_unknown strtof node _ err _ ('_' :: '2' :: ' ' :: rest)
    · simp [scan_token, skip_space, isspace]
    · simp
    · simp [string_to_enum, string_to_enum_from, cmd_strings]
  · rw [receive_known strtof node _ err "pre_delay".toList (' ' :: rest) 0
      (by simp [scan_token, skip_space, isspace]) (by simp)
      (by simp [string_to_enum, string_to_enum_from, cmd_strings]) (by norm_num)]
    simp [BANDWIDTH]
  · rw [receive_known strtof node _ err "decay".toList (' ' :: rest) 4
      (by simp [scan_token, skip_space, isspace]) (by simp)
      (by simp [string_to_enum, string_to_enum_from, cmd_strings]) (by norm_num)]
    simp [BANDWIDTH]
  · rw [receive_known strtof node _ err "damping".toList (' ' :: rest) 7
      (by simp [scan_token, skip_space, isspace]) (by simp)
      (by simp [string_to_enum, string_to_enum_from, cmd_strings]) (by norm_num)]
    simp [BANDWIDTH]
  · rw [receive_known strtof node _ err "excursion_rate".toList (' ' :: rest) 8
      (by simp [scan_token, skip_space, isspace]) (by simp)
      (by simp [string_to_enum, string_to_enum_from, cmd_strings]) (by norm_num)]
    simp [BANDWIDTH]
  · rw [receive_known strtof node _ err "excursion_depth".toList (' ' :: rest) 9
      (by simp [scan_token, skip_space, isspace]) (by simp)
      (by simp [string_to_enum, string_to_enum_from, cmd_strings]) (by norm_num)]
    simp [BANDWIDTH]
  · rw [receive_known strtof node _ err "wet".toList (' ' :: rest) 10
      (by simp [scan_token, skip_space, isspace]) (by simp)
      (by simp [string_to_enum, string_to_enum_from, cmd_strings]) (by norm_num)]
    simp [BANDWIDTH]
  · rw [receive_known strtof node _ err "dry".toList (' ' :: rest) 11
      (by simp [scan_token, skip_space, isspace]) (by simp)
      (by simp [string_to_enum, string_to_enum_from, cmd_strings]) (by norm_num)]
    simp [BANDWIDTH]
  · rw [receive_known strtof node _ err "bandwidth".toList (' ' :: rest) 1
      (by simp [scan_token, skip_space, isspace]) (by simp)
      (by simp [string_to_enum, string_to_enum_from, cmd_strings]) (by norm_num)]
    simp [BANDWIDTH, skip_space, isspace]
    norm_num

/-- C20, the failing input. On the message `input_diffusion_1 0.5`, whatever
the float parser, `receive` returns -1 and the node is unchanged. -/
theorem receive_rejects_input_diffusion_1 :
    ∀ strtof : List Char → Option ℚ,
      (dtreverb_receive strtof sample_node "input_diffusion_1 0.5".toList []).1 = -1 ∧
      (dtreverb_receive strtof sample_node "input_diffusion_1 0.5".toList []).2.2 =
        bad_command_text "input_diffusion".toList := by
  intro strtof
  have h := receive_unknown strtof sample_node "input_diffusion_1 0.5".toList []
    "input_diffusion".toList "_1 0.5".toList
    (by simp [scan_token, skip_space, isspace]) (by simp)
    (by simp [string_to_enum, string_to_enum_from, cmd_strings])
  rw [h]
  exact ⟨rfl, rfl⟩

/-! ## Linearity in the signal -/

theorem SameLayout.symm {r s : DattorroReverb} (h : SameLayout r s) : SameLayout s r := by
  obtain ⟨a1, a2, a3, a4, a5, a6, a7, a8⟩ := h
  exact ⟨a1.symm, a2.symm, a3.symm, a4.symm, a5.symm, a6.symm, a7.symm,
    fun j => ⟨(a8 j).1.symm, (a8 j).2.1.symm, (a8 j).2.2.symm⟩⟩

theorem layout_transfer {x y x1 y1 : DattorroReverb} (h : SameLayout x y)
    (hx : SameLayout x x1) (hy : SameLayout y y1) : SameLayout x1 y1 :=
  SameLayout.trans (SameLayout.trans (SameLayout.symm hx) h) hy

theorem delay_write_buffer (r : DattorroReverb) (j : ℕ) (v : ℚ) (i : ℕ) (k : ℤ) :
    ((delay_write r j v).delays i).buffer k =
      if i = j ∧ k = (r.delays j).write_pos then v else (r.delays i).buffer k := by
  by_cases hi : i = j
  · subst hi
    by_cases hk : k = (r.delays i).write_pos
    · subst hk; simp [delay_write]
    · simp [delay_write, Function.update_noteq hk, hk]
  · simp [delay_write, Function.update_noteq hi, hi]

theorem linComb_delay_write {a b : ℚ} {x y z : DattorroReverb} (h : LinComb a b x y z) (j : ℕ)
    (vx vy vz : ℚ) (hv : vz = a * vx + b * vy) :
    LinComb a b (delay_write x j vx) (delay_write y j vy) (delay_write z j vz) := by
  obtain ⟨h1, h2, h3, h4, h5, h6, h7⟩ := h
  refine ⟨layout_transfer h1 (delay_write_layout _ _ _) (delay_write_layout _ _ _),
    layout_transfer h2 (delay_write_layout _ _ _) (delay_write_layout _ _ _),
    fun i k => ?_, h4, h5, h6, h7⟩
  have hy : (y.delays j).write_pos = (x.delays j).write_pos := (h1.2.2.2.2.2.2.2 j).2.1
  have hz : (z.delays j).write_pos = (x.delays j).write_pos := (h2.2.2.2.2.2.2.2 j).2.1
  rw [delay_write_buffer, delay_write_buffer, delay_write_buffer, hy, hz]
  split_ifs
  · exact hv
  · exact h3 i k

theorem linComb_fixed_read {a b : ℚ} {x y z : DattorroReverb} (h : LinComb a b x y z) (j : ℕ) :
    fixed_read z j = a * fixed_read x j + b * fixed_read y j := by
  obtain ⟨h1, h2, h3, -⟩ := h
  obtain ⟨y1, y2, y3⟩ := h1.2.2.2.2.2.2.2 j
  obtain ⟨z1, z2, z3⟩ := h2.2.2.2.2.2.2.2 j
  simp only [fixed_read, fixed_index, y1, y2, y3, z1, z2, z3]
  exact h3 j _

theorem linComb_tap_read {a b : ℚ} {x y z : DattorroReverb} (h : LinComb a b x y z) (j t : ℕ) :
    tap_read z j t = a * tap_read x j t + b * tap_read y j t := by
  obtain ⟨h1, h2, h3, -⟩ := h
  obtain ⟨y1, y2, y3⟩ := h1.2.2.2.2.2.2.2 j
  obtain ⟨z1, z2, z3⟩ := h2.2.2.2.2.2.2.2 j
  simp only [tap_read, tap_index, y1, y2, y3, z1, z2, z3, h1.2.2.1, h2.2.2.1]
  exact h3 j _

theorem linComb_read_delay_cat {a b : ℚ} {x y z : DattorroReverb} (h : LinComb a b x y z)
    (j : ℕ) (e : ℚ) :
    read_delay_cat (z.delays j) e =
      a * read_delay_cat (x.delays j) e + b * read_delay_cat (y.delays j) e := by
  obtain ⟨h1, h2, h3, -⟩ := h
  obtain ⟨y1, y2, y3⟩ := h1.2.2.2.2.2.2.2 j
  obtain ⟨z1, z2, z3⟩ := h2.2.2.2.2.2.2.2 j
  simp only [read_delay_cat, cat_index, y1, y2, y3, z1, z2, z3, h3 j]
  ring

theorem linComb_lp2 {a b : ℚ} {x y z : DattorroReverb} (h : LinComb a b x y z)
    (vx vy vz : ℚ) (hv : vz = a * vx + b * vy) :
    LinComb a b { x with lp2 := vx } { y with lp2 := vy } { z with lp2 := vz } := by
  obtain ⟨h1, h2, h3, h4, h5, h6, h7⟩ := h
  exact ⟨layout_transfer h1 (lp2_layout _ _) (lp2_layout _ _),
    layout_transfer h2 (lp2_layout _ _) (lp2_layout _ _), h3, h4, h5, hv, h7⟩

theorem linComb_lp3 {a b : ℚ} {x y z : DattorroReverb} (h : LinComb a b x y z)
    (vx vy vz : ℚ) (hv : vz = a * vx + b * vy) :
    LinComb a b { x with lp3 := vx } { y with lp3 := vy } { z with lp3 := vz } := by
  obtain ⟨h1, h2, h3, h4, h5, h6, h7⟩ := h
  exact ⟨layout_transfer h1 (lp3_layout _ _) (lp3_layout _ _),
    layout_transfer h2 (lp3_layout _ _) (lp3_layout _ _), h3, h4, h5, h6, hv⟩

theorem stage_left_linComb {a b : ℚ} {x y z : DattorroReverb} (h : LinComb a b x y z)
    (c : FrameConsts) (sx sy sz exc : ℚ) (hs : sz = a * sx + b * sy) :
    LinComb a b (stage_left c x sx exc) (stage_left c y sy exc) (stage_left c z sz exc) := by
  let tx : ℚ := sx + c.dc * fixed_read x 11 + c.ft * read_delay_cat (x.delays 4) exc
  let ty : ℚ := sy + c.dc * fixed_read y 11 + c.ft * read_delay_cat (y.delays 4) exc
  let tz : ℚ := sz + c.dc * fixed_read z 11 + c.ft * read_delay_cat (z.delays 4) exc
  have ft : tz = a * tx + b * ty := by
    show sz + c.dc * fixed_read z 11 + c.ft * read_delay_cat (z.delays 4) exc =
      a * (sx + c.dc * fixed_read x 11 + c.ft * read_delay_cat (x.delays 4) exc) +
      b * (sy + c.dc * fixed_read y 11 + c.ft * read_delay_cat (y.delays 4) exc)
    rw [hs, linComb_fixed_read h 11, linComb_read_delay_cat h 4 exc]; ring
  let x1 : DattorroReverb := delay_write x 4 tx
  let y1 : DattorroReverb := delay_write y 4 ty
  let z1 : DattorroReverb := delay_write z 4 tz
  have e1 : LinComb a b x1 y1 z1 := linComb_delay_write h 4 tx ty tz ft
  let x2 : DattorroReverb := delay_write x1 5 (read_delay_cat (x1.delays 4) exc - c.ft * tx)
  let y2 : DattorroReverb := delay_write y1 5 (read_delay_cat (y1.delays 4) exc - c.ft * ty)
  let z2 : DattorroReverb := delay_write z1 5 (read_delay_cat (z1.delays 4) exc - c.ft * tz)
  have e2 : LinComb a b x2 y2 z2 := linComb_delay_write e1 5 _ _ _
    (by rw [linComb_read_delay_cat e1 4 exc, ft]; ring)
  let x3 : DattorroReverb := { x2 with lp2 := x2.lp2 + c.dp * (fixed_read x2 5 - x2.lp2) }
  let y3 : DattorroReverb := { y2 with lp2 := y2.lp2 + c.dp * (fixed_read y2 5 - y2.lp2) }
  let z3 : DattorroReverb := { z2 with lp2 := z2.lp2 + c.dp * (fixed_read z2 5 - z2.lp2) }
  have flp2 : z2.lp2 = a * x2.lp2 + b * y2.lp2 := e2.2.2.2.2.2.1
  have e3 : LinComb a b x3 y3 z3 := linComb_lp2 e2 _ _ _
    (by rw [linComb_fixed_read e2 5, flp2]; ring)
  have glp2 : z3.lp2 = a * x3.lp2 + b * y3.lp2 := e3.2.2.2.2.2.1
  let ux : ℚ := c.dc * x3.lp2 - c.st * fixed_read x3 6
  let uy : ℚ := c.dc * y3.lp2 - c.st * fixed_read y3 6
  let uz : ℚ := c.dc * z3.lp2 - c.st * fixed_read z3 6
  have fu : uz = a * ux + b * uy := by
    show c.dc * z3.lp2 - c.st * fixed_read z3 6 =
      a * (c.dc * x3.lp2 - c.st * fixed_read x3 6) + b * (c.dc * y3.lp2 - c.st * fixed_read y3 6)
    rw [glp2, linComb_fixed_read e3 6]; ring
  let x4 : DattorroReverb := delay_write x3 6 ux
  let y4 : DattorroReverb := delay_write y3 6 uy
  let z4 : DattorroReverb := delay_write z3 6 uz
  have e4 : LinComb a b x4 y4 z4 := linComb_delay_write e3 6 ux uy uz fu
  have e5 : LinComb a b (delay_write x4 7 (fixed_read x3 6 + c.st * ux))
      (delay_write y4 7 (fixed_read y3 6 + c.st * uy))
      (delay_write z4 7 (fixed_read z3 6 + c.st * uz)) :=
    linComb_delay_write e4 7 _ _ _ (by rw [linComb_fixed_read e3 6, fu]; ring)
  exact e5

theorem stage_right_linComb {a b : ℚ} {x y z : DattorroReverb} (h : LinComb a b x y z)
    (c : FrameConsts) (sx sy sz exc : ℚ) (hs : sz = a * sx + b * sy) :
    LinComb a b (stage_right c x sx exc) (stage_right c y sy exc) (stage_right c z sz exc) := by
  let tx : ℚ := sx + c.dc * fixed_read x 7 + c.ft * read_delay_cat (x.delays 8) exc
  let ty : ℚ := sy + c.dc * fixed_read y 7 + c.ft * read_delay_cat (y.delays 8) exc
  let tz : ℚ := sz + c.dc * fixed_read z 7 + c.ft * read_delay_cat (z.delays 8) exc
  have ft : tz = a * tx + b * ty := by
    show sz + c.dc * fixed_read z 7 + c.ft * read_delay_cat (z.delays 8) exc =
      a * (sx + c.dc * fixed_read x 7 + c.ft * read_delay_cat (x.delays 8) exc) +
      b * (sy + c.dc * fixed_read y 7 + c.ft * read_delay_cat (y.delays 8) exc)
    rw [hs, linComb_fixed_read h 7, linComb_read_delay_cat h 8 exc]; ring
  let x1 : DattorroReverb := delay_write x 8 tx
  let y1 : DattorroReverb := delay_write y 8 ty
  let z1 : DattorroReverb := delay_write z 8 tz
  have e1 : LinComb a b x1 y1 z1 := linComb_delay_write h 8 tx ty tz ft
  let x2 : DattorroReverb := delay_write x1 9 (read_delay_cat (x1.delays 8) exc - c.ft * tx)
  let y2 : DattorroReverb := delay_write y1 9 (read_delay_cat (y1.delays 8) exc - c.ft * ty)
  let z2 : DattorroReverb := delay_write z1 9 (read_delay_cat (z1.delays 8) exc - c.ft * tz)
  have e2 : LinComb a b x2 y2 z2 := linComb_delay_write e1 9 _ _ _
    (by rw [linComb_read_delay_cat e1 8 exc, ft]; ring)
  let x3 : DattorroReverb := { x2 with lp3 := x2.lp3 + c.dp * (fixed_read x2 9 - x2.lp3) }
  let y3 : DattorroReverb := { y2 with lp3 := y2.lp3 + c.dp * (fixed_read y2 9 - y2.lp3) }
  let z3 : DattorroReverb := { z2 with lp3 := z2.lp3 + c.dp * (fixed_read z2 9 - z2.lp3) }
  have flp3 : z2.lp3 = a * x2.lp3 + b * y2.lp3 := e2.2.2.2.2.2.2
  have e3 : LinComb a b x3 y3 z3 := linComb_lp3 e2 _ _ _
    (by rw [linComb_fixed_read e2 9, flp3]; ring)
  have glp3 : z3.lp3 = a * x3.lp3 + b * y3.lp3 := e3.2.2.2.2.2.2
  let ux : ℚ := c.dc * x3.lp3 - c.st * fixed_read x3 10
  let uy : ℚ := c.dc * y3.lp3 - c.st * fixed_read y3 10
  let uz : ℚ := c.dc * z3.lp3 - c.st * fixed_read z3 10
  have fu : uz = a * ux + b * uy := by
    show c.dc * z3.lp3 - c.st * fixed_read z3 10 =
      a * (c.dc * x3.lp3 - c.st * fixed_read x3 10) + b * (c.dc * y3.lp3 - c.st * fixed_read y3 10)
    rw [glp3, linComb_fixed_read e3 10]; ring
  let x4 : DattorroReverb := delay_write x3 10 ux
  let y4 : DattorroReverb := delay_write y3 10 uy
  let z4 : DattorroReverb := delay_write z3 10 uz
  have e4 : LinComb a b x4 y4 z4 := linComb_delay_write e3 10 ux uy uz fu
  have e5 : LinComb a b (delay_write x4 11 (fixed_read x3 10 + c.st * ux))
      (delay_write y4 11 (fixed_read y3 10 + c.st * uy))
      (delay_write z4 11 (fixed_read z3 10 + c.st * uz)) :=
    linComb_delay_write e4 11 _ _ _ (by rw [linComb_fixed_read e3 10, fu]; ring)
  exact e5

theorem stage_input_linComb {a b : ℚ} {x y z : DattorroReverb} (h : LinComb a b x y z)
    (c : FrameConsts) (lx ly lz rx ry rz : ℚ) (hl : lz = a * lx + b * ly)
    (hr : rz = a * rx + b * ry) :
    LinComb a b (stage_input c x lx rx) (stage_input c y ly ry) (stage_input c z lz rz) := by
  obtain ⟨h1, h2, h3, h4, h5, h6, h7⟩ := h
  have hyw : y.pre_delay_write_pos = x.pre_delay_write_pos := h1.2.2.2.2.2.1
  have hzw : z.pre_delay_write_pos = x.pre_delay_write_pos := h2.2.2.2.2.2.1
  have hyl : y.pre_delay_length = x.pre_delay_length := h1.2.2.2.2.1
  have hzl : z.pre_delay_length = x.pre_delay_length := h2.2.2.2.2.1
  have hm : mono_input lz rz = a * mono_input lx rx + b * mono_input ly ry := by
    simp only [mono_input, hl, hr]; ring
  have hbuf : ∀ k, (stage_input c z lz rz).pre_delay_buffer k =
      a * (stage_input c x lx rx).pre_delay_buffer k +
        b * (stage_input c y ly ry).pre_delay_buffer k := by
    intro k
    simp only [stage_input_pre_delay_buffer, Function.update_apply, hyw, hzw]
    split_ifs
    · exact hm
    · exact h4 k
  have hout : pre_delay_out c z lz rz =
      a * pre_delay_out c x lx rx + b * pre_delay_out c y ly ry := by
    simp only [pre_delay_out, pre_delay_read_pos, Function.update_apply, hyw, hzw, hyl, hzl]
    split_ifs
    · exact hm
    · exact h4 _
  refine ⟨layout_transfer h1 (stage_input_layout _ _ _ _) (stage_input_layout _ _ _ _),
    layout_transfer h2 (stage_input_layout _ _ _ _) (stage_input_layout _ _ _ _),
    h3, hbuf, ?_, h6, h7⟩
  rw [stage_input_lp1, stage_input_lp1, stage_input_lp1, hout, h5]
  ring

theorem stage_diffusion_linComb {a b : ℚ} {x y z : DattorroReverb} (h : LinComb a b x y z)
    (c : FrameConsts) :
    LinComb a b (stage_diffusion c x).1 (stage_diffusion c y).1 (stage_diffusion c z).1 ∧
    (stage_diffusion c z).2 = a * (stage_diffusion c x).2 + b * (stage_diffusion c y).2 := by
  have h0 := linComb_fixed_read h 0
  have h1 := linComb_fixed_read h 1
  have h2 := linComb_fixed_read h 2
  have h3 := linComb_fixed_read h 3
  have hl : z.lp1 = a * x.lp1 + b * y.lp1 := h.2.2.2.2.1
  let px : ℚ := x.lp1 - c.fi * fixed_read x 0
  let py : ℚ := y.lp1 - c.fi * fixed_read y 0
  let pz : ℚ := z.lp1 - c.fi * fixed_read z 0
  have fp : pz = a * px + b * py := by
    show z.lp1 - c.fi * fixed_read z 0 =
      a * (x.lp1 - c.fi * fixed_read x 0) + b * (y.lp1 - c.fi * fixed_read y 0)
    rw [hl, h0]; ring
  have e1 := linComb_delay_write h 0 px py pz fp
  let qx : ℚ := c.fi * (px - fixed_read x 1) + fixed_read x 0
  let qy : ℚ := c.fi * (py - fixed_read y 1) + fixed_read y 0
  let qz : ℚ := c.fi * (pz - fixed_read z 1) + fixed_read z 0
  have fq : qz = a * qx + b * qy := by
    show c.fi * (pz - fixed_read z 1) + fixed_read z 0 =
      a * (c.fi * (px - fixed_read x 1) + fixed_read x 0) +
        b * (c.fi * (py - fixed_read y 1) + fixed_read y 0)
    rw [fp, h0, h1]; ring
  have e2 := linComb_delay_write e1 1 qx qy qz fq
  let ux : ℚ := c.fi * qx + fixed_read x 1 - c.si * fixed_read x 2
  let uy : ℚ := c.fi * qy + fixed_read y 1 - c.si * fixed_read y 2
  let uz : ℚ := c.fi * qz + fixed_read z 1 - c.si * fixed_read z 2
  have fu : uz = a * ux + b * uy := by
    show c.fi * qz + fixed_read z 1 - c.si * fixed_read z 2 =
      a * (c.fi * qx + fixed_read x 1 - c.si * fixed_read x 2) +
        b * (c.fi * qy + fixed_read y 1 - c.si * fixed_read y 2)
    rw [fq, h1, h2]; ring
  have e3 := linComb_delay_write e2 2 ux uy uz fu
  let vx : ℚ := c.si * (ux - fixed_read x 3) + fixed_read x 2
  let vy : ℚ := c.si * (uy - fixed_read y 3) + fixed_read y 2
  let vz : ℚ := c.si * (uz - fixed_read z 3) + fixed_read z 2
  have fv : vz = a * vx + b * vy := by
    show c.si * (uz - fixed_read z 3) + fixed_read z 2 =
      a * (c.si * (ux - fixed_read x 3) + fixed_read x 2) +
        b * (c.si * (uy - fixed_read y 3) + fixed_read y 2)
    rw [fu, h2, h3]; ring
  have e4 := linComb_delay_write e3 3 vx vy vz fv
  refine ⟨e4, ?_⟩
  show c.si * vz + fixed_read z 3 = a * (c.si * vx + fixed_read x 3) + b * (c.si * vy + fixed_read y 3)
  rw [fv, h3]; ring

theorem wet_linComb {a b : ℚ} {x y z : DattorroReverb} (h : LinComb a b x y z) :
    wet_left z = a * wet_left x + b * wet_left y ∧
    wet_right z = a * wet_right x + b * wet_right y := by
  simp only [wet_left, wet_right, linComb_tap_read h]
  constructor <;> ring

theorem stage_advance_fields (c : FrameConsts) (r : DattorroReverb) :
    (stage_advance c r).sample_rate = r.sample_rate ∧
    (stage_advance c r).params = r.params ∧
    (stage_advance c r).taps = r.taps ∧
    (stage_advance c r).delay_buf = r.delay_buf ∧
    (stage_advance c r).pre_delay_length = r.pre_delay_length ∧
    (stage_advance c r).pre_delay_write_pos =
      Int.tmod (r.pre_delay_write_pos + 1) r.pre_delay_length ∧
    (stage_advance c r).exc_phase =
      (if r.exc_phase + c.ex ≥ 1 then r.exc_phase + c.ex - 1 else r.exc_phase + c.ex) ∧
    (stage_advance c r).lp1 = r.lp1 ∧ (stage_advance c r).lp2 = r.lp2 ∧
    (stage_advance c r).lp3 = r.lp3 ∧
    ∀ j, ((stage_advance c r).delays j).size = (r.delays j).size ∧
      ((stage_advance c r).delays j).mask = (r.delays j).mask ∧
      ((stage_advance c r).delays j).write_pos =
        if j < 12 then Int.land ((r.delays j).write_pos + 1) (r.delays j).mask
        else (r.delays j).write_pos := by
  simp only [stage_advance, for_loop_advance]
  refine ⟨?_, ?_, ?_, ?_, ?_, ?_, ?_, ?_, ?_, ?_, fun j => ?_⟩
  all_goals first
    | (split_ifs <;> rfl)
    | (by_cases hj : j < 12 <;> split_ifs <;> simp [hj])

theorem stage_advance_layout_congr (c : FrameConsts) {x y : DattorroReverb}
    (h : SameLayout x y) : SameLayout (stage_advance c x) (stage_advance c y) := by
  obtain ⟨a1, a2, a3, a4, a5, a6, a7, a8⟩ := h
  obtain ⟨x1, x2, x3, x4, x5, x6, x7, -, -, -, x11⟩ := stage_advance_fields c x
  obtain ⟨y1, y2, y3, y4, y5, y6, y7, -, -, -, y11⟩ := stage_advance_fields c y
  refine ⟨by rw [x1, y1, a1], by rw [x2, y2, a2], by rw [x3, y3, a3], by rw [x4, y4, a4],
    by rw [x5, y5, a5], by rw [x6, y6, a5, a6], by rw [x7, y7, a7], fun j => ?_⟩
  obtain ⟨b1, b2, b3⟩ := a8 j
  rw [(x11 j).1, (x11 j).2.1, (x11 j).2.2, (y11 j).1, (y11 j).2.1, (y11 j).2.2, b1, b2, b3]
  exact ⟨rfl, rfl, rfl⟩

theorem stage_advance_linComb {a b : ℚ} {x y z : DattorroReverb} (h : LinComb a b x y z)
    (c : FrameConsts) :
    LinComb a b (stage_advance c x) (stage_advance c y) (stage_advance c z) := by
  obtain ⟨h1, h2, h3, h4, h5, h6, h7⟩ := h
  obtain ⟨-, -, -, -, -, -, -, x8, x9, x10, -⟩ := stage_advance_fields c x
  obtain ⟨-, -, -, -, -, -, -, y8, y9, y10, -⟩ := stage_advance_fields c y
  obtain ⟨-, -, -, -, -, -, -, z8, z9, z10, -⟩ := stage_advance_fields c z
  refine ⟨stage_advance_layout_congr c h1, stage_advance_layout_congr c h2, fun j k => ?_,
    fun k => ?_, by rw [x8, y8, z8, h5], by rw [x9, y9, z9, h6], by rw [x10, y10, z10, h7]⟩
  · rw [stage_advance_buffer, stage_advance_buffer, stage_advance_buffer]; exact h3 j k
  · rw [stage_advance_pre_delay_buffer, stage_advance_pre_delay_buffer,
      stage_advance_pre_delay_buffer]; exact h4 k

theorem frame_tank_linComb (m : Libm) (c : FrameConsts) (i : ℕ) {a b : ℚ}
    {x y z : DattorroReverb} (h : LinComb a b x y z) (bx bz by_ : ℤ → ℚ)
    (hb : ∀ k, bz k = a * bx k + b * by_ k) :
    LinComb a b (frame_tank m c i (x, bx)) (frame_tank m c i (y, by_))
      (frame_tank m c i (z, bz)) := by
  have e1 := stage_input_linComb h c _ _ _ _ _ _ (hb (i * 2)) (hb (i * 2 + 1))
  obtain ⟨e2, hsplit⟩ := stage_diffusion_linComb e1 c
  have hy : (stage_diffusion c (stage_input c y (by_ (i * 2)) (by_ (i * 2 + 1)))).1.exc_phase =
      (stage_diffusion c (stage_input c x (bx (i * 2)) (bx (i * 2 + 1)))).1.exc_phase :=
    e2.1.2.2.2.2.2.2.1
  have hz : (stage_diffusion c (stage_input c z (bz (i * 2)) (bz (i * 2 + 1)))).1.exc_phase =
      (stage_diffusion c (stage_input c x (bx (i * 2)) (bx (i * 2 + 1)))).1.exc_phase :=
    e2.2.1.2.2.2.2.2.2.1
  simp only [frame_tank, hy, hz]
  exact stage_right_linComb (stage_left_linComb e2 c _ _ _ _ hsplit) c _ _ _ _ hsplit

theorem process_frame_linComb (m : Libm) (c : FrameConsts) (i : ℕ) {a b : ℚ}
    {x y z : DattorroReverb} (h : LinComb a b x y z) (bx bz by_ : ℤ → ℚ)
    (hb : ∀ k, bz k = a * bx k + b * by_ k) :
    LinComb a b (process_frame m c i (x, bx)).1 (process_frame m c i (y, by_)).1
      (process_frame m c i (z, bz)).1 ∧
    ∀ k, (process_frame m c i (z, bz)).2 k =
      a * (process_frame m c i (x, bx)).2 k + b * (process_frame m c i (y, by_)).2 k := by
  have e := frame_tank_linComb m c i h bx bz by_ hb
  obtain ⟨wl, wr⟩ := wet_linComb e
  refine ⟨?_, fun k => ?_⟩
  · rw [process_frame_fst, process_frame_fst, process_frame_fst]
    exact stage_advance_linComb e c
  · simp only [process_frame_snd, Function.update_apply, wl, wr, hb (i * 2), hb (i * 2 + 1)]
    split_ifs
    · ring
    · ring
    · exact hb k

theorem run_frames_linComb (m : Libm) (c : FrameConsts) {a b : ℚ}
    {x y z : DattorroReverb} (h : LinComb a b x y z) (bx bz by_ : ℤ → ℚ)
    (hb : ∀ k, bz k = a * bx k + b * by_ k) (n : ℕ) :
    LinComb a b (run_frames m c x bx n).1 (run_frames m c y by_ n).1 (run_frames m c z bz n).1 ∧
    ∀ k, (run_frames m c z bz n).2 k =
      a * (run_frames m c x bx n).2 k + b * (run_frames m c y by_ n).2 k := by
  induction n with
  | zero => exact ⟨h, hb⟩
  | succ n ih =>
    rw [run_frames_succ, run_frames_succ, run_frames_succ]
    exact process_frame_linComb m c n ih.1 _ _ _ ih.2

theorem linComb_of_silent (a b : ℚ) (r : DattorroReverb) (h : Silent r) : LinComb a b r r r := by
  obtain ⟨h1, h2, h3, h4, h5⟩ := h
  refine ⟨SameLayout.refl r, SameLayout.refl r, fun j k => by rw [h1 j k]; ring,
    fun k => by rw [h2 k]; ring, by rw [h3]; ring, by rw [h4]; ring, by rw [h5]; ring⟩

/-- C21. The reverb is linear in its input. Take an engine left by a successful
`dattorro_reverb_init`, then any list of parameter settings. For all buffers
`x` and `y`, all scalars `a` and `b` and every frame count, processing the
buffer `a * x + b * y` gives, sample for sample, `a` times the output for `x`
plus `b` times the output for `y`; the three engines end with the same cursors,
phase and parameters, and the stored samples and filter states of the engine
that processed `a * x + b * y` are the same combination of those of the other
two. Arithmetic is exact and `cosf`, `sinf` are arbitrary fixed functions. -/
theorem process_is_linear (m : Libm) (reverb : DattorroReverb) (sample_rate : ℚ)
    (settings : List (ℤ × ℚ)) (x y : ℤ → ℚ) (a b : ℚ) (num_frames : ℤ)
    (hinit : (dattorro_reverb_init reverb sample_rate).1 = true) :
    (∀ k,
      (dattorro_reverb_process m
        (apply_settings settings (dattorro_reverb_init reverb sample_rate).2)
        (fun i => a * x i + b * y i) num_frames).2 k =
      a * (dattorro_reverb_process m
        (apply_settings settings (dattorro_reverb_init reverb sample_rate).2)
        x num_frames).2 k +
      b * (dattorro_reverb_process m
        (apply_settings settings (dattorro_reverb_init reverb sample_rate).2)
        y num_frames).2 k) ∧
    LinComb a b
      (dattorro_reverb_process m
        (apply_settings settings (dattorro_reverb_init reverb sample_rate).2)
        x num_frames).1
      (dattorro_reverb_process m
        (apply_settings settings (dattorro_reverb_init reverb sample_rate).2)
        y num_frames).1
      (dattorro_reverb_process m
        (apply_settings settings (dattorro_reverb_init reverb sample_rate).2)
        (fun i => a * x i + b * y i) num_frames).1 := by
  have hs : Silent (apply_settings settings (dattorro_reverb_init reverb sample_rate).2) :=
    apply_settings_silent settings _ (init_silent reverb sample_rate ((init_true_iff _ _).1 hinit))
  have h := run_frames_linComb m
    (frame_consts (apply_settings settings (dattorro_reverb_init reverb sample_rate).2))
    (linComb_of_silent a b _ hs) x (fun i => a * x i + b * y i) y (fun _ => rfl)
    num_frames.toNat
  simp only [process_eq_run_frames]
  exact ⟨h.2, h.1⟩

theorem process_is_linear_witness :
    (dattorro_reverb_init used_engine 44100).1 = true ∧
    ((∀ k,
      (dattorro_reverb_process sample_libm
        (apply_settings [(DECAY, 0.9), (WET, 1)] (dattorro_reverb_init used_engine 44100).2)
        (fun i => 2 * ramp_input i + 3 * unit_input i) 5).2 k =
      2 * (dattorro_reverb_process sample_libm
        (apply_settings [(DECAY, 0.9), (WET, 1)] (dattorro_reverb_init used_engine 44100).2)
        ramp_input 5).2 k +
      3 * (dattorro_reverb_process sample_libm
        (apply_settings [(DECAY, 0.9), (WET, 1)] (dattorro_reverb_init used_engine 44100).2)
        unit_input 5).2 k) ∧
    LinComb 2 3
      (dattorro_reverb_process sample_libm
        (apply_settings [(DECAY, 0.9), (WET, 1)] (dattorro_reverb_init used_engine 44100).2)
        ramp_input 5).1
      (dattorro_reverb_process sample_libm
        (apply_settings [(DECAY, 0.9), (WET, 1)] (dattorro_reverb_init used_engine 44100).2)
        unit_input 5).1
      (dattorro_reverb_process sample_libm
        (apply_settings [(DECAY, 0.9), (WET, 1)] (dattorro_reverb_init used_engine 44100).2)
        (fun i => 2 * ramp_input i + 3 * unit_input i) 5).1) :=
  ⟨(init_true_iff _ _).2 (by norm_num [DATTORRO_MAX_SR]),
   process_is_linear sample_libm used_engine 44100 [(DECAY, 0.9), (WET, 1)]
    ramp_input unit_input 2 3 5
    ((init_true_iff _ _).2 (by norm_num [DATTORRO_MAX_SR]))⟩

/-! ## Block-size independence -/

theorem frame_tank_congr (m : Libm) (c : FrameConsts) (i j : ℕ)
    (s t : DattorroReverb × (ℤ → ℚ)) (h1 : s.1 = t.1)
    (h2 : s.2 (i * 2) = t.2 (j * 2)) (h3 : s.2 (i * 2 + 1) = t.2 (j * 2 + 1)) :
    frame_tank m c i s = frame_tank m c j t := by
  simp only [frame_tank, h1, h2, h3]

theorem process_frame_shift (m : Libm) (c : FrameConsts) (i N : ℕ)
    (s : DattorroReverb × (ℤ → ℚ)) :
    process_frame m c i (s.1, fun k => s.2 (k + 2 * (N : ℤ))) =
      ((process_frame m c (i + N) s).1,
        fun k => (process_frame m c (i + N) s).2 (k + 2 * (N : ℤ))) := by
  have e0 : (i : ℤ) * 2 + 2 * (N : ℤ) = ((i + N : ℕ) : ℤ) * 2 := by push_cast; ring
  have e1 : (i : ℤ) * 2 + 1 + 2 * (N : ℤ) = ((i + N : ℕ) : ℤ) * 2 + 1 := by push_cast; ring
  have hft : frame_tank m c i (s.1, fun k => s.2 (k + 2 * (N : ℤ))) =
      frame_tank m c (i + N) s :=
    frame_tank_congr m c i (i + N) _ s rfl (congrArg s.2 e0) (congrArg s.2 e1)
  refine Prod.ext ?_ ?_
  · rw [process_frame_fst, process_frame_fst, hft]
  · funext k
    have c0 : (k + 2 * (N : ℤ) = ((i + N : ℕ) : ℤ) * 2) ↔ (k = (i : ℤ) * 2) := by
      push_cast; constructor <;> intro h <;> linarith
    have c1 : (k + 2 * (N : ℤ) = ((i + N : ℕ) : ℤ) * 2 + 1) ↔ (k = (i : ℤ) * 2 + 1) := by
      push_cast; constructor <;> intro h <;> linarith
    show (process_frame m c i (s.1, fun k => s.2 (k + 2 * (N : ℤ)))).2 k =
      (process_frame m c (i + N) s).2 (k + 2 * (N : ℤ))
    rw [process_frame_snd, process_frame_snd, hft]
    simp only [Function.update_apply, c0, c1, e0, e1]

theorem for_loop_add {σ : Type} (N k : ℕ) (body : ℕ → σ → σ) (s : σ) :
    for_loop (N + k) body s = for_loop k (fun i => body (i + N)) (for_loop N body s) := by
  induction k with
  | zero => rfl
  | succ k ih =>
    rw [← Nat.add_assoc, for_loop_succ, for_loop_succ, ih, Nat.add_comm k N]

theorem for_loop_shift (m : Libm) (c : FrameConsts) (N k : ℕ)
    (s : DattorroReverb × (ℤ → ℚ)) :
    for_loop k (process_frame m c) (s.1, fun j => s.2 (j + 2 * (N : ℤ))) =
      ((for_loop k (fun i => process_frame m c (i + N)) s).1,
        fun j => (for_loop k (fun i => process_frame m c (i + N)) s).2 (j + 2 * (N : ℤ))) := by
  induction k with
  | zero => rfl
  | succ k ih =>
    rw [for_loop_succ, for_loop_succ, ih]
    exact process_frame_shift m c k N _

theorem frame_consts_congr {r s : DattorroReverb} (hp : s.params = r.params)
    (hs : s.sample_rate = r.sample_rate) : frame_consts s = frame_consts r := by
  simp only [frame_consts, hp, hs]

/-- C22. Block-size independence. For every engine state, every interleaved
buffer and all frame counts `n` and `k` that are not negative, one call of
`dattorro_reverb_process` on `n + k` frames leaves the same buffer and the same
engine as a call on `n` frames followed by a call on `k` frames at the pointer
`buffer + 2 * n`, the parameters being left alone in between. A call whose
frame count is zero or negative changes neither the buffer nor the engine. -/
theorem block_size_independence (m : Libm) (reverb : DattorroReverb) (buffer : ℤ → ℚ)
    (n k : ℤ) :
    (0 ≤ n → 0 ≤ k →
      dattorro_reverb_process m reverb buffer (n + k) =
        dattorro_reverb_process_at m (dattorro_reverb_process m reverb buffer n).1
          (dattorro_reverb_process m reverb buffer n).2 (2 * n) k) ∧
    (n ≤ 0 → dattorro_reverb_process m reverb buffer n = (reverb, buffer)) := by
  refine ⟨fun hn hk => ?_, fun h => ?_⟩
  · obtain ⟨hsr, hp, -⟩ := run_frames_layout m (frame_consts reverb) reverb buffer n.toNat
    have hc : frame_consts (dattorro_reverb_process m reverb buffer n).1 =
        frame_consts reverb := frame_consts_congr hp hsr
    have h2n : 2 * n = 2 * ((n.toNat : ℕ) : ℤ) := by rw [Int.toNat_of_nonneg hn]
    unfold dattorro_reverb_process_at
    simp only []
    rw [h2n]
    unfold dattorro_reverb_process at hc ⊢
    rw [hc, for_loop_shift, Int.toNat_add hn hk, for_loop_add]
    refine Prod.ext rfl ?_
    funext j
    simp only [sub_add_cancel]
  · rw [process_eq_run_frames, Int.toNat_eq_zero.2 h, run_frames_zero]

theorem block_size_independence_witness :
    dattorro_reverb_process sample_libm used_engine ramp_input (3 + 2) =
      dattorro_reverb_process_at sample_libm
        (dattorro_reverb_process sample_libm used_engine ramp_input 3).1
        (dattorro_reverb_process sample_libm used_engine ramp_input 3).2 (2 * 3) 2 ∧
    dattorro_reverb_process sample_libm used_engine ramp_input (-4) =
      (used_engine, ramp_input) :=
  ⟨(block_size_independence sample_libm used_engine ramp_input 3 2).1 (by decide) (by decide),
   (block_size_independence sample_libm used_engine ramp_input (-4) 0).2 (by decide)⟩

end Dattorro
